import Mathlib

/-!
# Elisa catalogue store: `DatabaseInterface`

A shallow embedding of `src/databaseinterface.cpp`, followed by one of the tree model of
`src/localalbummodel.cpp` (section `LocalAlbumModel`), which keeps a store of its own.

* The SQL store behind `QSqlDatabase` is modelled as explicit relations: lists of rows in
  the order of the table, together with the constraints declared by `initDatabase`
  (`NOT NULL`, `UNIQUE`).  An insert appends its row, with the next row id, so row ids
  ascend along the lists of every store the writers build (`IdsAscending`); the lookups by
  key filter these lists.  No statement of the source has an `ORDER BY`: the one statement
  that scans a whole relation, `SELECT ID FROM Albums`, is answered by SQLite from the
  covering index behind `UNIQUE (Title, Artist)`, so its ids come in the order of that
  index, not of the table (`selectAlbumIds`).  A statement on a relation that does not
  exist fails to prepare and to execute.
* A null `QString` bound to a statement is SQL `NULL`: it equals no stored value and
  violates `NOT NULL`; an empty non-null string is an ordinary value.
* Calls whose result does not depend on the catalogue content (`transaction()`, `commit()`,
  schema statements) read their result from a script carried by the store, so that every
  outcome of those calls can be explored; an exhausted script means success.
* Integers read back through `QVariant::toInt()` are narrowed to 32 bits; sizes of in-memory
  containers are exact.
-/

namespace Elisa

/-! ## Qt value types -/

/-- A `QString`: `none` is the null string, `some ""` the empty non-null one. -/
abbrev QString := Option String

/-- Models `QString::isNull()`. -/
def QString.isNull (s : QString) : Bool :=
  match s with
  | none => true
  | some _ => false

/-- Models `QString::isEmpty()`: true for the null string and for the empty one. -/
def QString.isEmpty (s : QString) : Bool :=
  match s with
  | none => true
  | some t => decide (t = "")

/-- The characters of a `QString`; Qt compares and hashes the null string as the empty one. -/
def QString.text (s : QString) : String :=
  match s with
  | none => ""
  | some t => t

/-- Models `QUrl::fromLocalFile`, with a `QUrl` kept in its string form: an empty path gives the
empty URL, any other path the `file://` URL of that path. -/
def QUrl.fromLocalFile (path : QString) : String :=
  if QString.isEmpty path then "" else "file://" ++ QString.text path

/-- Models `QTime::isValid()` on the millisecond count a `QTime` holds. -/
def QTime.isValid (mds : Int) : Bool :=
  decide (0 ≤ mds) && decide (mds < 86400000)

/-- Models `QTime::msecsSinceStartOfDay()`: zero for an invalid time. -/
def QTime.msecsSinceStartOfDay (mds : Int) : Int :=
  if QTime.isValid mds then mds else 0

/-- Models `QTime::fromMSecsSinceStartOfDay`. -/
def QTime.fromMSecsSinceStartOfDay (msecs : Int) : Int := msecs

/-- Models `QVariant::toInt()` on a 64-bit integer: the value is narrowed to a 32-bit `int`. -/
def toInt (v : Int) : Int := (v + 2147483648) % 4294967296 - 2147483648

/-- Conversion of an `int` to `quintptr` (64-bit, unsigned). -/
def toQuintptr (v : Int) : Int := v % 18446744073709551616

/-- Models `QHash::find` / `QHash::value` on an association list. -/
def QHash.find {β : Type} (h : List (Int × β)) (k : Int) : Option β :=
  match h with
  | [] => none
  | (k1, v1) :: rest => if k1 = k then some v1 else QHash.find rest k

/-- Models `QHash::insert`, as used by `h[k] = v`: the entry for `k` is replaced or created. -/
def QHash.insert {β : Type} (h : List (Int × β)) (k : Int) (v : β) : List (Int × β) :=
  (k, v) :: h.filter (fun e => !decide (e.1 = k))

/-- Lookup in `QHash<QString, QString>`; a missing key yields the null string. -/
def QHash.value (h : List (String × QString)) (k : QString) : QString :=
  match h with
  | [] => none
  | (k1, v1) :: rest => if k1 = QString.text k then v1 else QHash.value rest k

/-- Models `QMap::insert`, as used by `m[k] = v`: keys are kept in ascending order. -/
def QMap.insert {β : Type} (m : List (Int × β)) (k : Int) (v : β) : List (Int × β) :=
  match m with
  | [] => [(k, v)]
  | (k1, v1) :: rest =>
    if k < k1 then (k, v) :: (k1, v1) :: rest
    else if k = k1 then (k, v) :: rest
    else (k1, v1) :: QMap.insert rest k v

/-! ## Entities -/

/-- Modelled from the spec: the class `MusicAudioTrack` is declared outside the source files
at hand; these are the fields the store reads and writes through its accessors (title, album
label, artist, resource location, track number, duration, plus database id, parent id and
validity flag).  A default-constructed track has null strings and a null `QTime`. -/
structure MusicAudioTrack where
  databaseId : Int := 0
  title : QString := none
  parentId : QString := none
  artist : QString := none
  albumName : QString := none
  resourceURI : String := ""
  trackNumber : Int := 0
  duration : Int := -1
  valid : Bool := false
deriving DecidableEq, Repr

/-- Modelled from the spec: the class `MusicAlbum` is declared outside the source files at
hand; these are the fields the store reads and writes through its accessors (store id,
title, external id, artist, cover URL, track count, the ordered mapping of track ids to
tracks, its keys, validity flag).  A default-constructed album is empty and invalid. -/
structure MusicAlbum where
  databaseId : Int := 0
  title : QString := none
  id : QString := none
  artist : QString := none
  albumArtURI : String := ""
  tracksCount : Int := 0
  tracks : List (Int × MusicAudioTrack) := []
  trackIds : List Int := []
  valid : Bool := false
deriving DecidableEq, Repr

/-! ## The relational store -/

/-- A row of `Albums`. -/
structure AlbumRow where
  id : Int
  title : String
  artist : String
  coverFileName : String
  tracksCount : Int
  albumInternalID : Option String
deriving DecidableEq, Repr

/-- A row of `Tracks`. -/
structure TrackRow where
  id : Int
  title : String
  albumID : Int
  artist : String
  fileName : String
  trackNumber : Int
  duration : Int
deriving DecidableEq, Repr

/-- The store behind `mTracksDatabase`: which relations exist, their rows in the order of the
table, and the scripted results of the calls that can fail for reasons outside the
catalogue content (an exhausted script means success). -/
structure Database where
  hasDiscoverSource : Bool := false
  hasAlbums : Bool := false
  hasTracks : Bool := false
  hasTracksMapping : Bool := false
  hasTracksAlbumIndex : Bool := false
  albums : List AlbumRow := []
  tracks : List TrackRow := []
  outcomes : List Bool := []
deriving DecidableEq, Repr

/-- Result of the next scripted store call. -/
def Database.nextOutcome (db : Database) : Bool × Database :=
  match db.outcomes with
  | [] => (true, db)
  | b :: rest => (b, { db with outcomes := rest })

/-- Models `QSqlDatabase::transaction()`. -/
def Database.transaction (db : Database) : Bool × Database := db.nextOutcome

/-- Models `QSqlDatabase::commit()`; rows written on the connection stay visible to it. -/
def Database.commit (db : Database) : Bool × Database := db.nextOutcome

/-- Row id given by SQLite to a new row: one more than the largest id in use, 1 in an
empty relation. -/
def nextRowId (ids : List Int) : Int :=
  match ids with
  | [] => 1
  | x :: xs => xs.foldl max x + 1

/-- Statement `SELECT ID FROM Albums WHERE Title = :title` (the `Artist` clause is commented out in
the source, and the `:artist` binding has no placeholder).  A null title binds `NULL`,
which equals nothing; a statement on a missing relation yields no row. -/
def selectAlbumByTitle (db : Database) (title : QString) : List Int :=
  if db.hasAlbums then
    match title with
    | none => []
    | some t => (db.albums.filter (fun r => decide (r.title = t))).map (fun r => r.id)
  else []

/-- Statement `INSERT INTO Albums (Title, Artist, CoverFileName, TracksCount)`: fails on a missing
relation, on a `NULL` title or artist, and on a stored `(Title, Artist)` pair. -/
def insertAlbum (db : Database) (title artist : QString) (cover : String) (tracksCount : Int) :
    Option Database :=
  if db.hasAlbums then
    match title, artist with
    | some t, some a =>
      if db.albums.any (fun r => decide (r.title = t) && decide (r.artist = a)) then none
      else some { db with albums := db.albums ++
        [{ id := nextRowId (db.albums.map (fun r => r.id)), title := t, artist := a,
           coverFileName := cover, tracksCount := tracksCount, albumInternalID := none }] }
    | _, _ => none
  else none

/-- Statement `SELECT ID FROM Tracks WHERE Title = :title AND AlbumID = :album AND Artist = :artist`. -/
def selectTrack (db : Database) (title : QString) (album : Int) (artist : QString) : List Int :=
  if db.hasTracks then
    match title, artist with
    | some t, some a =>
      (db.tracks.filter (fun r => decide (r.title = t) && decide (r.albumID = album) &&
        decide (r.artist = a))).map (fun r => r.id)
    | _, _ => []
  else []

/-- Statement `INSERT INTO Tracks (Title, AlbumID, Artist, FileName, TrackNumber, Duration)`: fails on
a missing relation, on a `NULL` title or artist, on a stored `FileName` and on a stored
`(Title, AlbumID, Artist)` triple.  The connection option `foreign_keys = ON` is not an
option of the SQLite driver, so the reference to `Albums` is not checked. -/
def insertTrack (db : Database) (title : QString) (album : Int) (artist : QString)
    (fileName : String) (trackNumber duration : Int) : Option Database :=
  if db.hasTracks then
    match title, artist with
    | some t, some a =>
      if db.tracks.any (fun r => decide (r.fileName = fileName)) then none
      else if db.tracks.any (fun r => decide (r.title = t) && decide (r.albumID = album) &&
          decide (r.artist = a)) then none
      else some { db with tracks := db.tracks ++
        [{ id := nextRowId (db.tracks.map (fun r => r.id)), title := t, albumID := album,
           artist := a, fileName := fileName, trackNumber := trackNumber,
           duration := duration }] }
    | _, _ => none
  else none

/-- Statement `SELECT ... FROM Albums WHERE ID = :albumId`. -/
def selectAlbumById (db : Database) (albumId : Int) : List AlbumRow :=
  db.albums.filter (fun r => decide (r.id = albumId))

/-- Statement `SELECT ... FROM Tracks WHERE AlbumID = :albumId`. -/
def selectTracksOfAlbum (db : Database) (albumId : Int) : List TrackRow :=
  db.tracks.filter (fun r => decide (r.albumID = albumId))

/-- Statement `SELECT AlbumID FROM Tracks WHERE ID = :trackId`. -/
def selectTrackById (db : Database) (trackId : Int) : List TrackRow :=
  db.tracks.filter (fun r => decide (r.id = trackId))

/-- Statement `UPDATE Albums SET TracksCount = :tracksCount WHERE ID = :albumId`. -/
def updateAlbumTracksCount (db : Database) (albumId tracksCount : Int) : Database :=
  { db with albums := db.albums.map (fun r =>
      if r.id = albumId then { r with tracksCount := tracksCount } else r) }

/-- One schema statement: its scripted result decides whether the change is applied. -/
def execCreate (db : Database) (change : Database → Database) : Database :=
  if db.nextOutcome.1 then change db.nextOutcome.2 else db.nextOutcome.2

/-! ## `DatabaseInterface` -/

/-- The members of `DatabaseInterfacePrivate`. -/
structure DatabaseInterface where
  mTracksDatabase : Database := {}
  mIndexByPosition : List Int := []
  mPositionByIndex : List (Int × Int) := []
  mAlbumCache : List (Int × MusicAlbum) := []
deriving DecidableEq, Repr

/-- Models `DatabaseInterface::initDatabase`. -/
def initDatabase (db : Database) : Database :=
  let db1 := if db.hasDiscoverSource then db
    else execCreate db (fun d => { d with hasDiscoverSource := true })
  let db2 := if db1.hasAlbums then db1
    else execCreate db1 (fun d => { d with hasAlbums := true })
  let db3 := if db2.hasTracks then db2
    else execCreate db2 (fun d => { d with hasTracks := true })
  let db4 := if db3.hasTracksMapping then db3
    else execCreate db3 (fun d => { d with hasTracksMapping := true })
  execCreate db4 (fun d => if d.hasTracks then { d with hasTracksAlbumIndex := true } else d)

/-- The constructor: the connection is opened on the shared in-memory store, whatever it
holds, and `initDatabase` is run; the index and the cache start empty. -/
def DatabaseInterface.construct (store : Database) : DatabaseInterface :=
  { mTracksDatabase := initDatabase store }

/-- Models `DatabaseInterface::updateTracksCount`. -/
def updateTracksCount (db : Database) (albumId : Int) (tracksCount : Int) : Database :=
  if db.hasAlbums then
    match selectAlbumById db albumId with
    | [] => db
    | row :: _ =>
      if toInt row.tracksCount ≠ tracksCount then updateAlbumTracksCount db albumId tracksCount
      else db
  else db

/-- The track built by `fetchTracks` from one row. -/
def trackOfRow (r : TrackRow) : MusicAudioTrack :=
  { databaseId := r.id, title := some r.title, parentId := some (toString r.albumID),
    artist := some r.artist, resourceURI := r.fileName, trackNumber := toInt r.trackNumber,
    duration := QTime.fromMSecsSinceStartOfDay (toInt r.duration), valid := true }

/-- Models `DatabaseInterface::fetchTracks`: the mapping returned and the store after the recount. -/
def fetchTracks (db : Database) (albumId : Int) : List (Int × MusicAudioTrack) × Database :=
  if db.hasTracks then
    let allTracks := (selectTracksOfAlbum db albumId).foldl
      (fun m r => QMap.insert m (trackOfRow r).databaseId (trackOfRow r)) []
    (allTracks, updateTracksCount db albumId allTracks.length)
  else ([], db)

/-- Models `DatabaseInterface::albumFromId`. -/
def albumFromId (s : DatabaseInterface) (albumId : Int) : MusicAlbum × DatabaseInterface :=
  if s.mTracksDatabase.hasAlbums then
    match selectAlbumById s.mTracksDatabase albumId with
    | [] => ({}, s)
    | row :: _ =>
      match QHash.find s.mAlbumCache albumId with
      | none =>
        let fetched := fetchTracks s.mTracksDatabase row.id
        let retrievedAlbum : MusicAlbum :=
          { databaseId := row.id, title := some row.title, id := row.albumInternalID,
            artist := some row.artist, albumArtURI := row.coverFileName,
            tracksCount := toInt row.tracksCount, tracks := fetched.1,
            trackIds := fetched.1.map (fun e => e.1), valid := true }
        (retrievedAlbum, { s with mTracksDatabase := fetched.2,
                                  mAlbumCache := QHash.insert s.mAlbumCache albumId retrievedAlbum })
      | some cached => (cached, s)
  else ({}, s)

/-- Models `DatabaseInterface::albumFromIndex`. -/
def albumFromIndex (s : DatabaseInterface) (albumIndex : Int) : MusicAlbum × DatabaseInterface :=
  if albumIndex < 0 ∨ albumIndex ≥ s.mIndexByPosition.length then ({}, s)
  else albumFromId s (s.mIndexByPosition.getD albumIndex.toNat 0)

/-- Models `DatabaseInterface::albumIdFromTrackId`. -/
def albumIdFromTrackId (s : DatabaseInterface) (trackId : Int) : Int :=
  if s.mTracksDatabase.hasTracks then
    match selectTrackById s.mTracksDatabase trackId with
    | [] => -1
    | row :: _ => toInt row.albumID
  else -1

/-- Models `DatabaseInterface::albumCount`. -/
def albumCount (s : DatabaseInterface) : Int :=
  if s.mTracksDatabase.hasAlbums then toInt s.mTracksDatabase.albums.length else 0

/-- Models `DatabaseInterface::albumPositionByIndex`: `operator[]` on the non-const hash creates a
zero entry for an absent key. -/
def albumPositionByIndex (s : DatabaseInterface) (index : Int) : Int × DatabaseInterface :=
  match QHash.find s.mPositionByIndex index with
  | some position => (position, s)
  | none => (0, { s with mPositionByIndex := QHash.insert s.mPositionByIndex index 0 })

/-- The fill loop of `updateIndexCache` over the selected ids. -/
def fillIndex (ids : List Int) (byPosition : List Int) (byIndex : List (Int × Int)) :
    List Int × List (Int × Int) :=
  match ids with
  | [] => (byPosition, byIndex)
  | id :: rest => fillIndex rest (byPosition ++ [id]) (QHash.insert byIndex id byPosition.length)

/-- The entry of an album row in the index behind `UNIQUE (Title, Artist)`: the title, the
artist and the row id, compared in this order, the strings by the code points of their
characters (the order of the `BINARY` collation on UTF-8 text). -/
def AlbumRow.indexEntry (r : AlbumRow) : Lex (List Nat × Lex (List Nat × Int)) :=
  toLex (r.title.data.map Char.toNat, toLex (r.artist.data.map Char.toNat, r.id))

/-- The row id held by an index entry. -/
def entryId (e : Lex (List Nat × Lex (List Nat × Int))) : Int := (ofLex (ofLex e).2).2

/-- The entries of the index behind `UNIQUE (Title, Artist)`, in the order of the index. -/
def indexEntries (db : Database) : List (Lex (List Nat × Lex (List Nat × Int))) :=
  (db.albums.map AlbumRow.indexEntry).insertionSort (fun a b => a ≤ b)

/-- Statement `SELECT ID FROM Albums`.  It names no order; every column it reads is in the
index behind `UNIQUE (Title, Artist)`, and SQLite scans that index: the ids come in the order of
the `(Title, Artist)` pairs, not in the order of the ids. -/
def selectAlbumIds (db : Database) : List Int := (indexEntries db).map entryId

/-- Models `DatabaseInterface::updateIndexCache`. -/
def updateIndexCache (s : DatabaseInterface) : DatabaseInterface :=
  let db := initDatabase s.mTracksDatabase
  if db.hasAlbums then
    let filled := fillIndex (selectAlbumIds db) [] []
    { mTracksDatabase := db, mIndexByPosition := filled.1, mPositionByIndex := filled.2,
      mAlbumCache := [] }
  else { s with mTracksDatabase := db }

/-- How a loop body ends: with the next element, or with the function returning. -/
inductive Flow (σ : Type) where
  | next (st : σ)
  | stop (st : σ)
deriving DecidableEq, Repr

/-- The end of a loop body: `commit()`, and `return` when it fails. -/
def commitAnd {σ : Type} (db : Database) (k : Database → σ) : Flow σ :=
  if db.commit.1 then Flow.next (k db.commit.2) else Flow.stop (k db.commit.2)

/-- Locals of `insertAlbumsList` that live across iterations. -/
structure AlbumsLocals where
  db : Database
  albumId : Int
deriving DecidableEq, Repr

/-- Body of the loop of `insertAlbumsList` for one album. -/
def insertAlbumsBody (st : AlbumsLocals) (album : MusicAlbum) : Flow AlbumsLocals :=
  if st.db.transaction.1 then
    let db := st.db.transaction.2
    match selectAlbumByTitle db album.title with
    | found :: _ =>
      commitAnd db (fun d => { db := d, albumId := max st.albumId (toInt found) })
    | [] =>
      match insertAlbum db album.title album.artist album.albumArtURI album.tracksCount with
      | none => commitAnd db (fun d => { db := d, albumId := st.albumId })
      | some db1 =>
        if db1.hasAlbums then
          match selectAlbumByTitle db1 album.title with
          | found :: _ =>
            commitAnd db1 (fun d => { db := d, albumId := max st.albumId (toInt found) })
          | [] => commitAnd db1 (fun d => { db := d, albumId := st.albumId })
        else commitAnd db1 (fun d => { db := d, albumId := st.albumId })
  else Flow.stop { st with db := st.db.transaction.2 }

/-- A `for` loop whose body may return from the function. -/
def runLoop {σ α : Type} (body : σ → α → Flow σ) (st : σ) (xs : List α) : Flow σ :=
  match xs with
  | [] => Flow.next st
  | x :: rest =>
    match body st x with
    | Flow.next st1 => runLoop body st1 rest
    | Flow.stop st1 => Flow.stop st1

/-- Models `DatabaseInterface::insertAlbumsList`. -/
def insertAlbumsList (s : DatabaseInterface) (allAlbums : List MusicAlbum) : DatabaseInterface :=
  match runLoop insertAlbumsBody { db := s.mTracksDatabase, albumId := 0 } allAlbums with
  | Flow.next st => updateIndexCache { s with mTracksDatabase := st.db }
  | Flow.stop st => { s with mTracksDatabase := st.db }

/-- The three assignments of the metadata scan of `insertTracksList` for one track: each
field is taken from the track while it is still unresolved. -/
def scanTrack (covers : List (String × QString)) (newAlbum : MusicAlbum)
    (track : MusicAudioTrack) : MusicAlbum :=
  let a1 := if QString.isNull newAlbum.artist then { newAlbum with artist := track.artist }
    else newAlbum
  let a2 := if QString.isNull a1.title then { a1 with title := track.albumName } else a1
  if a2.albumArtURI = "" then
    { a2 with albumArtURI := QUrl.fromLocalFile (QHash.value covers track.albumName) }
  else a2

/-- The test that ends the metadata scan: artist, title and cover are all resolved. -/
def scanResolved (newAlbum : MusicAlbum) : Bool :=
  !QString.isNull newAlbum.artist && !QString.isNull newAlbum.title &&
    !decide (newAlbum.albumArtURI = "")

/-- The metadata scan of `insertTracksList` over the tracks of one group. -/
def scanMetadata (covers : List (String × QString)) (newAlbum : MusicAlbum)
    (album : List MusicAudioTrack) : MusicAlbum :=
  match album with
  | [] => newAlbum
  | track :: rest =>
    if scanResolved (scanTrack covers newAlbum track) then scanTrack covers newAlbum track
    else scanMetadata covers (scanTrack covers newAlbum track) rest

/-- Body of the track loop of `insertTracksList` for one track. -/
def insertTrackBody (newAlbum : MusicAlbum) (albumId : Int) (db : Database)
    (track : MusicAudioTrack) : Database :=
  let artistName := if QString.isEmpty track.artist then newAlbum.artist else track.artist
  match selectTrack db track.title albumId artistName with
  | _ :: _ => db
  | [] =>
    match insertTrack db track.title albumId artistName track.resourceURI track.trackNumber
        (QTime.msecsSinceStartOfDay track.duration) with
    | none => db
    | some db1 => db1

/-- Locals of `insertTracksList` that live across iterations. -/
structure TracksLocals where
  db : Database
  maximumAlbumId : Int
  albumId : Int
deriving DecidableEq, Repr

/-- The track loop and the closing `commit()` of one group. -/
def insertGroupTracks (newAlbum : MusicAlbum) (maximumAlbumId albumId : Int) (db : Database)
    (album : List MusicAudioTrack) : Flow TracksLocals :=
  commitAnd (album.foldl (insertTrackBody newAlbum albumId) db)
    (fun d => { db := d, maximumAlbumId := maximumAlbumId, albumId := albumId })

/-- Body of the outer loop of `insertTracksList` for one group. -/
def insertTracksBody (covers : List (String × QString)) (st : TracksLocals)
    (album : List MusicAudioTrack) : Flow TracksLocals :=
  if st.db.transaction.1 then
    let db := st.db.transaction.2
    let newAlbum := { scanMetadata covers {} album with tracksCount := album.length }
    match selectAlbumByTitle db newAlbum.title with
    | found :: _ =>
      insertGroupTracks newAlbum (max st.maximumAlbumId (toInt found))
        (toQuintptr (toInt found)) db album
    | [] =>
      match insertAlbum db newAlbum.title newAlbum.artist newAlbum.albumArtURI
          newAlbum.tracksCount with
      | none => commitAnd db (fun d => { st with db := d })
      | some db1 =>
        if db1.hasAlbums then
          match selectAlbumByTitle db1 newAlbum.title with
          | found :: _ =>
            insertGroupTracks newAlbum (max st.maximumAlbumId (toInt found))
              (toQuintptr (toInt found)) db1 album
          | [] => insertGroupTracks newAlbum st.maximumAlbumId st.albumId db1 album
        else commitAnd db1 (fun d => { st with db := d })
  else Flow.stop { st with db := st.db.transaction.2 }

/-- Models `DatabaseInterface::insertTracksList`; `tracks` lists the groups of the hash in its
iteration order. -/
def insertTracksList (s : DatabaseInterface) (tracks : List (String × List MusicAudioTrack))
    (covers : List (String × QString)) : DatabaseInterface :=
  match runLoop (insertTracksBody covers)
      { db := s.mTracksDatabase, maximumAlbumId := 0, albumId := 0 }
      (tracks.map (fun g => g.2)) with
  | Flow.next st => updateIndexCache { s with mTracksDatabase := st.db }
  | Flow.stop st => { s with mTracksDatabase := st.db }

/-! ## Auxiliary predicates -/

/-- What a schema statement may touch: the rows and the two relations the catalogue lives in
are kept, and a relation that exists keeps existing. -/
def SchemaStep (db db1 : Database) : Prop :=
  db1.albums = db.albums ∧ db1.tracks = db.tracks ∧
  (db.hasAlbums = true → db1.hasAlbums = true) ∧ (db.hasTracks = true → db1.hasTracks = true) ∧
  (db.hasDiscoverSource = true → db1.hasDiscoverSource = true) ∧
  (db.hasTracksMapping = true → db1.hasTracksMapping = true) ∧
  (db.hasTracksAlbumIndex = true → db1.hasTracksAlbumIndex = true)


/-! ## Example stores and batches -/

/-- A store holding every relation and no row. -/
def emptyCatalogue : Database :=
  { hasDiscoverSource := true, hasAlbums := true, hasTracks := true, hasTracksMapping := true,
    hasTracksAlbumIndex := true }

/-- Album `Foo` by `Bar` with two track rows, stored with the given `TracksCount`. -/
def fooCatalogue (tracksCount : Int) : Database :=
  { emptyCatalogue with
    albums := [⟨1, "Foo", "Bar", "", tracksCount, none⟩],
    tracks := [⟨1, "T1", 1, "Bar", "f1", 1, 0⟩, ⟨2, "T2", 1, "Bar", "f2", 2, 0⟩] }

/-! ## Auxiliary notions for the writers -/

/-- The locals a loop body ends with, whether it goes on or returns. -/
def Flow.state {σ : Type} (f : Flow σ) : σ :=
  match f with
  | Flow.next st => st
  | Flow.stop st => st

/-- Store `db1` holds the rows of `db` followed by further rows, over the same two relations. -/
def Grows (db db1 : Database) : Prop :=
  db1.hasAlbums = db.hasAlbums ∧ db1.hasTracks = db.hasTracks ∧
  db.albums <+: db1.albums ∧ db.tracks <+: db1.tracks

/-- Row ids ascend along both tables (the store hands out ids in ascending order). -/
def IdsAscending (db : Database) : Prop :=
  (db.albums.map (fun r => r.id)).Pairwise (fun x y => x < y) ∧
  (db.tracks.map (fun r => r.id)).Pairwise (fun x y => x < y)

/-- A track of the discovery input. -/
def discovered (title album artist file : String) : MusicAudioTrack :=
  { title := some title, albumName := some album, artist := some artist, resourceURI := file }

/-- A batch of two groups, for the albums `Foo` and `Qux`. -/
def twoAlbumsBatch : List (String × List MusicAudioTrack) :=
  [("Foo", [discovered "T1" "Foo" "Bar" "f1"]), ("Qux", [discovered "T2" "Qux" "Bar" "f2"])]

/-- An interface on a store that holds every relation and no row, and whose next call of
`transaction()` fails; the calls after it succeed. -/
def failingOnce : DatabaseInterface :=
  { mTracksDatabase := { emptyCatalogue with outcomes := [false] } }

/-- A fresh interface on a store that holds every relation and no row and whose scripted
calls succeed, except the one numbered `failing` (counted from 0). -/
def freshWithFailure (failing : Nat) : DatabaseInterface :=
  DatabaseInterface.construct
    { emptyCatalogue with outcomes := List.replicate failing true ++ [false] }

/-- The state right after a rebuild: the position index lists exactly the album ids of the
store, as `SELECT ID FROM Albums` enumerates them, the reverse map sends each of them to its
position, and the entity cache is empty. -/
def Rebuilt (s : DatabaseInterface) : Prop :=
  s.mIndexByPosition = selectAlbumIds s.mTracksDatabase ∧
  s.mIndexByPosition.Perm (s.mTracksDatabase.albums.map (fun r => r.id)) ∧
  (∀ (p : Nat) (id : Int), s.mIndexByPosition[p]? = some id →
    QHash.find s.mPositionByIndex id = some (p : Int)) ∧
  s.mAlbumCache = []

instance (db : Database) : Decidable (IdsAscending db) := by
  unfold IdsAscending
  infer_instance

/-- Rows attached to one album id are appended to `Tracks`; `Albums` is left alone. -/
def AttachesTo (albumId : Int) (d d1 : Database) : Prop :=
  d1.albums = d.albums ∧ d1.hasAlbums = d.hasAlbums ∧
  ∃ added, d1.tracks = d.tracks ++ added ∧ ∀ x ∈ added, x.albumID = albumId

/-- What one iteration of the loop of `insertAlbumsList` does to the store when no
`transaction()` and no `commit()` fails (see `insertAlbumsBody_of_nil`). -/
def albumStep (db : Database) (album : MusicAlbum) : Database :=
  match selectAlbumByTitle db album.title with
  | _ :: _ => db
  | [] =>
    match insertAlbum db album.title album.artist album.albumArtURI album.tracksCount with
    | none => db
    | some db1 => db1

/-- What one iteration of the outer loop of `insertTracksList` does to the store when no
`transaction()` and no `commit()` fails (see `insertTracksBody_of_nil`). -/
def groupStep (covers : List (String × QString)) (db : Database)
    (album : List MusicAudioTrack) : Database :=
  match selectAlbumByTitle db (scanMetadata covers {} album).title with
  | found :: _ =>
    album.foldl (insertTrackBody { scanMetadata covers {} album with tracksCount := album.length }
      (toQuintptr (toInt found))) db
  | [] =>
    match insertAlbum db (scanMetadata covers {} album).title (scanMetadata covers {} album).artist
        (scanMetadata covers {} album).albumArtURI album.length with
    | none => db
    | some db1 =>
      match selectAlbumByTitle db1 (scanMetadata covers {} album).title with
      | found :: _ =>
        album.foldl (insertTrackBody
          { scanMetadata covers {} album with tracksCount := album.length }
          (toQuintptr (toInt found))) db1
      | [] => db1

/-- No two album rows carry the same `(Title, Artist)` pair. -/
def PairsUnique (db : Database) : Prop :=
  db.albums.Pairwise (fun x y => ¬ (x.title = y.title ∧ x.artist = y.artist))

/-- The album rows carrying a given title. -/
def titleRows (t : String) (db : Database) : List AlbumRow :=
  db.albums.filter (fun r => decide (r.title = t))

/-- An album of the input of `insertAlbumsList`. -/
def albumOf (title artist cover : String) : MusicAlbum :=
  { title := some title, artist := some artist, albumArtURI := cover }

/-- Covers known for the labels `Other1` and `Other2` only. -/
def otherCovers : List (String × QString) :=
  [("Other1", some "/c1"), ("Other2", some "/c2")]

/-- Two groups that both derive the title `Foo` and the artist `Bar`, with the covers of
`Other1` and of `Other2`. -/
def fooBarTwice : List (String × List MusicAudioTrack) :=
  [("k1", [discovered "T1" "Foo" "Bar" "f1", discovered "T2" "Other1" "Bar" "f2"]),
   ("k2", [discovered "T3" "Foo" "Bar" "f3", discovered "T4" "Other2" "Bar" "f4"])]

/-- A discovered track of the album `Foo` by `Bar` whose title is the null string. -/
def untitledTrack : MusicAudioTrack :=
  { albumName := some "Foo", artist := some "Bar", resourceURI := "f1" }

/-- The group of the scenario: album `Foo` by `Bar` with the tracks `T1` and `T2`. -/
def fooGroup : List MusicAudioTrack :=
  [discovered "T1" "Foo" "Bar" "f1", discovered "T2" "Foo" "Bar" "f2"]

/-- The states reached from `init` by calling member functions of `DatabaseInterface`. -/
inductive ReachableFrom (init : DatabaseInterface) : DatabaseInterface → Prop where
  | start : ReachableFrom init init
  | albumFromIndex (s : DatabaseInterface) (albumIndex : Int) :
      ReachableFrom init s → ReachableFrom init (albumFromIndex s albumIndex).2
  | albumFromId (s : DatabaseInterface) (albumId : Int) :
      ReachableFrom init s → ReachableFrom init (albumFromId s albumId).2
  | albumPositionByIndex (s : DatabaseInterface) (index : Int) :
      ReachableFrom init s → ReachableFrom init (albumPositionByIndex s index).2
  | insertAlbumsList (s : DatabaseInterface) (allAlbums : List MusicAlbum) :
      ReachableFrom init s → ReachableFrom init (insertAlbumsList s allAlbums)
  | insertTracksList (s : DatabaseInterface) (tracks : List (String × List MusicAudioTrack))
      (covers : List (String × QString)) :
      ReachableFrom init s → ReachableFrom init (insertTracksList s tracks covers)
  | initDatabase (s : DatabaseInterface) :
      ReachableFrom init s →
      ReachableFrom init { s with mTracksDatabase := initDatabase s.mTracksDatabase }
  | fetchTracks (s : DatabaseInterface) (albumId : Int) :
      ReachableFrom init s →
      ReachableFrom init { s with mTracksDatabase := (fetchTracks s.mTracksDatabase albumId).2 }
  | updateTracksCount (s : DatabaseInterface) (albumId tracksCount : Int) :
      ReachableFrom init s →
      ReachableFrom init
        { s with mTracksDatabase := updateTracksCount s.mTracksDatabase albumId tracksCount }
  | updateIndexCache (s : DatabaseInterface) :
      ReachableFrom init s → ReachableFrom init (updateIndexCache s)

/-- The store part of the coherence invariant: `Albums` exists, no scripted failure is left,
row ids ascend. -/
def StoreOk (db : Database) : Prop :=
  db.hasAlbums = true ∧ db.outcomes = [] ∧ IdsAscending db

/-- The coherence invariant between the store, the position index and the entity cache: the
index holds the stored album ids, each once, in whatever order the last rebuild found them. -/
def Coherent (s : DatabaseInterface) : Prop :=
  StoreOk s.mTracksDatabase ∧
  s.mIndexByPosition.Perm (s.mTracksDatabase.albums.map (fun r => r.id)) ∧
  (∀ (p : Nat) (id : Int), s.mIndexByPosition[p]? = some id →
    QHash.find s.mPositionByIndex id = some (p : Int)) ∧
  (∀ (id : Int) (album : MusicAlbum), QHash.find s.mAlbumCache id = some album →
    album.valid = true ∧ album.databaseId = id)

/-- The interface after the album `Foo` by `Bar` was reconciled with `T1` and `T2` into an
empty store. -/
def fooReconciled : DatabaseInterface :=
  insertTracksList (DatabaseInterface.construct {}) [("Foo", fooGroup)] []

/-- The interface after a second batch added the track `T3` to the album `Foo`. -/
def fooWithThird : DatabaseInterface :=
  insertTracksList fooReconciled [("Foo", [discovered "T3" "Foo" "Bar" "f3"])] []

/-- The interface `fooReconciled` after album 1 was read into the entity cache. -/
def fooCached : DatabaseInterface := (albumFromId fooReconciled 1).2

/-- The interface `fooCached` once another connection to the shared store emptied the
catalogue: the cache still holds album 1, the store has no row. -/
def fooCachedEmptied : DatabaseInterface := { fooCached with mTracksDatabase := emptyCatalogue }

/-- A batch of two groups, for the album `Qux` and then for the album `Foo`. -/
def quxThenFoo : List (String × List MusicAudioTrack) :=
  [("Qux", [discovered "T1" "Qux" "Bar" "f1"]), ("Foo", [discovered "T2" "Foo" "Bar" "f2"])]

/-- The first string of a list that is not the null string; the null string when there is
none. -/
def firstNonNull (xs : List QString) : QString :=
  match xs with
  | [] => none
  | x :: rest => if QString.isNull x then firstNonNull rest else x

/-- Statement of the specification, "first non-empty value wins, unresolved fields stay
empty": the first string of a list that is not empty; the null string when there is none. -/
def firstNonEmpty (xs : List QString) : QString :=
  match xs with
  | [] => none
  | x :: rest => if QString.isEmpty x then firstNonEmpty rest else x

/-- A group for the album `Foo` whose first track carries an empty, non-null artist and
whose second track carries the artist `Bar`. -/
def emptyArtistGroup : List MusicAudioTrack :=
  [discovered "T1" "Foo" "" "f1", discovered "T2" "Foo" "Bar" "f2"]

/-- Every album row carries an id of at least 1, as do the rows of a store that only ever
received the ids the store handed out. -/
def AlbumIdsPositive (db : Database) : Prop := ∀ r ∈ db.albums, 1 ≤ r.id

instance (db : Database) : Decidable (AlbumIdsPositive db) := by
  unfold AlbumIdsPositive
  infer_instance

/-- A group whose only track names neither an album nor an artist: the derived title and
artist are null, so its album is neither found nor insertable. -/
def namelessGroup : List MusicAudioTrack :=
  [{ title := some "T9", resourceURI := "f9" }]

/-- The artist bound to the track statements of `insertTracksList`: the artist of the track,
or the artist of the album when the track has none. -/
def artistName (newAlbum : MusicAlbum) (track : MusicAudioTrack) : QString :=
  if QString.isEmpty track.artist then newAlbum.artist else track.artist

/-- Three tracks of the album `Foo`, the second of which names the file of the first. -/
def sharedFileGroup : List MusicAudioTrack :=
  [discovered "T1" "Foo" "Bar" "f1", discovered "T2" "Foo" "Bar" "f1",
   discovered "T3" "Foo" "Bar" "f3"]

/-- The result of the `k`-th scripted store call from now on (counted from 0); calls beyond
the script succeed. -/
def Database.outcomeAt (db : Database) (k : Nat) : Bool := db.outcomes.getD k true

/-- The number of statements `initDatabase` issues for a relation: none when it exists, one
`CREATE TABLE` when it is missing. -/
def creations (present : Bool) : Nat := if present then 0 else 1

/-- No two album rows carry the same title, and album rows only exist in an `Albums`
relation. -/
def TitlesUnique (db : Database) : Prop :=
  (db.albums.map (fun r => r.title)).Nodup ∧ (db.albums ≠ [] → db.hasAlbums = true)

instance (db : Database) : Decidable (TitlesUnique db) := by
  unfold TitlesUnique
  infer_instance

/-! ## `LocalAlbumModel`

A shallow embedding of `src/localalbummodel.cpp`: the model keeps a private in-memory store
with its own `Albums` and `Tracks` relations (a track row names its album by title), the
vector `mAlbumsData` shown by the view and the map `mTracksInAlbums` from track ids to album
positions. -/

/-- Modelled from the spec: the class `LocalBalooTrack` is declared outside the source files
at hand; these are the members `LocalAlbumModel` reads (title, artist, album name, file,
duration, track number).  A default-constructed track has null strings. -/
structure LocalBalooTrack where
  mTitle : QString := none
  mArtist : QString := none
  mAlbum : QString := none
  mFile : String := ""
  mDuration : Int := 0
  mTrackNumber : Int := 0
deriving DecidableEq, Repr

/-- Modelled from the spec: the class `LocalBalooAlbum` is declared outside the source files
at hand; these are the members `LocalAlbumModel` reads and writes (title, artist, cover,
number of tracks, the tracks keyed by track id, the track ids in insertion order).  A
default-constructed album is empty. -/
structure LocalBalooAlbum where
  mTitle : QString := none
  mArtist : QString := none
  mCoverFile : String := ""
  mNbTracks : Int := 0
  mTracks : List (Int × LocalBalooTrack) := []
  mTrackIds : List Int := []
deriving DecidableEq, Repr

/-- A row of the relation `Albums` of `LocalAlbumModel`. -/
structure LocalAlbumRow where
  id : Int
  title : String
  artist : String
  coverFileName : String
  tracksCount : Int
deriving DecidableEq, Repr

/-- A row of the relation `Tracks` of `LocalAlbumModel`. -/
structure LocalTrackRow where
  id : Int
  title : String
  album : String
  artist : String
  fileName : String
deriving DecidableEq, Repr

/-- The private store of `LocalAlbumModel`: which relations exist, their rows in the order
the store enumerates them, and the scripted results of the schema statements (an exhausted
script means success). -/
structure LocalStore where
  hasAlbums : Bool := false
  hasTracks : Bool := false
  albums : List LocalAlbumRow := []
  tracks : List LocalTrackRow := []
  outcomes : List Bool := []
deriving DecidableEq, Repr

/-- One schema statement on the private store: its scripted result decides whether the change
is applied. -/
def LocalStore.execCreate (db : LocalStore) (change : LocalStore → LocalStore) : LocalStore :=
  match db.outcomes with
  | [] => change db
  | true :: rest => change { db with outcomes := rest }
  | false :: rest => { db with outcomes := rest }

/-- Statement `SELECT ID FROM Albums WHERE Title = :title AND Artist = :artist`.  A null string binds
`NULL`, which equals nothing; a statement on a missing relation yields no row. -/
def LocalStore.selectAlbum (db : LocalStore) (title artist : QString) : List Int :=
  if db.hasAlbums then
    match title, artist with
    | some t, some a =>
      (db.albums.filter (fun r => decide (r.title = t) && decide (r.artist = a))).map
        (fun r => r.id)
    | _, _ => []
  else []

/-- Statement `INSERT INTO Albums (Title, Artist, CoverFileName, TracksCount)` of `LocalAlbumModel`:
fails on a missing relation, on a `NULL` title or artist, and on a stored `(Title, Artist)`
pair. -/
def LocalStore.insertAlbum (db : LocalStore) (title artist : QString) (cover : String)
    (tracksCount : Int) : Option LocalStore :=
  if db.hasAlbums then
    match title, artist with
    | some t, some a =>
      if db.albums.any (fun r => decide (r.title = t) && decide (r.artist = a)) then none
      else some { db with albums := db.albums ++
        [{ id := nextRowId (db.albums.map (fun r => r.id)), title := t, artist := a,
           coverFileName := cover, tracksCount := tracksCount }] }
    | _, _ => none
  else none

/-- Statement `SELECT ID FROM Tracks WHERE Title = :title AND Album = :album AND Artist = :artist`. -/
def LocalStore.selectTrack (db : LocalStore) (title album artist : QString) : List Int :=
  if db.hasTracks then
    match title, album, artist with
    | some t, some al, some a =>
      (db.tracks.filter (fun r => decide (r.title = t) && decide (r.album = al) &&
        decide (r.artist = a))).map (fun r => r.id)
    | _, _, _ => []
  else []

/-- Statement `INSERT INTO Tracks (Title, Album, Artist, FileName)`: fails on a missing relation, on
a `NULL` title, album or artist, on a stored `FileName` and on a stored
`(Title, Album, Artist)` triple.  The connection option `foreign_keys = ON` is not an option
of the SQLite driver, so the reference to `Albums` is not checked. -/
def LocalStore.insertTrack (db : LocalStore) (title album artist : QString)
    (fileName : String) : Option LocalStore :=
  if db.hasTracks then
    match title, album, artist with
    | some t, some al, some a =>
      if db.tracks.any (fun r => decide (r.fileName = fileName)) then none
      else if db.tracks.any (fun r => decide (r.title = t) && decide (r.album = al) &&
          decide (r.artist = a)) then none
      else some { db with tracks := db.tracks ++
        [{ id := nextRowId (db.tracks.map (fun r => r.id)), title := t, album := al,
           artist := a, fileName := fileName }] }
    | _, _, _ => none
  else none

/-- A `QModelIndex`: row, column, internal id and whether it belongs to a model.  A
default-constructed index has row and column -1 and no model. -/
structure QModelIndex where
  row : Int := -1
  column : Int := -1
  internalId : Int := 0
  hasModel : Bool := false
deriving DecidableEq, Repr

/-- Models `QModelIndex::isValid()`. -/
def QModelIndex.isValid (i : QModelIndex) : Bool :=
  decide (0 ≤ i.row) && decide (0 ≤ i.column) && i.hasModel

/-- Models `QAbstractItemModel::createIndex`. -/
def createIndex (row column internalId : Int) : QModelIndex :=
  { row := row, column := column, internalId := internalId, hasModel := true }

/-- The members of `LocalAlbumModelPrivate` that `tracksList` and the tree functions use. -/
structure LocalAlbumModel where
  mTracksDatabase : LocalStore := {}
  mAlbumsData : List LocalBalooAlbum := []
  mTracksInAlbums : List (Int × Int) := []
deriving DecidableEq, Repr

namespace LocalAlbumModel

/-- Models `LocalAlbumModel::initDatabase`. -/
def initDatabase (db : LocalStore) : LocalStore :=
  let db1 := if db.hasAlbums then db
    else db.execCreate (fun d => { d with hasAlbums := true })
  if db1.hasTracks then db1 else db1.execCreate (fun d => { d with hasTracks := true })

/-- Models `LocalAlbumModel::rowCount`. -/
def rowCount (m : LocalAlbumModel) (parent : QModelIndex) : Int :=
  if !parent.isValid then m.mAlbumsData.length
  else if parent.row < 0 ∨ parent.row ≥ m.mAlbumsData.length then 0
  else ((m.mAlbumsData.getD parent.row.toNat {}).mTrackIds.length : Int)

/-- Models `LocalAlbumModel::index`. -/
def index (m : LocalAlbumModel) (row column : Int) (parent : QModelIndex) : QModelIndex :=
  if column ≠ 0 then {}
  else if !parent.isValid then createIndex row column 0
  else if parent.row < 0 ∨ parent.row ≥ m.mAlbumsData.length then {}
  else if row ≥ (m.mAlbumsData.getD parent.row.toNat {}).mTrackIds.length then {}
  else createIndex row column
    ((m.mAlbumsData.getD parent.row.toNat {}).mTrackIds.getD row.toNat 0)

/-- Models `LocalAlbumModel::parent`; the album position read from `mTracksInAlbums` is
narrowed to the `int` row of `index`. -/
def parent (m : LocalAlbumModel) (child : QModelIndex) : QModelIndex :=
  if !child.isValid then {}
  else if child.internalId = 0 then {}
  else
    match QHash.find m.mTracksInAlbums child.internalId with
    | none => {}
    | some albumId => index m (toInt albumId) 0 {}

/-- The three assignments of the metadata scan of `tracksList` for one track. -/
def scanTrack (covers : List (String × QString)) (newAlbum : LocalBalooAlbum)
    (track : LocalBalooTrack) : LocalBalooAlbum :=
  let a1 := if QString.isNull newAlbum.mArtist then { newAlbum with mArtist := track.mArtist }
    else newAlbum
  let a2 := if QString.isNull a1.mTitle then { a1 with mTitle := track.mAlbum } else a1
  if a2.mCoverFile = "" then
    { a2 with mCoverFile := QUrl.fromLocalFile (QHash.value covers track.mAlbum) }
  else a2

/-- The test that ends the metadata scan of `tracksList`. -/
def scanResolved (newAlbum : LocalBalooAlbum) : Bool :=
  !QString.isNull newAlbum.mArtist && !QString.isNull newAlbum.mTitle &&
    !decide (newAlbum.mCoverFile = "")

/-- The metadata scan of `tracksList` over the tracks of one group. -/
def scanMetadata (covers : List (String × QString)) (newAlbum : LocalBalooAlbum)
    (album : List LocalBalooTrack) : LocalBalooAlbum :=
  match album with
  | [] => newAlbum
  | track :: rest =>
    if scanResolved (scanTrack covers newAlbum track) then scanTrack covers newAlbum track
    else scanMetadata covers (scanTrack covers newAlbum track) rest

/-- Locals and members the track loop of `tracksList` works on. -/
structure TrackLocals where
  db : LocalStore
  newAlbum : LocalBalooAlbum
  mTracksInAlbums : List (Int × Int)
deriving DecidableEq, Repr

/-- The artist bound to the track statements of `tracksList`. -/
def artistName (newAlbum : LocalBalooAlbum) (track : LocalBalooTrack) : QString :=
  if QString.isEmpty track.mArtist then newAlbum.mArtist else track.mArtist

/-- The id read back after the insert of a track: the stored id narrowed by `toInt()`, or 0
when no row is found. -/
def currentElementId (db : LocalStore) (newAlbum : LocalBalooAlbum) (track : LocalBalooTrack) :
    Int :=
  match db.selectTrack track.mTitle track.mAlbum (artistName newAlbum track) with
  | id :: _ => toQuintptr (toInt id)
  | [] => 0

/-- Body of the track loop of `tracksList` for one track: a track found in the store is
skipped (`continue`), any other one is inserted and recorded in the album under the id read
back. -/
def trackBody (albumId : Int) (st : TrackLocals) (track : LocalBalooTrack) : TrackLocals :=
  match st.db.selectTrack track.mTitle track.mAlbum (artistName st.newAlbum track) with
  | _ :: _ => st
  | [] =>
    let db1 :=
      match st.db.insertTrack track.mTitle track.mAlbum (artistName st.newAlbum track)
          track.mFile with
      | none => st.db
      | some d => d
    { db := db1,
      newAlbum :=
        { st.newAlbum with
          mTracks := QHash.insert st.newAlbum.mTracks (currentElementId db1 st.newAlbum track)
            { track with mArtist := artistName st.newAlbum track },
          mTrackIds := st.newAlbum.mTrackIds ++ [currentElementId db1 st.newAlbum track] },
      mTracksInAlbums :=
        QMap.insert st.mTracksInAlbums (currentElementId db1 st.newAlbum track) albumId }

/-- Locals and members the group loop of `tracksList` works on. -/
structure GroupLocals where
  db : LocalStore
  mAlbumsData : List LocalBalooAlbum
  mTracksInAlbums : List (Int × Int)
  albumId : Int
deriving DecidableEq, Repr

/-- The track loop of one group and the `push_back` of its album. -/
def pushAlbum (st : GroupLocals) (newAlbum : LocalBalooAlbum) (albumId : Int)
    (db : LocalStore) (album : List LocalBalooTrack) : GroupLocals :=
  { db := (album.foldl (trackBody albumId) ⟨db, newAlbum, st.mTracksInAlbums⟩).db,
    mAlbumsData := st.mAlbumsData ++
      [{ (album.foldl (trackBody albumId) ⟨db, newAlbum, st.mTracksInAlbums⟩).newAlbum with
         mNbTracks :=
           (album.foldl (trackBody albumId)
             ⟨db, newAlbum, st.mTracksInAlbums⟩).newAlbum.mTracks.length }],
    mTracksInAlbums :=
      (album.foldl (trackBody albumId) ⟨db, newAlbum, st.mTracksInAlbums⟩).mTracksInAlbums,
    albumId := albumId }

/-- Body of the group loop of `tracksList` for one group. -/
def groupBody (covers : List (String × QString)) (st : GroupLocals)
    (album : List LocalBalooTrack) : GroupLocals :=
  match st.db.selectAlbum (scanMetadata covers {} album).mTitle
      (scanMetadata covers {} album).mArtist with
  | found :: _ =>
    pushAlbum st (scanMetadata covers {} album) (toQuintptr (toInt found - 1)) st.db album
  | [] =>
    match st.db.insertAlbum (scanMetadata covers {} album).mTitle
        (scanMetadata covers {} album).mArtist (scanMetadata covers {} album).mCoverFile 0 with
    | none => st
    | some db1 =>
      if db1.hasAlbums then
        match db1.selectAlbum (scanMetadata covers {} album).mTitle
            (scanMetadata covers {} album).mArtist with
        | found :: _ =>
          pushAlbum st (scanMetadata covers {} album) (toQuintptr (toInt found - 1)) db1 album
        | [] => pushAlbum st (scanMetadata covers {} album) st.albumId db1 album
      else { st with db := db1 }

/-- Models `LocalAlbumModel::tracksList`; `tracks` lists the groups of the hash in its iteration
order.  `mAlbumsData` is cleared, `mTracksInAlbums` is not. -/
def tracksList (m : LocalAlbumModel) (tracks : List (String × List LocalBalooTrack))
    (covers : List (String × QString)) : LocalAlbumModel :=
  { mTracksDatabase :=
      ((tracks.map (fun g => g.2)).foldl (groupBody covers)
        { db := initDatabase m.mTracksDatabase, mAlbumsData := [],
          mTracksInAlbums := m.mTracksInAlbums, albumId := 0 }).db,
    mAlbumsData :=
      ((tracks.map (fun g => g.2)).foldl (groupBody covers)
        { db := initDatabase m.mTracksDatabase, mAlbumsData := [],
          mTracksInAlbums := m.mTracksInAlbums, albumId := 0 }).mAlbumsData,
    mTracksInAlbums :=
      ((tracks.map (fun g => g.2)).foldl (groupBody covers)
        { db := initDatabase m.mTracksDatabase, mAlbumsData := [],
          mTracksInAlbums := m.mTracksInAlbums, albumId := 0 }).mTracksInAlbums }

end LocalAlbumModel

/-- A track of the file listing. -/
def listed (title album artist file : String) : LocalBalooTrack :=
  { mTitle := some title, mAlbum := some album, mArtist := some artist, mFile := file }

/-- The batch of the scenario for `LocalAlbumModel`: album `Foo` by `Bar` with `T1` and `T2`. -/
def fooListing : List (String × List LocalBalooTrack) :=
  [("Foo", [listed "T1" "Foo" "Bar" "f1", listed "T2" "Foo" "Bar" "f2"])]

/-- A new model after `tracksList` processed `fooListing` once. -/
def fooModelOnce : LocalAlbumModel := LocalAlbumModel.tracksList {} fooListing []

/-- The model after `tracksList` processed `fooListing` a second time. -/
def fooModelTwice : LocalAlbumModel := LocalAlbumModel.tracksList fooModelOnce fooListing []

/-- The ids recorded in the albums of the model are ids of stored track rows, and
`mTracksInAlbums` sends each of them to the position of its album. -/
def Recorded (db : LocalStore) (tracksInAlbums : List (Int × Int))
    (albums : List LocalBalooAlbum) : Prop :=
  ∀ (p : Nat) (a : LocalBalooAlbum), albums[p]? = some a → ∀ id ∈ a.mTrackIds,
    id ∈ db.tracks.map (fun r => r.id) ∧ QHash.find tracksInAlbums id = some (p : Int)

/-- The `(Title, Artist)` pair under which `tracksList` stores the album of a group, when
both are non-null. -/
def albumKey (covers : List (String × QString)) (album : List LocalBalooTrack) :
    Option (String × String) :=
  match (LocalAlbumModel.scanMetadata covers {} album).mTitle,
      (LocalAlbumModel.scanMetadata covers {} album).mArtist with
  | some t, some a => some (t, a)
  | _, _ => none

/-- A listing with one album whose second track has no title. -/
def untitledListing : List (String × List LocalBalooTrack) :=
  [("Foo", [listed "T1" "Foo" "Bar" "f1",
    { mAlbum := some "Foo", mArtist := some "Bar", mFile := "f2" }])]

/-- A listing whose two groups both derive the album `Foo` by `Bar`. -/
def sameAlbumListing : List (String × List LocalBalooTrack) :=
  [("k1", [listed "T1" "Foo" "Bar" "f1"]), ("k2", [listed "T2" "Foo" "Bar" "f2"])]

/-- A listing with the albums `Foo` and `Qux`. -/
def twoAlbumsListing : List (String × List LocalBalooTrack) :=
  [("Foo", [listed "T1" "Foo" "Bar" "f1", listed "T2" "Foo" "Bar" "f2"]),
   ("Qux", [listed "T3" "Qux" "Bar" "f3"])]

/-- The invariant of the group loop of `tracksList` on a store that started without rows:
both relations exist, the next album id is the number of albums shown plus one, track ids
are positive, ids stay within `int` for the groups and tracks still to come, and the tracks
recorded in the model point to the position of their album. -/
def TreeInv (groupsLeft tracksLeft : Nat) (st : LocalAlbumModel.GroupLocals) : Prop :=
  st.db.hasAlbums = true ∧ st.db.hasTracks = true ∧
  nextRowId (st.db.albums.map (fun r => r.id)) = (st.mAlbumsData.length : Int) + 1 ∧
  (∀ x ∈ st.db.tracks, 1 ≤ x.id) ∧
  (st.mAlbumsData.length : Int) + (groupsLeft : Int) ≤ 2147483647 ∧
  nextRowId (st.db.tracks.map (fun r => r.id)) + (tracksLeft : Int) ≤ 2147483648 ∧
  Recorded st.db st.mTracksInAlbums st.mAlbumsData

/-- No stored track names a file of the groups still to come, and no stored album carries
the `(Title, Artist)` pair of one of them. -/
def FreshFor (covers : List (String × QString)) (db : LocalStore)
    (rest : List (List LocalBalooTrack)) : Prop :=
  (∀ x ∈ db.tracks, ∀ g ∈ rest, ∀ t ∈ g, x.fileName ≠ t.mFile) ∧
  (∀ r ∈ db.albums, ∀ g ∈ rest, albumKey covers g ≠ some (r.title, r.artist))

/-- A listing the store accepts whole: every track has a title and an album name, no file is
listed twice, and no two groups derive the same `(Title, Artist)` pair. -/
def Listable (covers : List (String × QString)) (groups : List (List LocalBalooTrack)) :
    Prop :=
  (∀ g ∈ groups, ∀ t ∈ g, t.mTitle ≠ none ∧ t.mAlbum ≠ none) ∧
  (groups.flatten.map (fun t => t.mFile)).Nodup ∧
  groups.Pairwise (fun g h => albumKey covers g = none ∨ albumKey covers g ≠ albumKey covers h)

instance (covers : List (String × QString)) (groups : List (List LocalBalooTrack)) :
    Decidable (Listable covers groups) := by
  unfold Listable
  infer_instance
/-! ## Auxiliary lemmas -/

theorem toInt_of_range (v : Int) (h1 : -2147483648 ≤ v) (h2 : v < 2147483648) : toInt v = v := by
  unfold toInt; omega

theorem toInt_le_of_nonneg (v : Int) (h : 0 ≤ v) : toInt v ≤ v := by
  unfold toInt; omega

theorem QHash.find_insert_self {β : Type} (h : List (Int × β)) (k : Int) (v : β) :
    QHash.find (QHash.insert h k v) k = some v := by
  simp [QHash.insert, QHash.find]

theorem QHash.find_filter_ne {β : Type} (h : List (Int × β)) (k j : Int) (hne : j ≠ k) :
    QHash.find (h.filter (fun e => !decide (e.1 = k))) j = QHash.find h j := by
  induction h with
  | nil => rfl
  | cons e rest ih =>
    obtain ⟨k1, v1⟩ := e
    by_cases hk : k1 = k
    · subst hk
      have : k1 ≠ j := fun h => hne h.symm
      simp [QHash.find, List.filter, this, ih]
    · by_cases hj : k1 = j
      · subst hj
        simp [QHash.find, List.filter, hk]
      · simp [QHash.find, List.filter, hk, hj, ih]

theorem QHash.find_insert_ne {β : Type} (h : List (Int × β)) (k j : Int) (v : β) (hne : j ≠ k) :
    QHash.find (QHash.insert h k v) j = QHash.find h j := by
  have : k ≠ j := fun h => hne h.symm
  simp [QHash.insert, QHash.find, this, QHash.find_filter_ne h k j hne]

theorem foldl_max_ge (xs : List Int) (x : Int) : x ≤ xs.foldl max x ∧ ∀ y ∈ xs, y ≤ xs.foldl max x := by
  induction xs generalizing x with
  | nil => simp
  | cons z zs ih =>
    simp only [List.foldl_cons, List.mem_cons]
    have h := ih (max x z)
    refine ⟨le_trans (le_max_left x z) h.1, ?_⟩
    intro y hy
    rcases hy with rfl | hy
    · exact le_trans (le_max_right x y) h.1
    · exact h.2 y hy

theorem lt_nextRowId (ids : List Int) (y : Int) (hy : y ∈ ids) : y < nextRowId ids := by
  cases ids with
  | nil => simp at hy
  | cons x xs =>
    have h := foldl_max_ge xs x
    simp only [nextRowId]
    rcases List.mem_cons.mp hy with rfl | hy
    · omega
    · have := h.2 y hy
      omega


theorem nextOutcome_rows (db : Database) :
    db.nextOutcome.2.albums = db.albums ∧ db.nextOutcome.2.tracks = db.tracks ∧
    db.nextOutcome.2.hasAlbums = db.hasAlbums ∧ db.nextOutcome.2.hasTracks = db.hasTracks ∧
    db.nextOutcome.2.hasDiscoverSource = db.hasDiscoverSource ∧
    db.nextOutcome.2.hasTracksMapping = db.hasTracksMapping ∧
    db.nextOutcome.2.hasTracksAlbumIndex = db.hasTracksAlbumIndex := by
  unfold Database.nextOutcome
  cases db.outcomes <;> simp

theorem nextOutcome_of_nil (db : Database) (h : db.outcomes = []) :
    db.nextOutcome = (true, db) := by
  unfold Database.nextOutcome
  rw [h]

theorem schemaStep_refl (db : Database) : SchemaStep db db := by
  simp [SchemaStep]

theorem schemaStep_trans {a b c : Database} (h1 : SchemaStep a b) (h2 : SchemaStep b c) :
    SchemaStep a c := by
  obtain ⟨a1, a2, a3, a4, a5, a6, a7⟩ := h1
  obtain ⟨b1, b2, b3, b4, b5, b6, b7⟩ := h2
  exact ⟨b1.trans a1, b2.trans a2, fun h => b3 (a3 h), fun h => b4 (a4 h), fun h => b5 (a5 h),
    fun h => b6 (a6 h), fun h => b7 (a7 h)⟩

theorem execCreate_schemaStep (db : Database) (change : Database → Database)
    (h : ∀ d, SchemaStep d (change d)) : SchemaStep db (execCreate db change) := by
  have hn : SchemaStep db db.nextOutcome.2 := by
    have := nextOutcome_rows db
    simp only [SchemaStep]
    simp [this]
  unfold execCreate
  split
  · exact schemaStep_trans hn (h _)
  · exact hn

theorem initDatabase_schemaStep (db : Database) : SchemaStep db (initDatabase db) := by
  unfold initDatabase
  have e1 : ∀ d : Database, SchemaStep d
      (if d.hasDiscoverSource then d else execCreate d (fun d => { d with hasDiscoverSource := true })) := by
    intro d; split
    · exact schemaStep_refl d
    · exact execCreate_schemaStep d _ (fun d => by simp [SchemaStep])
  have e2 : ∀ d : Database, SchemaStep d
      (if d.hasAlbums then d else execCreate d (fun d => { d with hasAlbums := true })) := by
    intro d; split
    · exact schemaStep_refl d
    · exact execCreate_schemaStep d _ (fun d => by simp [SchemaStep])
  have e3 : ∀ d : Database, SchemaStep d
      (if d.hasTracks then d else execCreate d (fun d => { d with hasTracks := true })) := by
    intro d; split
    · exact schemaStep_refl d
    · exact execCreate_schemaStep d _ (fun d => by simp [SchemaStep])
  have e4 : ∀ d : Database, SchemaStep d
      (if d.hasTracksMapping then d else execCreate d (fun d => { d with hasTracksMapping := true })) := by
    intro d; split
    · exact schemaStep_refl d
    · exact execCreate_schemaStep d _ (fun d => by simp [SchemaStep])
  have e5 : ∀ d : Database, SchemaStep d
      (execCreate d (fun d => if d.hasTracks then { d with hasTracksAlbumIndex := true } else d)) := by
    intro d
    exact execCreate_schemaStep d _ (fun d => by by_cases h : d.hasTracks <;> simp [SchemaStep, h])
  exact schemaStep_trans (schemaStep_trans (schemaStep_trans (schemaStep_trans (e1 db) (e2 _)) (e3 _)) (e4 _)) (e5 _)

theorem initDatabase_outcomes_nil (db : Database) (h : db.outcomes = []) :
    (initDatabase db).outcomes = [] ∧ (initDatabase db).hasAlbums = true ∧
    (initDatabase db).hasTracks = true := by
  have ex : ∀ (d : Database) (change : Database → Database), d.outcomes = [] →
      execCreate d change = change d := by
    intro d change hd
    simp [execCreate, nextOutcome_of_nil d hd]
  unfold initDatabase
  by_cases h1 : db.hasDiscoverSource <;> by_cases h2 : db.hasAlbums <;>
    by_cases h3 : db.hasTracks <;> by_cases h4 : db.hasTracksMapping <;>
    simp [h1, h2, h3, h4, ex, h]
theorem fillIndex_fst (ids acc : List Int) (h : List (Int × Int)) :
    (fillIndex ids acc h).1 = acc ++ ids := by
  induction ids generalizing acc h with
  | nil => simp [fillIndex]
  | cons id rest ih => simp [fillIndex, ih]

theorem fillIndex_find_other (ids acc : List Int) (h : List (Int × Int)) (x : Int)
    (hx : x ∉ ids) : QHash.find (fillIndex ids acc h).2 x = QHash.find h x := by
  induction ids generalizing acc h with
  | nil => simp [fillIndex]
  | cons id rest ih =>
    simp only [List.mem_cons, not_or] at hx
    simp only [fillIndex]
    rw [ih _ _ hx.2, QHash.find_insert_ne _ _ _ _ hx.1]

theorem fillIndex_find (ids acc : List Int) (h : List (Int × Int)) (hn : ids.Nodup)
    (p : Nat) (id : Int) (hp : ids[p]? = some id) :
    QHash.find (fillIndex ids acc h).2 id = some ((acc.length + p : Nat) : Int) := by
  induction ids generalizing acc h p with
  | nil => simp at hp
  | cons x rest ih =>
    rw [List.nodup_cons] at hn
    simp only [fillIndex]
    cases p with
    | zero =>
      simp only [List.getElem?_cons_zero, Option.some.injEq] at hp
      subst hp
      rw [fillIndex_find_other _ _ _ _ hn.1, QHash.find_insert_self]
      simp
    | succ q =>
      simp only [List.getElem?_cons_succ] at hp
      rw [ih _ _ hn.2 q hp]
      simp only [List.length_append, List.length_singleton]
      congr 2
      omega

theorem updateIndexCache_db (s : DatabaseInterface) :
    (updateIndexCache s).mTracksDatabase = initDatabase s.mTracksDatabase := by
  unfold updateIndexCache
  simp only
  split <;> rfl

/-- The index after a rebuild on a store whose `Albums` relation exists. -/
theorem entryId_indexEntry (r : AlbumRow) : entryId r.indexEntry = r.id := rfl

/-- The ids that `SELECT ID FROM Albums` yields are the ids of the album rows, each as often as
it is stored. -/
theorem selectAlbumIds_perm (db : Database) :
    (selectAlbumIds db).Perm (db.albums.map (fun r => r.id)) := by
  unfold selectAlbumIds indexEntries
  have h := (List.perm_insertionSort (fun (a b : Lex (List Nat × Lex (List Nat × Int))) => a ≤ b)
    (db.albums.map AlbumRow.indexEntry)).map entryId
  rw [List.map_map] at h
  exact h

theorem selectAlbumIds_of_albums_eq (db db1 : Database) (h : db1.albums = db.albums) :
    selectAlbumIds db1 = selectAlbumIds db := by
  unfold selectAlbumIds indexEntries
  rw [h]

theorem selectAlbumIds_of_single (db : Database) (r : AlbumRow) (h : db.albums = [r]) :
    selectAlbumIds db = [r.id] := by
  unfold selectAlbumIds indexEntries
  rw [h]
  rfl

theorem indexEntries_sorted (db : Database) :
    (indexEntries db).Pairwise (fun a b => a ≤ b) :=
  List.sorted_insertionSort (fun (a b : Lex (List Nat × Lex (List Nat × Int))) => a ≤ b)
    (db.albums.map AlbumRow.indexEntry)

theorem updateIndexCache_index (s : DatabaseInterface) (h : s.mTracksDatabase.hasAlbums = true) :
    (updateIndexCache s).mIndexByPosition = selectAlbumIds s.mTracksDatabase ∧
    (updateIndexCache s).mAlbumCache = [] ∧
    (updateIndexCache s).mPositionByIndex =
      (fillIndex (selectAlbumIds s.mTracksDatabase) [] []).2 := by
  have hs := initDatabase_schemaStep s.mTracksDatabase
  have h1 : (initDatabase s.mTracksDatabase).hasAlbums = true := hs.2.2.1 h
  unfold updateIndexCache
  simp only [h1, if_true, fillIndex_fst, List.nil_append,
    selectAlbumIds_of_albums_eq _ _ hs.1]
  simp
theorem QMap.mem_keys_insert {β : Type} (m : List (Int × β)) (k : Int) (v : β) (j : Int) :
    j ∈ (QMap.insert m k v).map Prod.fst ↔ j = k ∨ j ∈ m.map Prod.fst := by
  induction m with
  | nil => simp [QMap.insert]
  | cons e rest ih =>
    obtain ⟨k1, v1⟩ := e
    simp only [QMap.insert]
    split
    · simp
    · split
      · rename_i h1 h2
        subst h2
        simp
      · simp only [List.map_cons, List.mem_cons, ih]
        tauto

theorem QMap.length_insert {β : Type} (m : List (Int × β)) (k : Int) (v : β)
    (h : k ∉ m.map Prod.fst) : (QMap.insert m k v).length = m.length + 1 := by
  induction m with
  | nil => simp [QMap.insert]
  | cons e rest ih =>
    obtain ⟨k1, v1⟩ := e
    simp only [List.map_cons, List.mem_cons, not_or] at h
    simp only [QMap.insert]
    split
    · simp
    · split
      · rename_i h1 h2
        exact absurd h2 h.1
      · simp [ih h.2]

theorem fetch_fold_length (rows : List TrackRow) (m : List (Int × MusicAudioTrack))
    (hn : (rows.map (fun r => r.id)).Nodup)
    (hd : ∀ r ∈ rows, r.id ∉ m.map Prod.fst) :
    (rows.foldl (fun m r => QMap.insert m (trackOfRow r).databaseId (trackOfRow r)) m).length
      = m.length + rows.length := by
  induction rows generalizing m with
  | nil => simp
  | cons r rest ih =>
    simp only [List.map_cons, List.nodup_cons] at hn
    simp only [List.foldl_cons]
    rw [ih _ hn.2]
    · rw [QMap.length_insert _ _ _ (by simpa [trackOfRow] using hd r (List.mem_cons_self _ _))]
      simp only [List.length_cons]
      omega
    · intro x hx
      rw [QMap.mem_keys_insert]
      simp only [trackOfRow, not_or]
      refine ⟨?_, hd x (List.mem_cons_of_mem _ hx)⟩
      intro hxr
      exact hn.1 (hxr ▸ List.mem_map_of_mem (fun r => r.id) hx)

theorem fetchTracks_length (db : Database) (a : Int) (hT : db.hasTracks = true)
    (hn : (db.tracks.map (fun r => r.id)).Nodup) :
    (fetchTracks db a).1.length = (selectTracksOfAlbum db a).length := by
  unfold fetchTracks
  simp only [hT, if_true]
  rw [fetch_fold_length _ [] _ (by simp)]
  · simp
  · exact hn.sublist ((List.filter_sublist _).map _)

theorem fetchTracks_db (db : Database) (a : Int) (hT : db.hasTracks = true) :
    (fetchTracks db a).2 = updateTracksCount db a ((fetchTracks db a).1.length) := by
  unfold fetchTracks
  simp only [hT, if_true]

theorem commitAnd_state {σ : Type} (db : Database) (k : Database → σ) :
    (commitAnd db k).state = k db.nextOutcome.2 := by
  unfold commitAnd Database.commit
  split <;> rfl

/-- Any relation between stores that is a preorder and is respected by the elementary store
calls is respected by the track loop. -/
theorem insertTrackBody_closure (R : Database → Database → Prop)
    (hrefl : ∀ d, R d d)
    (newAlbum : MusicAlbum) (albumId : Int)
    (htrk : ∀ d t ar f n du d1, insertTrack d t albumId ar f n du = some d1 → R d d1)
    (db : Database) (track : MusicAudioTrack) :
    R db (insertTrackBody newAlbum albumId db track) := by
  unfold insertTrackBody
  simp only
  split
  · exact hrefl db
  · split
    · exact hrefl db
    · rename_i d1 h
      exact htrk _ _ _ _ _ _ _ h

theorem foldl_closure {α : Type} (R : Database → Database → Prop)
    (hrefl : ∀ d, R d d) (htrans : ∀ a b c, R a b → R b c → R a c)
    (f : Database → α → Database) (hf : ∀ d x, R d (f d x)) (db : Database) (xs : List α) :
    R db (xs.foldl f db) := by
  induction xs generalizing db with
  | nil => exact hrefl db
  | cons x rest ih => exact htrans _ _ _ (hf db x) (ih (f db x))

theorem insertGroupTracks_closure (R : Database → Database → Prop)
    (hrefl : ∀ d, R d d) (htrans : ∀ a b c, R a b → R b c → R a c)
    (hout : ∀ d, R d d.nextOutcome.2)
    (htrk : ∀ d t al ar f n du d1, insertTrack d t al ar f n du = some d1 → R d d1)
    (newAlbum : MusicAlbum) (m a : Int) (db : Database) (album : List MusicAudioTrack) :
    R db (insertGroupTracks newAlbum m a db album).state.db := by
  unfold insertGroupTracks
  rw [commitAnd_state]
  exact htrans _ _ _
    (foldl_closure R hrefl htrans _
      (insertTrackBody_closure R hrefl newAlbum a (fun d t => htrk d t a)) db album)
    (hout _)

theorem insertTracksBody_closure (R : Database → Database → Prop)
    (hrefl : ∀ d, R d d) (htrans : ∀ a b c, R a b → R b c → R a c)
    (hout : ∀ d, R d d.nextOutcome.2)
    (halb : ∀ d t a c n d1, insertAlbum d t a c n = some d1 → R d d1)
    (htrk : ∀ d t al ar f n du d1, insertTrack d t al ar f n du = some d1 → R d d1)
    (covers : List (String × QString)) (st : TracksLocals) (album : List MusicAudioTrack) :
    R st.db (insertTracksBody covers st album).state.db := by
  have hg := insertGroupTracks_closure R hrefl htrans hout htrk
  unfold insertTracksBody
  split
  · simp only
    refine htrans _ _ _ (hout st.db) ?_
    show R st.db.nextOutcome.2 _
    split
    · exact hg _ _ _ _ _
    · split
      · rw [commitAnd_state]; exact hout _
      · rename_i d1 h
        refine htrans _ _ _ (halb _ _ _ _ _ _ h) ?_
        split
        · split
          · exact hg _ _ _ _ _
          · exact hg _ _ _ _ _
        · rw [commitAnd_state]; exact hout _
  · exact hout st.db

theorem insertAlbumsBody_closure (R : Database → Database → Prop)
    (htrans : ∀ a b c, R a b → R b c → R a c)
    (hout : ∀ d, R d d.nextOutcome.2)
    (halb : ∀ d t a c n d1, insertAlbum d t a c n = some d1 → R d d1)
    (st : AlbumsLocals) (album : MusicAlbum) :
    R st.db (insertAlbumsBody st album).state.db := by
  unfold insertAlbumsBody
  split
  · simp only
    refine htrans _ _ _ (hout st.db) ?_
    show R st.db.nextOutcome.2 _
    split
    · rw [commitAnd_state]; exact hout _
    · split
      · rw [commitAnd_state]; exact hout _
      · rename_i d1 h
        refine htrans _ _ _ (halb _ _ _ _ _ _ h) ?_
        split
        · split
          · rw [commitAnd_state]; exact hout _
          · rw [commitAnd_state]; exact hout _
        · rw [commitAnd_state]; exact hout _
  · exact hout st.db

theorem runLoop_closure {σ α : Type} (R : σ → σ → Prop)
    (hrefl : ∀ d, R d d) (htrans : ∀ a b c, R a b → R b c → R a c)
    (body : σ → α → Flow σ) (hb : ∀ st x, R st (body st x).state) (st : σ) (xs : List α) :
    R st (runLoop body st xs).state := by
  induction xs generalizing st with
  | nil => exact hrefl st
  | cons x rest ih =>
    unfold runLoop
    have h := hb st x
    cases hbx : body st x with
    | next st1 =>
      rw [hbx] at h
      exact htrans _ _ _ h (ih st1)
    | stop st1 =>
      rw [hbx] at h
      exact h
theorem grows_refl (d : Database) : Grows d d :=
  ⟨rfl, rfl, List.prefix_refl _, List.prefix_refl _⟩

theorem grows_trans (a b c : Database) (h1 : Grows a b) (h2 : Grows b c) : Grows a c :=
  ⟨h2.1.trans h1.1, h2.2.1.trans h1.2.1, h1.2.2.1.trans h2.2.2.1, h1.2.2.2.trans h2.2.2.2⟩

theorem grows_nextOutcome (d : Database) : Grows d d.nextOutcome.2 := by
  have h := nextOutcome_rows d
  exact ⟨h.2.2.1, h.2.2.2.1, by rw [h.1], by rw [h.2.1]⟩

theorem insertAlbum_some (d : Database) (t a : QString) (c : String) (n : Int) (d1 : Database)
    (h : insertAlbum d t a c n = some d1) :
    ∃ tt aa, t = some tt ∧ a = some aa ∧ d.hasAlbums = true ∧
      (∀ r ∈ d.albums, ¬ (r.title = tt ∧ r.artist = aa)) ∧
      d1 = { d with albums := d.albums ++
        [{ id := nextRowId (d.albums.map (fun r => r.id)), title := tt, artist := aa,
           coverFileName := c, tracksCount := n, albumInternalID := none }] } := by
  unfold insertAlbum at h
  split at h
  · rename_i hA
    split at h
    · rename_i tt aa
      split at h
      · exact Option.noConfusion h
      · rename_i hany
        refine ⟨tt, aa, rfl, rfl, hA, ?_, (Option.some.inj h).symm⟩
        intro r hr hc
        apply hany
        simp only [List.any_eq_true, Bool.and_eq_true, decide_eq_true_eq]
        exact ⟨r, hr, hc⟩
    · exact Option.noConfusion h
  · exact Option.noConfusion h

theorem insertTrack_some (d : Database) (t : QString) (al : Int) (ar : QString) (f : String)
    (n du : Int) (d1 : Database) (h : insertTrack d t al ar f n du = some d1) :
    ∃ tt aa, t = some tt ∧ ar = some aa ∧ d.hasTracks = true ∧
      (∀ r ∈ d.tracks, r.fileName ≠ f) ∧
      (∀ r ∈ d.tracks, ¬ (r.title = tt ∧ r.albumID = al ∧ r.artist = aa)) ∧
      d1 = { d with tracks := d.tracks ++
        [{ id := nextRowId (d.tracks.map (fun r => r.id)), title := tt, albumID := al,
           artist := aa, fileName := f, trackNumber := n, duration := du }] } := by
  unfold insertTrack at h
  split at h
  · rename_i hT
    split at h
    · rename_i tt aa
      split at h
      · exact Option.noConfusion h
      · rename_i hf
        split at h
        · exact Option.noConfusion h
        · rename_i hany
          refine ⟨tt, aa, rfl, rfl, hT, ?_, ?_, (Option.some.inj h).symm⟩
          · intro r hr hc
            apply hf
            simp only [List.any_eq_true, decide_eq_true_eq]
            exact ⟨r, hr, hc⟩
          · intro r hr hc
            apply hany
            simp only [List.any_eq_true, Bool.and_eq_true, decide_eq_true_eq]
            exact ⟨r, hr, ⟨hc.1, hc.2.1⟩, hc.2.2⟩
    · exact Option.noConfusion h
  · exact Option.noConfusion h

theorem grows_insertAlbum (d : Database) (t a : QString) (c : String) (n : Int) (d1 : Database)
    (h : insertAlbum d t a c n = some d1) : Grows d d1 := by
  obtain ⟨tt, aa, _, _, _, _, rfl⟩ := insertAlbum_some d t a c n d1 h
  exact ⟨rfl, rfl, List.prefix_append _ _, List.prefix_refl _⟩

theorem grows_insertTrack (d : Database) (t : QString) (al : Int) (ar : QString) (f : String)
    (n du : Int) (d1 : Database) (h : insertTrack d t al ar f n du = some d1) : Grows d d1 := by
  obtain ⟨tt, aa, _, _, _, _, _, rfl⟩ := insertTrack_some d t al ar f n du d1 h
  exact ⟨rfl, rfl, List.prefix_refl _, List.prefix_append _ _⟩

theorem pairwise_append_nextRowId (ids : List Int) (h : ids.Pairwise (fun x y => x < y)) :
    (ids ++ [nextRowId ids]).Pairwise (fun x y => x < y) := by
  rw [List.pairwise_append]
  refine ⟨h, List.pairwise_singleton _ _, ?_⟩
  intro x hx y hy
  rw [List.mem_singleton] at hy
  subst hy
  exact lt_nextRowId ids x hx

theorem idsAscending_insertAlbum (d : Database) (t a : QString) (c : String) (n : Int)
    (d1 : Database) (h : insertAlbum d t a c n = some d1) (hd : IdsAscending d) :
    IdsAscending d1 := by
  obtain ⟨tt, aa, _, _, _, _, rfl⟩ := insertAlbum_some d t a c n d1 h
  refine ⟨?_, hd.2⟩
  simp only [List.map_append, List.map_cons, List.map_nil]
  exact pairwise_append_nextRowId _ hd.1

theorem idsAscending_insertTrack (d : Database) (t : QString) (al : Int) (ar : QString)
    (f : String) (n du : Int) (d1 : Database) (h : insertTrack d t al ar f n du = some d1)
    (hd : IdsAscending d) : IdsAscending d1 := by
  obtain ⟨tt, aa, _, _, _, _, _, rfl⟩ := insertTrack_some d t al ar f n du d1 h
  refine ⟨hd.1, ?_⟩
  simp only [List.map_append, List.map_cons, List.map_nil]
  exact pairwise_append_nextRowId _ hd.2

theorem idsAscending_nextOutcome (d : Database) (hd : IdsAscending d) :
    IdsAscending d.nextOutcome.2 := by
  have h := nextOutcome_rows d
  unfold IdsAscending
  rw [h.1, h.2.1]
  exact hd

theorem nextOutcome_outcomes_nil (d : Database) (h : d.outcomes = []) :
    d.nextOutcome.2.outcomes = [] := by
  rw [nextOutcome_of_nil d h]
  exact h

theorem insertAlbum_outcomes (d : Database) (t a : QString) (c : String) (n : Int)
    (d1 : Database) (h : insertAlbum d t a c n = some d1) : d1.outcomes = d.outcomes := by
  obtain ⟨tt, aa, _, _, _, _, rfl⟩ := insertAlbum_some d t a c n d1 h
  rfl

theorem insertTrack_outcomes (d : Database) (t : QString) (al : Int) (ar : QString)
    (f : String) (n du : Int) (d1 : Database) (h : insertTrack d t al ar f n du = some d1) :
    d1.outcomes = d.outcomes := by
  obtain ⟨tt, aa, _, _, _, _, _, rfl⟩ := insertTrack_some d t al ar f n du d1 h
  rfl

/-- What every run of the outer loop of `insertTracksList` keeps, whatever the store calls
answer: rows are only appended, ids keep ascending, an exhausted script stays exhausted. -/
theorem insertTracksLoop_keeps (covers : List (String × QString)) (st : TracksLocals)
    (groups : List (List MusicAudioTrack)) :
    Grows st.db (runLoop (insertTracksBody covers) st groups).state.db ∧
    (IdsAscending st.db → IdsAscending (runLoop (insertTracksBody covers) st groups).state.db) ∧
    (st.db.outcomes = [] → (runLoop (insertTracksBody covers) st groups).state.db.outcomes = []) := by
  refine ⟨?_, ?_, ?_⟩
  · exact runLoop_closure (fun (a b : TracksLocals) => Grows a.db b.db)
      (fun d => grows_refl d.db)
      (fun a b c => grows_trans a.db b.db c.db) _
      (insertTracksBody_closure Grows grows_refl grows_trans grows_nextOutcome
        grows_insertAlbum grows_insertTrack covers) st groups
  · exact runLoop_closure (fun (a b : TracksLocals) => IdsAscending a.db → IdsAscending b.db)
      (fun _ h => h) (fun _ _ _ h1 h2 h => h2 (h1 h)) _
      (insertTracksBody_closure (fun (a b : Database) => IdsAscending a → IdsAscending b)
        (fun _ h => h) (fun _ _ _ h1 h2 h => h2 (h1 h)) idsAscending_nextOutcome
        idsAscending_insertAlbum idsAscending_insertTrack covers) st groups
  · exact runLoop_closure
      (fun (a b : TracksLocals) => a.db.outcomes = [] → b.db.outcomes = [])
      (fun _ h => h) (fun _ _ _ h1 h2 h => h2 (h1 h)) _
      (insertTracksBody_closure (fun (a b : Database) => a.outcomes = [] → b.outcomes = [])
        (fun _ h => h) (fun _ _ _ h1 h2 h => h2 (h1 h)) nextOutcome_outcomes_nil
        (fun d t a c n d1 h hd => (insertAlbum_outcomes d t a c n d1 h).trans hd)
        (fun d t al ar f n du d1 h hd => (insertTrack_outcomes d t al ar f n du d1 h).trans hd)
        covers) st groups

theorem insertAlbum_tracks (d : Database) (t a : QString) (c : String) (n : Int)
    (d1 : Database) (h : insertAlbum d t a c n = some d1) : d1.tracks = d.tracks := by
  obtain ⟨tt, aa, _, _, _, _, rfl⟩ := insertAlbum_some d t a c n d1 h
  rfl

theorem insertAlbumsLoop_keeps (st : AlbumsLocals) (albums : List MusicAlbum) :
    Grows st.db (runLoop insertAlbumsBody st albums).state.db ∧
    (IdsAscending st.db → IdsAscending (runLoop insertAlbumsBody st albums).state.db) ∧
    (st.db.outcomes = [] → (runLoop insertAlbumsBody st albums).state.db.outcomes = []) ∧
    (runLoop insertAlbumsBody st albums).state.db.tracks = st.db.tracks := by
  refine ⟨?_, ?_, ?_, ?_⟩
  · exact runLoop_closure (fun (a b : AlbumsLocals) => Grows a.db b.db)
      (fun d => grows_refl d.db)
      (fun a b c => grows_trans a.db b.db c.db) _
      (insertAlbumsBody_closure Grows grows_trans grows_nextOutcome grows_insertAlbum) st albums
  · exact runLoop_closure (fun (a b : AlbumsLocals) => IdsAscending a.db → IdsAscending b.db)
      (fun _ h => h) (fun _ _ _ h1 h2 h => h2 (h1 h)) _
      (insertAlbumsBody_closure (fun (a b : Database) => IdsAscending a → IdsAscending b)
        (fun _ _ _ h1 h2 h => h2 (h1 h)) idsAscending_nextOutcome
        idsAscending_insertAlbum) st albums
  · exact runLoop_closure
      (fun (a b : AlbumsLocals) => a.db.outcomes = [] → b.db.outcomes = [])
      (fun _ h => h) (fun _ _ _ h1 h2 h => h2 (h1 h)) _
      (insertAlbumsBody_closure (fun (a b : Database) => a.outcomes = [] → b.outcomes = [])
        (fun _ _ _ h1 h2 h => h2 (h1 h)) nextOutcome_outcomes_nil
        (fun d t a c n d1 h hd => (insertAlbum_outcomes d t a c n d1 h).trans hd)) st albums
  · exact runLoop_closure (fun (a b : AlbumsLocals) => b.db.tracks = a.db.tracks)
      (fun _ => rfl) (fun _ _ _ h1 h2 => h2.trans h1) _
      (insertAlbumsBody_closure (fun (a b : Database) => b.tracks = a.tracks)
        (fun _ _ _ h1 h2 => h2.trans h1) (fun d => (nextOutcome_rows d).2.1)
        insertAlbum_tracks) st albums
theorem idsAscending_nodup_albums (db : Database) (h : IdsAscending db) :
    (db.albums.map (fun r => r.id)).Nodup :=
  h.1.imp (fun hxy => ne_of_lt hxy)

theorem idsAscending_nodup_tracks (db : Database) (h : IdsAscending db) :
    (db.tracks.map (fun r => r.id)).Nodup :=
  h.2.imp (fun hxy => ne_of_lt hxy)

theorem updateIndexCache_rebuilt (s : DatabaseInterface)
    (hA : s.mTracksDatabase.hasAlbums = true)
    (hN : (s.mTracksDatabase.albums.map (fun r => r.id)).Nodup) :
    Rebuilt (updateIndexCache s) := by
  obtain ⟨hi, hc, hp⟩ := updateIndexCache_index s hA
  have hs := initDatabase_schemaStep s.mTracksDatabase
  have hperm := selectAlbumIds_perm s.mTracksDatabase
  refine ⟨?_, ?_, ?_, hc⟩
  · rw [hi, updateIndexCache_db, selectAlbumIds_of_albums_eq _ _ hs.1]
  · rw [hi, updateIndexCache_db, hs.1]
    exact hperm
  · intro p id hpid
    rw [hi] at hpid
    rw [hp]
    simpa using fillIndex_find _ [] [] (hperm.nodup_iff.mpr hN) p id hpid

theorem commitAnd_of_nil {σ : Type} (db : Database) (k : Database → σ) (h : db.outcomes = []) :
    commitAnd db k = Flow.next (k db) := by
  unfold commitAnd Database.commit
  rw [nextOutcome_of_nil db h]
  rfl

theorem foldl_insertTrackBody_outcomes (newAlbum : MusicAlbum) (albumId : Int) (db : Database)
    (album : List MusicAudioTrack) :
    (album.foldl (insertTrackBody newAlbum albumId) db).outcomes = db.outcomes :=
  foldl_closure (fun (a b : Database) => b.outcomes = a.outcomes) (fun _ => rfl)
    (fun _ _ _ h1 h2 => h2.trans h1) _
    (insertTrackBody_closure (fun (a b : Database) => b.outcomes = a.outcomes) (fun _ => rfl)
      newAlbum albumId (fun d t => insertTrack_outcomes d t albumId)) db album

theorem insertTracksBody_next_of_nil (covers : List (String × QString)) (st : TracksLocals)
    (album : List MusicAudioTrack) (h : st.db.outcomes = []) :
    ∃ st1, insertTracksBody covers st album = Flow.next st1 := by
  have hg : ∀ na m a (d : Database), d.outcomes = [] →
      ∃ st1, insertGroupTracks na m a d album = Flow.next st1 := by
    intro na m a d hd
    unfold insertGroupTracks
    rw [commitAnd_of_nil _ _ ((foldl_insertTrackBody_outcomes na a d album).trans hd)]
    exact ⟨_, rfl⟩
  unfold insertTracksBody Database.transaction
  rw [nextOutcome_of_nil st.db h]
  simp only [if_true]
  split
  · exact hg _ _ _ _ h
  · split
    · rw [commitAnd_of_nil _ _ h]; exact ⟨_, rfl⟩
    · rename_i d1 hins
      have hd1 : d1.outcomes = [] := (insertAlbum_outcomes _ _ _ _ _ _ hins).trans h
      split
      · split
        · exact hg _ _ _ _ hd1
        · exact hg _ _ _ _ hd1
      · rw [commitAnd_of_nil _ _ hd1]; exact ⟨_, rfl⟩

theorem insertAlbumsBody_next_of_nil (st : AlbumsLocals) (album : MusicAlbum)
    (h : st.db.outcomes = []) : ∃ st1, insertAlbumsBody st album = Flow.next st1 := by
  unfold insertAlbumsBody Database.transaction
  rw [nextOutcome_of_nil st.db h]
  simp only [if_true]
  split
  · rw [commitAnd_of_nil _ _ h]; exact ⟨_, rfl⟩
  · split
    · rw [commitAnd_of_nil _ _ h]; exact ⟨_, rfl⟩
    · rename_i d1 hins
      have hd1 : d1.outcomes = [] := (insertAlbum_outcomes _ _ _ _ _ _ hins).trans h
      split
      · split
        · rw [commitAnd_of_nil _ _ hd1]; exact ⟨_, rfl⟩
        · rw [commitAnd_of_nil _ _ hd1]; exact ⟨_, rfl⟩
      · rw [commitAnd_of_nil _ _ hd1]; exact ⟨_, rfl⟩

theorem runLoop_next_of_nil {σ α : Type} (body : σ → α → Flow σ) (ok : σ → Prop)
    (hnext : ∀ st x, ok st → ∃ st1, body st x = Flow.next st1)
    (hkeep : ∀ st x, ok st → ok (body st x).state)
    (st : σ) (xs : List α) (h : ok st) : ∃ st1, runLoop body st xs = Flow.next st1 := by
  induction xs generalizing st with
  | nil => exact ⟨st, rfl⟩
  | cons x rest ih =>
    obtain ⟨st1, h1⟩ := hnext st x h
    have hk := hkeep st x h
    rw [h1] at hk
    unfold runLoop
    rw [h1]
    exact ih st1 hk

theorem insertTracksLoop_next_of_nil (covers : List (String × QString)) (st : TracksLocals)
    (groups : List (List MusicAudioTrack)) (h : st.db.outcomes = []) :
    ∃ st1, runLoop (insertTracksBody covers) st groups = Flow.next st1 :=
  runLoop_next_of_nil _ (fun (st : TracksLocals) => st.db.outcomes = [])
    (fun st x hs => insertTracksBody_next_of_nil covers st x hs)
    (fun st x hs => by
      have := (insertTracksLoop_keeps covers st [x]).2.2 hs
      simp only [runLoop] at this
      cases hb : insertTracksBody covers st x with
      | next s1 => rw [hb] at this; exact this
      | stop s1 => rw [hb] at this; exact this)
    st groups h

theorem insertAlbumsLoop_next_of_nil (st : AlbumsLocals) (albums : List MusicAlbum)
    (h : st.db.outcomes = []) : ∃ st1, runLoop insertAlbumsBody st albums = Flow.next st1 :=
  runLoop_next_of_nil _ (fun (st : AlbumsLocals) => st.db.outcomes = [])
    (fun st x hs => insertAlbumsBody_next_of_nil st x hs)
    (fun st x hs => by
      have := (insertAlbumsLoop_keeps st [x]).2.2.1 hs
      simp only [runLoop] at this
      cases hb : insertAlbumsBody st x with
      | next s1 => rw [hb] at this; exact this
      | stop s1 => rw [hb] at this; exact this)
    st albums h

theorem selectAlbumByTitle_nextOutcome (d : Database) (t : QString) :
    selectAlbumByTitle d.nextOutcome.2 t = selectAlbumByTitle d t := by
  have h := nextOutcome_rows d
  unfold selectAlbumByTitle
  rw [h.1, h.2.2.1]

theorem attachesTo_refl (a : Int) (d : Database) : AttachesTo a d d :=
  ⟨rfl, rfl, [], by simp, by simp⟩

theorem attachesTo_trans (a : Int) (d1 d2 d3 : Database) (h1 : AttachesTo a d1 d2)
    (h2 : AttachesTo a d2 d3) : AttachesTo a d1 d3 := by
  obtain ⟨e1, f1, x1, t1, a1⟩ := h1
  obtain ⟨e2, f2, x2, t2, a2⟩ := h2
  refine ⟨e2.trans e1, f2.trans f1, x1 ++ x2, by rw [t2, t1, List.append_assoc], ?_⟩
  intro x hx
  rcases List.mem_append.mp hx with h | h
  · exact a1 x h
  · exact a2 x h

theorem attachesTo_nextOutcome (a : Int) (d : Database) : AttachesTo a d d.nextOutcome.2 := by
  have h := nextOutcome_rows d
  exact ⟨h.1, h.2.2.1, [], by simp [h.2.1], by simp⟩

theorem attachesTo_insertTrack (a : Int) (d : Database) (t : QString) (ar : QString)
    (f : String) (n du : Int) (d1 : Database) (h : insertTrack d t a ar f n du = some d1) :
    AttachesTo a d d1 := by
  obtain ⟨tt, aa, _, _, _, _, _, rfl⟩ := insertTrack_some d t a ar f n du d1 h
  exact ⟨rfl, rfl, _, rfl, by simp⟩

theorem insertGroupTracks_attaches (newAlbum : MusicAlbum) (m a : Int) (db : Database)
    (album : List MusicAudioTrack) :
    AttachesTo a db (insertGroupTracks newAlbum m a db album).state.db := by
  unfold insertGroupTracks
  rw [commitAnd_state]
  exact attachesTo_trans a _ _ _
    (foldl_closure (AttachesTo a) (attachesTo_refl a) (attachesTo_trans a) _
      (insertTrackBody_closure (AttachesTo a) (attachesTo_refl a) newAlbum a
        (attachesTo_insertTrack a)) db album)
    (attachesTo_nextOutcome a _)

/-- A group whose derived title is stored already: no album row is written, and its new
track rows carry the id of the first stored album with that title. -/
theorem insertTracksBody_found (covers : List (String × QString)) (st : TracksLocals)
    (album : List MusicAudioTrack) (found : Int) (rest : List Int)
    (h : selectAlbumByTitle st.db (scanMetadata covers {} album).title = found :: rest) :
    AttachesTo (toQuintptr (toInt found)) st.db (insertTracksBody covers st album).state.db := by
  unfold insertTracksBody Database.transaction
  split
  · simp only
    rw [selectAlbumByTitle_nextOutcome, h]
    simp only
    exact attachesTo_trans _ _ _ _ (attachesTo_nextOutcome _ _)
      (insertGroupTracks_attaches _ _ _ _ _)
  · exact attachesTo_nextOutcome _ _

theorem runLoop_single {σ α : Type} (body : σ → α → Flow σ) (st : σ) (x : α) :
    (runLoop body st [x]).state = (body st x).state := by
  simp only [runLoop]
  cases body st x <;> rfl

theorem insertTracksList_rows (s : DatabaseInterface)
    (tracks : List (String × List MusicAudioTrack)) (covers : List (String × QString)) :
    (insertTracksList s tracks covers).mTracksDatabase.albums =
      (runLoop (insertTracksBody covers)
        { db := s.mTracksDatabase, maximumAlbumId := 0, albumId := 0 }
        (tracks.map (fun g => g.2))).state.db.albums ∧
    (insertTracksList s tracks covers).mTracksDatabase.tracks =
      (runLoop (insertTracksBody covers)
        { db := s.mTracksDatabase, maximumAlbumId := 0, albumId := 0 }
        (tracks.map (fun g => g.2))).state.db.tracks := by
  unfold insertTracksList
  cases runLoop (insertTracksBody covers)
        { db := s.mTracksDatabase, maximumAlbumId := 0, albumId := 0 }
        (tracks.map (fun g => g.2)) with
  | next st =>
    simp only [Flow.state, updateIndexCache_db]
    have hs := initDatabase_schemaStep st.db
    exact ⟨hs.1, hs.2.1⟩
  | stop st => exact ⟨rfl, rfl⟩
theorem selectAlbumByTitle_after_insert (d : Database) (t a : QString) (c : String) (n : Int)
    (d1 : Database) (h : insertAlbum d t a c n = some d1) : selectAlbumByTitle d1 t ≠ [] := by
  obtain ⟨tt, aa, rfl, rfl, hA, _, rfl⟩ := insertAlbum_some d _ _ c n d1 h
  unfold selectAlbumByTitle
  simp [hA, List.filter_append]

theorem runLoop_eq_foldl {σ α : Type} (body : σ → α → Flow σ) (proj : σ → Database)
    (step : Database → α → Database) (ok : σ → Prop)
    (h : ∀ st x, ok st → ∃ st1, body st x = Flow.next st1 ∧ proj st1 = step (proj st) x ∧ ok st1)
    (st : σ) (xs : List α) (hst : ok st) :
    ∃ st1, runLoop body st xs = Flow.next st1 ∧ proj st1 = xs.foldl step (proj st) ∧ ok st1 := by
  induction xs generalizing st with
  | nil => exact ⟨st, rfl, rfl, hst⟩
  | cons x rest ih =>
    obtain ⟨st1, h1, h2, h3⟩ := h st x hst
    obtain ⟨st2, k1, k2, k3⟩ := ih st1 h3
    refine ⟨st2, ?_, ?_, k3⟩
    · unfold runLoop
      rw [h1]
      exact k1
    · rw [k2, h2]
      rfl

theorem insertAlbumsBody_of_nil (st : AlbumsLocals) (album : MusicAlbum)
    (h : st.db.outcomes = []) :
    ∃ st1, insertAlbumsBody st album = Flow.next st1 ∧ st1.db = albumStep st.db album ∧
      st1.db.outcomes = [] := by
  unfold insertAlbumsBody albumStep Database.transaction
  rw [nextOutcome_of_nil st.db h]
  simp only [if_true]
  split
  · rw [commitAnd_of_nil _ _ h]; exact ⟨_, rfl, rfl, h⟩
  · split
    · rw [commitAnd_of_nil _ _ h]; exact ⟨_, rfl, rfl, h⟩
    · rename_i d1 hins
      have hd1 : d1.outcomes = [] := (insertAlbum_outcomes _ _ _ _ _ _ hins).trans h
      split
      · split
        · rw [commitAnd_of_nil _ _ hd1]; exact ⟨_, rfl, rfl, hd1⟩
        · rw [commitAnd_of_nil _ _ hd1]; exact ⟨_, rfl, rfl, hd1⟩
      · rw [commitAnd_of_nil _ _ hd1]; exact ⟨_, rfl, rfl, hd1⟩

theorem insertGroupTracks_of_nil (na : MusicAlbum) (m a : Int) (d : Database)
    (album : List MusicAudioTrack) (hd : d.outcomes = []) :
    ∃ st1, insertGroupTracks na m a d album = Flow.next st1 ∧
      st1.db = album.foldl (insertTrackBody na a) d ∧ st1.db.outcomes = [] := by
  unfold insertGroupTracks
  have := (foldl_insertTrackBody_outcomes na a d album).trans hd
  rw [commitAnd_of_nil _ _ this]
  exact ⟨_, rfl, rfl, this⟩

theorem insertTracksBody_of_nil (covers : List (String × QString)) (st : TracksLocals)
    (album : List MusicAudioTrack) (h : st.db.outcomes = []) :
    ∃ st1, insertTracksBody covers st album = Flow.next st1 ∧
      st1.db = groupStep covers st.db album ∧ st1.db.outcomes = [] := by
  unfold insertTracksBody groupStep Database.transaction
  rw [nextOutcome_of_nil st.db h]
  simp only [if_true]
  split
  · exact insertGroupTracks_of_nil _ _ _ _ _ h
  · split
    · rw [commitAnd_of_nil _ _ h]; exact ⟨_, rfl, rfl, h⟩
    · rename_i d1 hins
      have hd1 : d1.outcomes = [] := (insertAlbum_outcomes _ _ _ _ _ _ hins).trans h
      have hsel := selectAlbumByTitle_after_insert _ _ _ _ _ _ hins
      split
      · split
        · exact insertGroupTracks_of_nil _ _ _ _ _ hd1
        · rename_i hnil
          exact absurd hnil hsel
      · rename_i hno
        have hA : d1.hasAlbums = true := by
          obtain ⟨tt, aa, _, _, hA, _, rfl⟩ := insertAlbum_some _ _ _ _ _ _ hins
          exact hA
        exact absurd hA hno

/-- With no scripted failure left, `insertTracksList` is the fold of `groupStep` followed by
the rebuild. -/
theorem insertTracksList_of_nil (s : DatabaseInterface)
    (tracks : List (String × List MusicAudioTrack)) (covers : List (String × QString))
    (h : s.mTracksDatabase.outcomes = []) :
    insertTracksList s tracks covers =
      updateIndexCache
        { s with
          mTracksDatabase :=
            (tracks.map (fun g => g.2)).foldl (groupStep covers) s.mTracksDatabase } := by
  obtain ⟨st1, h1, h2, _⟩ := runLoop_eq_foldl (insertTracksBody covers)
    (fun (st : TracksLocals) => st.db) (groupStep covers)
    (fun (st : TracksLocals) => st.db.outcomes = [])
    (fun st x hs => insertTracksBody_of_nil covers st x hs)
    { db := s.mTracksDatabase, maximumAlbumId := 0, albumId := 0 }
    (tracks.map (fun g => g.2)) h
  unfold insertTracksList
  rw [h1]
  simp only at h2
  simp only [h2]

/-- With no scripted failure left, `insertAlbumsList` is the fold of `albumStep` followed by
the rebuild. -/
theorem insertAlbumsList_of_nil (s : DatabaseInterface) (allAlbums : List MusicAlbum)
    (h : s.mTracksDatabase.outcomes = []) :
    insertAlbumsList s allAlbums =
      updateIndexCache
        { s with mTracksDatabase := allAlbums.foldl albumStep s.mTracksDatabase } := by
  obtain ⟨st1, h1, h2, _⟩ := runLoop_eq_foldl insertAlbumsBody
    (fun (st : AlbumsLocals) => st.db) albumStep
    (fun (st : AlbumsLocals) => st.db.outcomes = [])
    (fun st x hs => insertAlbumsBody_of_nil st x hs)
    { db := s.mTracksDatabase, albumId := 0 } allAlbums h
  unfold insertAlbumsList
  rw [h1]
  simp only at h2
  simp only [h2]
theorem insertAlbumsList_rows (s : DatabaseInterface) (allAlbums : List MusicAlbum) :
    (insertAlbumsList s allAlbums).mTracksDatabase.albums =
      (runLoop insertAlbumsBody { db := s.mTracksDatabase, albumId := 0 }
        allAlbums).state.db.albums ∧
    (insertAlbumsList s allAlbums).mTracksDatabase.tracks =
      (runLoop insertAlbumsBody { db := s.mTracksDatabase, albumId := 0 }
        allAlbums).state.db.tracks := by
  unfold insertAlbumsList
  cases runLoop insertAlbumsBody { db := s.mTracksDatabase, albumId := 0 } allAlbums with
  | next st =>
    simp only [Flow.state, updateIndexCache_db]
    have hs := initDatabase_schemaStep st.db
    exact ⟨hs.1, hs.2.1⟩
  | stop st => exact ⟨rfl, rfl⟩

theorem pairsUnique_nextOutcome (d : Database) (h : PairsUnique d) :
    PairsUnique d.nextOutcome.2 := by
  unfold PairsUnique
  rw [(nextOutcome_rows d).1]
  exact h

theorem pairsUnique_insertAlbum (d : Database) (t a : QString) (c : String) (n : Int)
    (d1 : Database) (h : insertAlbum d t a c n = some d1) (hd : PairsUnique d) :
    PairsUnique d1 := by
  obtain ⟨tt, aa, _, _, _, hno, rfl⟩ := insertAlbum_some d t a c n d1 h
  unfold PairsUnique
  simp only
  rw [List.pairwise_append]
  refine ⟨hd, List.pairwise_singleton _ _, ?_⟩
  intro x hx y hy
  rw [List.mem_singleton] at hy
  subst hy
  exact hno x hx

theorem insertAlbumsLoop_pairsUnique (st : AlbumsLocals) (albums : List MusicAlbum)
    (h : PairsUnique st.db) : PairsUnique (runLoop insertAlbumsBody st albums).state.db :=
  runLoop_closure (fun (a b : AlbumsLocals) => PairsUnique a.db → PairsUnique b.db)
    (fun _ h => h) (fun _ _ _ h1 h2 h => h2 (h1 h)) _
    (insertAlbumsBody_closure (fun (a b : Database) => PairsUnique a → PairsUnique b)
      (fun _ _ _ h1 h2 h => h2 (h1 h)) pairsUnique_nextOutcome pairsUnique_insertAlbum)
    st albums h

theorem selectAlbumByTitle_eq (d : Database) (t : String) (hA : d.hasAlbums = true) :
    selectAlbumByTitle d (some t) = (titleRows t d).map (fun r => r.id) := by
  unfold selectAlbumByTitle titleRows
  rw [hA]
  rfl

theorem albumStep_hasAlbums (d : Database) (album : MusicAlbum) :
    (albumStep d album).hasAlbums = d.hasAlbums := by
  unfold albumStep
  split
  · rfl
  · split
    · rfl
    · rename_i d1 h
      exact (grows_insertAlbum _ _ _ _ _ _ h).1

theorem albumStep_titleRows_other (t : String) (d : Database) (album : MusicAlbum)
    (h : album.title ≠ some t) : titleRows t (albumStep d album) = titleRows t d := by
  unfold albumStep
  split
  · rfl
  · split
    · rfl
    · rename_i d1 hins
      obtain ⟨tt, aa, ht, _, _, _, rfl⟩ := insertAlbum_some _ _ _ _ _ _ hins
      have : tt ≠ t := fun e => h (by rw [ht, e])
      simp [titleRows, List.filter_append, this]

theorem albumStep_titleRows_present (t : String) (d : Database) (album : MusicAlbum)
    (hA : d.hasAlbums = true) (h : titleRows t d ≠ []) :
    titleRows t (albumStep d album) = titleRows t d := by
  by_cases ht : album.title = some t
  · unfold albumStep
    rw [ht, selectAlbumByTitle_eq d t hA]
    cases hr : titleRows t d with
    | nil => exact absurd hr h
    | cons r rest =>
      simp only [List.map_cons]
      exact hr
  · exact albumStep_titleRows_other t d album ht

theorem albumStep_titleRows_new (t a : String) (d : Database) (album : MusicAlbum)
    (hA : d.hasAlbums = true) (h : titleRows t d = []) (ht : album.title = some t)
    (ha : album.artist = some a) :
    titleRows t (albumStep d album) =
      [{ id := nextRowId (d.albums.map (fun r => r.id)), title := t, artist := a,
         coverFileName := album.albumArtURI, tracksCount := album.tracksCount,
         albumInternalID := none }] := by
  have hno : ∀ r ∈ d.albums, r.title ≠ t := by
    intro r hr e
    have : r ∈ titleRows t d := by simp [titleRows, hr, e]
    rw [h] at this
    simp at this
  have hany : (d.albums.any (fun r => decide (r.title = t) && decide (r.artist = a))) = false := by
    rw [List.any_eq_false]
    intro r hr
    simp [hno r hr]
  unfold albumStep
  rw [ht, ha, selectAlbumByTitle_eq d t hA, h]
  simp only [List.map_nil, insertAlbum, hA, if_true, hany]
  simp only [titleRows, List.filter_append] at h ⊢
  simp [h]

theorem foldl_albumStep_hasAlbums (d : Database) (albums : List MusicAlbum) :
    (albums.foldl albumStep d).hasAlbums = d.hasAlbums := by
  induction albums generalizing d with
  | nil => rfl
  | cons x rest ih => rw [List.foldl_cons, ih, albumStep_hasAlbums]

theorem foldl_albumStep_titleRows_other (t : String) (d : Database) (albums : List MusicAlbum)
    (h : ∀ y ∈ albums, y.title ≠ some t) :
    titleRows t (albums.foldl albumStep d) = titleRows t d := by
  induction albums generalizing d with
  | nil => rfl
  | cons x rest ih =>
    rw [List.foldl_cons, ih _ (fun y hy => h y (List.mem_cons_of_mem _ hy)),
      albumStep_titleRows_other t d x (h x (List.mem_cons_self _ _))]

theorem foldl_albumStep_titleRows_present (t : String) (d : Database)
    (albums : List MusicAlbum) (hA : d.hasAlbums = true) (h : titleRows t d ≠ []) :
    titleRows t (albums.foldl albumStep d) = titleRows t d := by
  induction albums generalizing d with
  | nil => rfl
  | cons x rest ih =>
    have h1 := albumStep_titleRows_present t d x hA h
    rw [List.foldl_cons, ih _ ((albumStep_hasAlbums d x).trans hA) (by rw [h1]; exact h), h1]
theorem foldl_insertTrackBody_attaches (newAlbum : MusicAlbum) (a : Int) (db : Database)
    (album : List MusicAudioTrack) :
    AttachesTo a db (album.foldl (insertTrackBody newAlbum a) db) :=
  foldl_closure (AttachesTo a) (attachesTo_refl a) (attachesTo_trans a) _
    (insertTrackBody_closure (AttachesTo a) (attachesTo_refl a) newAlbum a
      (attachesTo_insertTrack a)) db album

theorem titleRows_of_albums_eq (t : String) (d d1 : Database) (h : d1.albums = d.albums) :
    titleRows t d1 = titleRows t d := by
  unfold titleRows
  rw [h]

theorem groupStep_hasAlbums (covers : List (String × QString)) (d : Database)
    (album : List MusicAudioTrack) : (groupStep covers d album).hasAlbums = d.hasAlbums := by
  unfold groupStep
  split
  · exact (foldl_insertTrackBody_attaches _ _ _ _).2.1
  · split
    · rfl
    · rename_i d1 h
      have h1 := (grows_insertAlbum _ _ _ _ _ _ h).1
      split
      · exact ((foldl_insertTrackBody_attaches _ _ _ _).2.1).trans h1
      · exact h1

theorem groupStep_titleRows_other (covers : List (String × QString)) (t : String)
    (d : Database) (album : List MusicAudioTrack)
    (h : (scanMetadata covers {} album).title ≠ some t) :
    titleRows t (groupStep covers d album) = titleRows t d := by
  unfold groupStep
  split
  · exact titleRows_of_albums_eq t _ _ (foldl_insertTrackBody_attaches _ _ _ _).1
  · split
    · rfl
    · rename_i d1 hins
      have h1 : titleRows t d1 = titleRows t d := by
        obtain ⟨tt, aa, ht, _, _, _, rfl⟩ := insertAlbum_some _ _ _ _ _ _ hins
        have : tt ≠ t := fun e => h (by rw [ht, e])
        simp [titleRows, List.filter_append, this]
      split
      · exact (titleRows_of_albums_eq t _ _ (foldl_insertTrackBody_attaches _ _ _ _).1).trans h1
      · exact h1

theorem groupStep_titleRows_present (covers : List (String × QString)) (t : String)
    (d : Database) (album : List MusicAudioTrack) (hA : d.hasAlbums = true)
    (h : titleRows t d ≠ []) : titleRows t (groupStep covers d album) = titleRows t d := by
  by_cases ht : (scanMetadata covers {} album).title = some t
  · unfold groupStep
    rw [ht, selectAlbumByTitle_eq d t hA]
    cases hr : titleRows t d with
    | nil => exact absurd hr h
    | cons r rest =>
      simp only [List.map_cons]
      exact (titleRows_of_albums_eq t _ _ (foldl_insertTrackBody_attaches _ _ _ _).1).trans hr
  · exact groupStep_titleRows_other covers t d album ht

theorem groupStep_titleRows_new (covers : List (String × QString)) (t a : String)
    (d : Database) (album : List MusicAudioTrack) (hA : d.hasAlbums = true)
    (h : titleRows t d = []) (ht : (scanMetadata covers {} album).title = some t)
    (ha : (scanMetadata covers {} album).artist = some a) :
    titleRows t (groupStep covers d album) =
      [{ id := nextRowId (d.albums.map (fun r => r.id)), title := t, artist := a,
         coverFileName := (scanMetadata covers {} album).albumArtURI,
         tracksCount := album.length, albumInternalID := none }] := by
  have hno : ∀ r ∈ d.albums, r.title ≠ t := by
    intro r hr e
    have : r ∈ titleRows t d := by simp [titleRows, hr, e]
    rw [h] at this
    simp at this
  have hany : (d.albums.any (fun r => decide (r.title = t) && decide (r.artist = a))) = false := by
    rw [List.any_eq_false]
    intro r hr
    simp [hno r hr]
  have hrows : ∀ (d1 : Database) (row : AlbumRow), d1.albums = d.albums ++ [row] →
      row.title = t → titleRows t d1 = [row] := by
    intro d1 row hd1 hrt
    simp only [titleRows] at h ⊢
    rw [hd1]
    simp [List.filter_append, h, hrt]
  obtain ⟨d1, hins, hd1⟩ : ∃ d1, insertAlbum d (some t) (some a)
      (scanMetadata covers {} album).albumArtURI album.length = some d1 ∧
      d1.albums = d.albums ++ [⟨nextRowId (d.albums.map (fun r => r.id)), t, a,
        (scanMetadata covers {} album).albumArtURI, album.length, none⟩] := by
    have hsome : (insertAlbum d (some t) (some a)
        (scanMetadata covers {} album).albumArtURI album.length).isSome := by
      simp [insertAlbum, hA, hany]
    obtain ⟨d1, hins⟩ := Option.isSome_iff_exists.mp hsome
    obtain ⟨tt, aa, e1, e2, _, _, e3⟩ := insertAlbum_some _ _ _ _ _ _ hins
    cases e1
    cases e2
    exact ⟨d1, hins, by rw [e3]⟩
  unfold groupStep
  rw [ht, ha, selectAlbumByTitle_eq d t hA, h]
  simp only [List.map_nil, hins]
  split
  · rw [titleRows_of_albums_eq t _ _ (foldl_insertTrackBody_attaches _ _ _ _).1]
    exact hrows _ _ hd1 rfl
  · exact hrows _ _ hd1 rfl

theorem foldl_groupStep_hasAlbums (covers : List (String × QString)) (d : Database)
    (groups : List (List MusicAudioTrack)) :
    (groups.foldl (groupStep covers) d).hasAlbums = d.hasAlbums := by
  induction groups generalizing d with
  | nil => rfl
  | cons x rest ih => rw [List.foldl_cons, ih, groupStep_hasAlbums]

theorem foldl_groupStep_titleRows_other (covers : List (String × QString)) (t : String)
    (d : Database) (groups : List (List MusicAudioTrack))
    (h : ∀ g ∈ groups, (scanMetadata covers {} g).title ≠ some t) :
    titleRows t (groups.foldl (groupStep covers) d) = titleRows t d := by
  induction groups generalizing d with
  | nil => rfl
  | cons x rest ih =>
    rw [List.foldl_cons, ih _ (fun y hy => h y (List.mem_cons_of_mem _ hy)),
      groupStep_titleRows_other covers t d x (h x (List.mem_cons_self _ _))]

theorem foldl_groupStep_titleRows_present (covers : List (String × QString)) (t : String)
    (d : Database) (groups : List (List MusicAudioTrack)) (hA : d.hasAlbums = true)
    (h : titleRows t d ≠ []) :
    titleRows t (groups.foldl (groupStep covers) d) = titleRows t d := by
  induction groups generalizing d with
  | nil => rfl
  | cons x rest ih =>
    have h1 := groupStep_titleRows_present covers t d x hA h
    rw [List.foldl_cons, ih _ ((groupStep_hasAlbums covers d x).trans hA) (by rw [h1]; exact h),
      h1]
theorem artistName_nonnull (newAlbum : MusicAlbum) (x : MusicAudioTrack) (a : String)
    (ha : newAlbum.artist = some a) :
    ∃ aa, (if QString.isEmpty x.artist then newAlbum.artist else x.artist) = some aa := by
  cases hx : x.artist with
  | none => exact ⟨a, by simp [QString.isEmpty, ha]⟩
  | some v =>
    by_cases hv : v = ""
    · exact ⟨a, by simp [QString.isEmpty, hv, ha]⟩
    · exact ⟨v, by simp [QString.isEmpty, hv]⟩

/-- A track whose title and file are not stored yet for the album gets a row of its own. -/
theorem insertTrackBody_fresh (newAlbum : MusicAlbum) (albumId : Int) (db : Database)
    (x : MusicAudioTrack) (tt a : String) (hT : db.hasTracks = true)
    (htt : x.title = some tt) (ha : newAlbum.artist = some a)
    (hfile : ∀ r ∈ db.tracks, r.fileName ≠ x.resourceURI)
    (htitle : ∀ r ∈ db.tracks, r.albumID = albumId → r.title ≠ tt) :
    ∃ row : TrackRow, row.title = tt ∧ row.albumID = albumId ∧ row.fileName = x.resourceURI ∧
      insertTrackBody newAlbum albumId db x = { db with tracks := db.tracks ++ [row] } := by
  obtain ⟨aa, haa⟩ := artistName_nonnull newAlbum x a ha
  have hsel : selectTrack db (some tt) albumId (some aa) = [] := by
    unfold selectTrack
    simp only [hT, if_true, List.map_eq_nil_iff, List.filter_eq_nil_iff]
    intro r hr
    by_cases h1 : r.albumID = albumId
    · simp [htitle r hr h1]
    · simp [h1]
  have hsome : (insertTrack db (some tt) albumId (some aa) x.resourceURI x.trackNumber
      (QTime.msecsSinceStartOfDay x.duration)).isSome := by
    have h1 : (db.tracks.any (fun r => decide (r.fileName = x.resourceURI))) = false := by
      rw [List.any_eq_false]
      intro r hr
      simp [hfile r hr]
    have h2 : (db.tracks.any (fun r => decide (r.title = tt) && decide (r.albumID = albumId) &&
        decide (r.artist = aa))) = false := by
      rw [List.any_eq_false]
      intro r hr
      by_cases h1 : r.albumID = albumId
      · simp [htitle r hr h1]
      · simp [h1]
    simp [insertTrack, hT, h1, h2]
  obtain ⟨d1, hins⟩ := Option.isSome_iff_exists.mp hsome
  obtain ⟨t2, a2, e1, e2, _, _, _, e3⟩ := insertTrack_some _ _ _ _ _ _ _ _ hins
  cases e1
  cases e2
  refine ⟨⟨nextRowId (db.tracks.map (fun r => r.id)), tt, albumId, aa, x.resourceURI,
    x.trackNumber, QTime.msecsSinceStartOfDay x.duration⟩, rfl, rfl, rfl, ?_⟩
  unfold insertTrackBody
  simp only [htt, haa, hsel, hins]
  exact e3

/-- A group of tracks with non-null, pairwise distinct titles and pairwise distinct files,
none of them stored yet for the album, gets one row per track. -/
theorem foldl_insertTrackBody_fresh (newAlbum : MusicAlbum) (albumId : Int) (a : String)
    (ha : newAlbum.artist = some a) (album : List MusicAudioTrack) (db : Database)
    (hT : db.hasTracks = true)
    (hnn : ∀ x ∈ album, x.title ≠ none)
    (ht : (album.map (fun x => x.title)).Nodup)
    (hf : (album.map (fun x => x.resourceURI)).Nodup)
    (hfile : ∀ r ∈ db.tracks, ∀ x ∈ album, r.fileName ≠ x.resourceURI)
    (htitle : ∀ r ∈ db.tracks, ∀ x ∈ album, r.albumID = albumId → some r.title ≠ x.title) :
    ∃ added : List TrackRow, added.length = album.length ∧
      (∀ r ∈ added, r.albumID = albumId) ∧
      (album.foldl (insertTrackBody newAlbum albumId) db).tracks = db.tracks ++ added := by
  induction album generalizing db with
  | nil => exact ⟨[], rfl, by simp, by simp⟩
  | cons x rest ih =>
    simp only [List.map_cons, List.nodup_cons] at ht hf
    obtain ⟨tt, htt⟩ : ∃ tt, x.title = some tt := by
      cases hx : x.title with
      | none => exact absurd hx (hnn x (List.mem_cons_self _ _))
      | some v => exact ⟨v, rfl⟩
    obtain ⟨row, r1, r2, r3, hrow⟩ := insertTrackBody_fresh newAlbum albumId db x tt a hT htt ha
      (fun r hr => hfile r hr x (List.mem_cons_self _ _))
      (fun r hr h1 e => htitle r hr x (List.mem_cons_self _ _) h1 (by rw [htt, e]))
    have hstep : ∃ added, added.length = rest.length ∧ (∀ r ∈ added, r.albumID = albumId) ∧
        (rest.foldl (insertTrackBody newAlbum albumId)
          (insertTrackBody newAlbum albumId db x)).tracks
          = (insertTrackBody newAlbum albumId db x).tracks ++ added := by
      apply ih
      · rw [hrow]; exact hT
      · exact fun y hy => hnn y (List.mem_cons_of_mem _ hy)
      · exact ht.2
      · exact hf.2
      · intro r hr y hy
        rw [hrow] at hr
        rcases List.mem_append.mp hr with h | h
        · exact hfile r h y (List.mem_cons_of_mem _ hy)
        · rw [List.mem_singleton] at h
          rw [h, r3]
          intro e
          exact hf.1 (List.mem_map.mpr ⟨y, hy, e.symm⟩)
      · intro r hr y hy h1
        rw [hrow] at hr
        rcases List.mem_append.mp hr with h | h
        · exact htitle r h y (List.mem_cons_of_mem _ hy) h1
        · rw [List.mem_singleton] at h
          rw [h, r1, ← htt]
          intro e
          exact ht.1 (List.mem_map.mpr ⟨y, hy, e.symm⟩)
    obtain ⟨added, l1, l2, l3⟩ := hstep
    refine ⟨row :: added, by simp [l1], ?_, ?_⟩
    · intro r hr
      rcases List.mem_cons.mp hr with h | h
      · rw [h]; exact r2
      · exact l2 r h
    · rw [List.foldl_cons, l3, hrow]
      simp
theorem foldl_insertTrackBody_grows (newAlbum : MusicAlbum) (a : Int) (db : Database)
    (album : List MusicAudioTrack) :
    Grows db (album.foldl (insertTrackBody newAlbum a) db) :=
  foldl_closure Grows grows_refl grows_trans _
    (insertTrackBody_closure Grows grows_refl newAlbum a
      (fun d t => grows_insertTrack d t a)) db album

theorem construct_empty : DatabaseInterface.construct {} = { mTracksDatabase := emptyCatalogue } := by
  decide

/-- The store after one group was reconciled into the empty catalogue. -/
theorem groupStep_emptyCatalogue (covers : List (String × QString))
    (group : List MusicAudioTrack) (t a : String)
    (ht : (scanMetadata covers {} group).title = some t)
    (ha : (scanMetadata covers {} group).artist = some a)
    (hnn : ∀ x ∈ group, x.title ≠ none)
    (hdist : (group.map (fun x => x.title)).Nodup)
    (hfiles : (group.map (fun x => x.resourceURI)).Nodup) :
    (groupStep covers emptyCatalogue group).albums
      = [⟨1, t, a, (scanMetadata covers {} group).albumArtURI, group.length, none⟩] ∧
    (groupStep covers emptyCatalogue group).hasAlbums = true ∧
    (groupStep covers emptyCatalogue group).hasTracks = true ∧
    (groupStep covers emptyCatalogue group).tracks.length = group.length ∧
    ∀ r ∈ (groupStep covers emptyCatalogue group).tracks, r.albumID = 1 := by
  have hsel : selectAlbumByTitle emptyCatalogue (some t) = [] := by
    simp [selectAlbumByTitle, emptyCatalogue]
  obtain ⟨d1, hins, hd1⟩ : ∃ d1, insertAlbum emptyCatalogue (some t) (some a)
      (scanMetadata covers {} group).albumArtURI group.length = some d1 ∧
      d1 = { emptyCatalogue with albums :=
        [⟨1, t, a, (scanMetadata covers {} group).albumArtURI, group.length, none⟩] } := by
    refine ⟨_, ?_, rfl⟩
    simp [insertAlbum, emptyCatalogue, nextRowId]
  have hsel1 : selectAlbumByTitle d1 (some t) = [1] := by
    rw [hd1]
    simp [selectAlbumByTitle, emptyCatalogue]
  have hq : toQuintptr (toInt 1) = 1 := by decide
  have hg : groupStep covers emptyCatalogue group
      = group.foldl (insertTrackBody
          { scanMetadata covers {} group with tracksCount := group.length } 1) d1 := by
    unfold groupStep
    rw [ht, ha, hsel]
    simp only [hins, hsel1, hq]
  have hT1 : d1.hasTracks = true := by rw [hd1]; rfl
  have hat := foldl_insertTrackBody_attaches
    { scanMetadata covers {} group with tracksCount := group.length } 1 d1 group
  have hgr := foldl_insertTrackBody_grows
    { scanMetadata covers {} group with tracksCount := group.length } 1 d1 group
  obtain ⟨added, l1, l2, l3⟩ := foldl_insertTrackBody_fresh
    { scanMetadata covers {} group with tracksCount := group.length } 1 a ha group d1 hT1
    hnn hdist hfiles (by rw [hd1]; intro r hr; simp [emptyCatalogue] at hr)
    (by rw [hd1]; intro r hr; simp [emptyCatalogue] at hr)
  rw [hg]
  refine ⟨?_, ?_, ?_, ?_, ?_⟩
  · rw [hat.1, hd1]
  · rw [hat.2.1, hd1]; rfl
  · rw [hgr.2.1]; exact hT1
  · rw [l3, hd1]
    simpa [emptyCatalogue] using l1
  · intro r hr
    rw [l3, hd1] at hr
    simp only [emptyCatalogue, List.nil_append] at hr
    exact l2 r hr
theorem albumFromIndex_delegates (s : DatabaseInterface) (p id : Int) (h0 : 0 ≤ p)
    (hid : s.mIndexByPosition[p.toNat]? = some id) :
    albumFromIndex s p = albumFromId s id := by
  have hlt : p.toNat < s.mIndexByPosition.length := by
    by_contra hcon
    rw [List.getElem?_eq_none (Nat.le_of_not_lt hcon)] at hid
    exact Option.noConfusion hid
  have hneg : ¬ (p < 0 ∨ p ≥ s.mIndexByPosition.length) := by omega
  unfold albumFromIndex
  rw [if_neg hneg]
  simp [List.getD, hid]
theorem updateTracksCount_frame (db : Database) (a n : Int) :
    (updateTracksCount db a n).hasAlbums = db.hasAlbums ∧
    (updateTracksCount db a n).hasTracks = db.hasTracks ∧
    (updateTracksCount db a n).outcomes = db.outcomes ∧
    (updateTracksCount db a n).tracks = db.tracks ∧
    (updateTracksCount db a n).albums.map (fun r => r.id) = db.albums.map (fun r => r.id) := by
  unfold updateTracksCount
  split
  · split
    · exact ⟨rfl, rfl, rfl, rfl, rfl⟩
    · split
      · refine ⟨rfl, rfl, rfl, rfl, ?_⟩
        simp only [updateAlbumTracksCount, List.map_map]
        apply List.map_congr_left
        intro r _
        simp only [Function.comp]
        split <;> rfl
      · exact ⟨rfl, rfl, rfl, rfl, rfl⟩
  · exact ⟨rfl, rfl, rfl, rfl, rfl⟩

theorem fetchTracks_frame (db : Database) (a : Int) :
    (fetchTracks db a).2.hasAlbums = db.hasAlbums ∧
    (fetchTracks db a).2.hasTracks = db.hasTracks ∧
    (fetchTracks db a).2.outcomes = db.outcomes ∧
    (fetchTracks db a).2.tracks = db.tracks ∧
    (fetchTracks db a).2.albums.map (fun r => r.id) = db.albums.map (fun r => r.id) := by
  unfold fetchTracks
  split
  · exact updateTracksCount_frame db a _
  · exact ⟨rfl, rfl, rfl, rfl, rfl⟩

theorem storeOk_of_frame (db db1 : Database) (h : StoreOk db)
    (h1 : db1.hasAlbums = db.hasAlbums) (h2 : db1.outcomes = db.outcomes)
    (h3 : db1.tracks = db.tracks)
    (h4 : db1.albums.map (fun r => r.id) = db.albums.map (fun r => r.id)) : StoreOk db1 := by
  obtain ⟨a, b, c⟩ := h
  refine ⟨h1.trans a, h2.trans b, ?_⟩
  unfold IdsAscending
  rw [h4, h3]
  exact c

theorem storeOk_initDatabase (db : Database) (h : StoreOk db) : StoreOk (initDatabase db) := by
  have hs := initDatabase_schemaStep db
  refine ⟨hs.2.2.1 h.1, (initDatabase_outcomes_nil db h.2.1).1, ?_⟩
  unfold IdsAscending
  rw [hs.1, hs.2.1]
  exact h.2.2

theorem coherent_updateIndexCache (s : DatabaseInterface) (h : StoreOk s.mTracksDatabase) :
    Coherent (updateIndexCache s) := by
  obtain ⟨_, r1, r2, r3⟩ := updateIndexCache_rebuilt s h.1 (idsAscending_nodup_albums _ h.2.2)
  refine ⟨?_, r1, r2, ?_⟩
  · rw [updateIndexCache_db]
    exact storeOk_initDatabase _ h
  · intro id album hf
    rw [r3] at hf
    simp [QHash.find] at hf

theorem storeOk_insertTracksLoop (covers : List (String × QString)) (db : Database)
    (groups : List (List MusicAudioTrack)) (h : StoreOk db) :
    ∃ st, runLoop (insertTracksBody covers) { db := db, maximumAlbumId := 0, albumId := 0 }
      groups = Flow.next st ∧ StoreOk st.db := by
  obtain ⟨st, hst⟩ := insertTracksLoop_next_of_nil covers
    { db := db, maximumAlbumId := 0, albumId := 0 } groups h.2.1
  have hk := insertTracksLoop_keeps covers
    { db := db, maximumAlbumId := 0, albumId := 0 } groups
  rw [hst] at hk
  exact ⟨st, hst, hk.1.1.trans h.1, hk.2.2 h.2.1, hk.2.1 h.2.2⟩

theorem storeOk_insertAlbumsLoop (db : Database) (albums : List MusicAlbum) (h : StoreOk db) :
    ∃ st, runLoop insertAlbumsBody { db := db, albumId := 0 } albums = Flow.next st ∧
      StoreOk st.db := by
  obtain ⟨st, hst⟩ := insertAlbumsLoop_next_of_nil { db := db, albumId := 0 } albums h.2.1
  have hk := insertAlbumsLoop_keeps { db := db, albumId := 0 } albums
  rw [hst] at hk
  exact ⟨st, hst, hk.1.1.trans h.1, hk.2.2.1 h.2.1, hk.2.1 h.2.2⟩

theorem coherent_insertTracksList (s : DatabaseInterface)
    (tracks : List (String × List MusicAudioTrack)) (covers : List (String × QString))
    (h : Coherent s) : Coherent (insertTracksList s tracks covers) := by
  obtain ⟨st, hst, hok⟩ := storeOk_insertTracksLoop covers s.mTracksDatabase
    (tracks.map (fun g => g.2)) h.1
  unfold insertTracksList
  rw [hst]
  exact coherent_updateIndexCache _ hok

theorem coherent_insertAlbumsList (s : DatabaseInterface) (allAlbums : List MusicAlbum)
    (h : Coherent s) : Coherent (insertAlbumsList s allAlbums) := by
  obtain ⟨st, hst, hok⟩ := storeOk_insertAlbumsLoop s.mTracksDatabase allAlbums h.1
  unfold insertAlbumsList
  rw [hst]
  exact coherent_updateIndexCache _ hok

theorem coherent_of_store (s : DatabaseInterface) (db1 : Database) (h : Coherent s)
    (h1 : db1.hasAlbums = s.mTracksDatabase.hasAlbums)
    (h2 : db1.outcomes = s.mTracksDatabase.outcomes)
    (h3 : db1.tracks = s.mTracksDatabase.tracks)
    (h4 : db1.albums.map (fun r => r.id) = s.mTracksDatabase.albums.map (fun r => r.id)) :
    Coherent { s with mTracksDatabase := db1 } := by
  obtain ⟨c1, c2, c3, c4⟩ := h
  exact ⟨storeOk_of_frame _ _ c1 h1 h2 h3 h4, by rw [h4]; exact c2, c3, c4⟩

theorem coherent_albumFromId (s : DatabaseInterface) (albumId : Int) (h : Coherent s) :
    Coherent (albumFromId s albumId).2 := by
  unfold albumFromId
  split
  · split
    · exact h
    · rename_i row rest hsel
      split
      · rename_i hmiss
        have hf := fetchTracks_frame s.mTracksDatabase row.id
        have hrow : row.id = albumId := by
          have : row ∈ selectAlbumById s.mTracksDatabase albumId := by
            rw [hsel]; exact List.mem_cons_self _ _
          simp only [selectAlbumById, List.mem_filter, decide_eq_true_eq] at this
          exact this.2
        obtain ⟨c1, c2, c3, c4⟩ := coherent_of_store s _ h hf.1 hf.2.2.1 hf.2.2.2.1 hf.2.2.2.2
        refine ⟨c1, c2, c3, ?_⟩
        intro id album hfind
        simp only at hfind
        by_cases hid : id = albumId
        · subst hid
          rw [QHash.find_insert_self] at hfind
          cases hfind
          exact ⟨rfl, hrow⟩
        · rw [QHash.find_insert_ne _ _ _ _ hid] at hfind
          exact h.2.2.2 id album hfind
      · exact h
  · exact h

theorem coherent_albumFromIndex (s : DatabaseInterface) (p : Int) (h : Coherent s) :
    Coherent (albumFromIndex s p).2 := by
  unfold albumFromIndex
  split
  · exact h
  · exact coherent_albumFromId s _ h

theorem coherent_albumPositionByIndex (s : DatabaseInterface) (index : Int) (h : Coherent s) :
    Coherent (albumPositionByIndex s index).2 := by
  unfold albumPositionByIndex
  split
  · exact h
  · rename_i hnone
    obtain ⟨c1, c2, c3, c4⟩ := h
    refine ⟨c1, c2, ?_, c4⟩
    intro p id hp
    have hfound := c3 p id hp
    have hne : id ≠ index := by
      intro e
      rw [e, hnone] at hfound
      exact Option.noConfusion hfound
    simp only
    rw [QHash.find_insert_ne _ _ _ _ hne]
    exact hfound

theorem coherent_of_reachable (init s : DatabaseInterface) (hinit : Coherent init)
    (h : ReachableFrom init s) : Coherent s := by
  induction h with
  | start => exact hinit
  | albumFromIndex s p _ ih => exact coherent_albumFromIndex s p ih
  | albumFromId s a _ ih => exact coherent_albumFromId s a ih
  | albumPositionByIndex s i _ ih => exact coherent_albumPositionByIndex s i ih
  | insertAlbumsList s l _ ih => exact coherent_insertAlbumsList s l ih
  | insertTracksList s t c _ ih => exact coherent_insertTracksList s t c ih
  | initDatabase s _ ih =>
    have hs := initDatabase_schemaStep s.mTracksDatabase
    exact coherent_of_store s _ ih ((hs.2.2.1 ih.1.1).trans ih.1.1.symm)
      ((initDatabase_outcomes_nil _ ih.1.2.1).1.trans ih.1.2.1.symm) hs.2.1 (by rw [hs.1])
  | fetchTracks s a _ ih =>
    have hf := fetchTracks_frame s.mTracksDatabase a
    exact coherent_of_store s _ ih hf.1 hf.2.2.1 hf.2.2.2.1 hf.2.2.2.2
  | updateTracksCount s a n _ ih =>
    have hf := updateTracksCount_frame s.mTracksDatabase a n
    exact coherent_of_store s _ ih hf.1 hf.2.2.1 hf.2.2.2.1 hf.2.2.2.2
  | updateIndexCache s _ ih => exact coherent_updateIndexCache s ih.1

theorem coherent_construct_empty : Coherent (DatabaseInterface.construct {}) := by
  rw [construct_empty]
  refine ⟨⟨rfl, rfl, by decide⟩, List.Perm.refl _, ?_, ?_⟩
  · intro p id hp
    simp at hp
  · intro id album hf
    simp [QHash.find] at hf
theorem albumFromId_of_stored (s : DatabaseInterface) (id : Int) (h : Coherent s)
    (hid : id ∈ s.mTracksDatabase.albums.map (fun r => r.id)) :
    (albumFromId s id).1.valid = true ∧ (albumFromId s id).1.databaseId = id ∧
    (albumFromId s id).2.mPositionByIndex = s.mPositionByIndex := by
  obtain ⟨r0, hr0, hr0id⟩ := List.mem_map.mp hid
  have hmem : r0 ∈ selectAlbumById s.mTracksDatabase id := by
    simp only [selectAlbumById, List.mem_filter, decide_eq_true_eq]
    exact ⟨hr0, hr0id⟩
  unfold albumFromId
  rw [h.1.1]
  simp only [if_true]
  split
  · rename_i hnil
    rw [hnil] at hmem
    simp at hmem
  · rename_i row rest hsel
    have hrow : row.id = id := by
      have : row ∈ selectAlbumById s.mTracksDatabase id := by
        rw [hsel]; exact List.mem_cons_self _ _
      simp only [selectAlbumById, List.mem_filter, decide_eq_true_eq] at this
      exact this.2
    split
    · exact ⟨rfl, hrow, rfl⟩
    · rename_i cached hc
      have := h.2.2.2 id cached hc
      exact ⟨this.1, this.2, rfl⟩

theorem coherent_position_bijection (s : DatabaseInterface) (h : Coherent s) (p : Int)
    (h0 : 0 ≤ p) (hp : p < albumCount s) :
    (albumFromIndex s p).1.valid = true ∧
    (albumPositionByIndex (albumFromIndex s p).2 (albumFromIndex s p).1.databaseId).1 = p := by
  have hlen : p < (s.mTracksDatabase.albums.length : Int) := by
    unfold albumCount at hp
    rw [h.1.1] at hp
    simp only [if_true] at hp
    exact lt_of_lt_of_le hp (toInt_le_of_nonneg _ (by omega))
  have hlt : p.toNat < s.mIndexByPosition.length := by
    rw [h.2.1.length_eq, List.length_map]
    omega
  have hget : s.mIndexByPosition[p.toNat]? = some (s.mIndexByPosition[p.toNat]) :=
    List.getElem?_eq_getElem hlt
  have hmem : s.mIndexByPosition[p.toNat] ∈ s.mTracksDatabase.albums.map (fun r => r.id) :=
    h.2.1.mem_iff.mp (List.getElem_mem hlt)
  rw [albumFromIndex_delegates s p _ h0 hget]
  obtain ⟨a1, a2, a3⟩ := albumFromId_of_stored s _ h hmem
  refine ⟨a1, ?_⟩
  have hfind := h.2.2.1 p.toNat _ hget
  unfold albumPositionByIndex
  rw [a2, a3, hfind]
  simp only
  omega
theorem coherent_construct (store : Database) (ha : store.albums = []) (ht : store.tracks = [])
    (ho : store.outcomes = []) : Coherent (DatabaseInterface.construct store) := by
  have hs := initDatabase_schemaStep store
  have hn := initDatabase_outcomes_nil store ho
  unfold DatabaseInterface.construct
  refine ⟨⟨hn.2.1, hn.1, ?_⟩, ?_, ?_, ?_⟩
  · unfold IdsAscending
    simp only
    rw [hs.1, hs.2.1, ha, ht]
    exact ⟨List.Pairwise.nil, List.Pairwise.nil⟩
  · simp only
    rw [hs.1, ha]
    exact List.Perm.refl _
  · intro p id hp
    simp at hp
  · intro id album hf
    simp [QHash.find] at hf
theorem selectTrack_mono (db d1 : Database) (t : QString) (a : Int) (ar : QString)
    (hg : Grows db d1) (h : selectTrack db t a ar ≠ []) : selectTrack d1 t a ar ≠ [] := by
  unfold selectTrack at h ⊢
  rw [hg.2.1]
  by_cases hT : db.hasTracks = true
  · rw [if_pos hT] at h ⊢
    cases t with
    | none => exact absurd rfl h
    | some tt =>
      cases ar with
      | none => exact absurd rfl h
      | some aa =>
        simp only at h ⊢
        obtain ⟨extra, he⟩ := hg.2.2.2
        rw [← he, List.filter_append, List.map_append]
        intro hnil
        exact h (List.append_eq_nil.mp hnil).1
  · rw [if_neg hT] at h
    exact absurd rfl h

theorem insertTrack_none_mono (db d1 : Database) (t : QString) (a : Int) (ar : QString)
    (f : String) (n du : Int) (hg : Grows db d1) (h : insertTrack db t a ar f n du = none) :
    insertTrack d1 t a ar f n du = none := by
  unfold insertTrack at h ⊢
  rw [hg.2.1]
  by_cases hT : db.hasTracks = true
  · rw [if_pos hT] at h ⊢
    cases t with
    | none => rfl
    | some tt =>
      cases ar with
      | none => rfl
      | some aa =>
        simp only at h ⊢
        obtain ⟨extra, he⟩ := hg.2.2.2
        rw [← he]
        simp only [List.any_append]
        split at h
        · rename_i h1
          simp [h1]
        · split at h
          · rename_i h1 h2
            simp [h2]
          · exact Option.noConfusion h
  · rw [if_neg hT]

theorem selectTrack_after_insert (db d1 : Database) (t : QString) (a : Int) (ar : QString)
    (f : String) (n du : Int) (h : insertTrack db t a ar f n du = some d1) :
    selectTrack d1 t a ar ≠ [] := by
  obtain ⟨tt, aa, rfl, rfl, hT, _, _, rfl⟩ := insertTrack_some db _ a _ f n du d1 h
  unfold selectTrack
  simp [hT, List.filter_append]

theorem insertTrackBody_noop (newAlbum : MusicAlbum) (a : Int) (db : Database)
    (x : MusicAudioTrack)
    (h : selectTrack db x.title a
          (if QString.isEmpty x.artist then newAlbum.artist else x.artist) ≠ [] ∨
        insertTrack db x.title a
          (if QString.isEmpty x.artist then newAlbum.artist else x.artist) x.resourceURI
          x.trackNumber (QTime.msecsSinceStartOfDay x.duration) = none) :
    insertTrackBody newAlbum a db x = db := by
  unfold insertTrackBody
  simp only
  split
  · rfl
  · rename_i hsel
    rcases h with h | h
    · exact absurd hsel h
    · rw [h]

/-- A track that was processed once is skipped in every later store. -/
theorem insertTrackBody_stable (newAlbum : MusicAlbum) (a : Int) (db d1 : Database)
    (x : MusicAudioTrack) (hg : Grows (insertTrackBody newAlbum a db x) d1) :
    insertTrackBody newAlbum a d1 x = d1 := by
  apply insertTrackBody_noop
  unfold insertTrackBody at hg
  simp only at hg
  split at hg
  · rename_i y ys hsel
    left
    exact selectTrack_mono db d1 _ _ _ hg (by rw [hsel]; simp)
  · split at hg
    · rename_i hins
      right
      exact insertTrack_none_mono db d1 _ _ _ _ _ _ hg hins
    · rename_i d2 hins
      left
      exact selectTrack_mono d2 d1 _ _ _ hg (selectTrack_after_insert _ _ _ _ _ _ _ _ hins)

theorem insertTrackBody_grows (newAlbum : MusicAlbum) (a : Int) (db : Database)
    (x : MusicAudioTrack) : Grows db (insertTrackBody newAlbum a db x) :=
  insertTrackBody_closure Grows grows_refl newAlbum a (fun d t => grows_insertTrack d t a) db x

theorem foldl_insertTrackBody_stable (newAlbum : MusicAlbum) (a : Int)
    (album : List MusicAudioTrack) (db d1 : Database)
    (hg : Grows (album.foldl (insertTrackBody newAlbum a) db) d1) :
    album.foldl (insertTrackBody newAlbum a) d1 = d1 := by
  induction album generalizing db with
  | nil => rfl
  | cons x rest ih =>
    rw [List.foldl_cons] at hg
    have h1 : Grows (insertTrackBody newAlbum a db x) d1 :=
      grows_trans _ _ _ (foldl_insertTrackBody_grows newAlbum a _ rest) hg
    rw [List.foldl_cons, insertTrackBody_stable newAlbum a db d1 x h1]
    exact ih _ hg
theorem selectAlbumByTitle_head_mono (db d1 : Database) (t : QString) (f : Int) (r : List Int)
    (hg : Grows db d1) (h : selectAlbumByTitle db t = f :: r) :
    ∃ r1, selectAlbumByTitle d1 t = f :: r1 := by
  unfold selectAlbumByTitle at h ⊢
  rw [hg.1]
  by_cases hA : db.hasAlbums = true
  · rw [if_pos hA] at h ⊢
    cases t with
    | none => exact absurd h (by simp)
    | some tt =>
      simp only at h ⊢
      obtain ⟨extra, he⟩ := hg.2.2.1
      rw [← he, List.filter_append, List.map_append, h]
      exact ⟨_, rfl⟩
  · rw [if_neg hA] at h
    exact absurd h (by simp)

theorem scanTrack_artist (covers : List (String × QString)) (newAlbum : MusicAlbum)
    (track : MusicAudioTrack) :
    (scanTrack covers newAlbum track).artist =
      if QString.isNull newAlbum.artist then track.artist else newAlbum.artist := by
  unfold scanTrack
  simp only
  split <;> split <;> split <;> simp_all

theorem scanMetadata_artist_some (covers : List (String × QString)) (newAlbum : MusicAlbum)
    (album : List MusicAudioTrack) (v : String) (h : newAlbum.artist = some v) :
    (scanMetadata covers newAlbum album).artist = some v := by
  induction album generalizing newAlbum with
  | nil => exact h
  | cons x rest ih =>
    have hs : (scanTrack covers newAlbum x).artist = some v := by
      rw [scanTrack_artist, h]
      rfl
    unfold scanMetadata
    split
    · exact hs
    · exact ih _ hs

theorem scanMetadata_artist_none (covers : List (String × QString)) (newAlbum : MusicAlbum)
    (album : List MusicAudioTrack) (h : (scanMetadata covers newAlbum album).artist = none) :
    ∀ x ∈ album, x.artist = none := by
  induction album generalizing newAlbum with
  | nil => intro x hx; simp at hx
  | cons y rest ih =>
    have hs : (scanTrack covers newAlbum y).artist = none := by
      cases hv : (scanTrack covers newAlbum y).artist with
      | none => rfl
      | some w =>
        exfalso
        unfold scanMetadata at h
        split at h
        · rw [hv] at h
          exact Option.noConfusion h
        · rw [scanMetadata_artist_some covers _ rest w hv] at h
          exact Option.noConfusion h
    have hy : y.artist = none := by
      rw [scanTrack_artist] at hs
      cases hn : newAlbum.artist with
      | none =>
        rw [hn] at hs
        exact hs
      | some v =>
        rw [hn] at hs
        exact Option.noConfusion hs
    intro x hx
    rcases List.mem_cons.mp hx with rfl | hx
    · exact hy
    · unfold scanMetadata at h
      have hnot : scanResolved (scanTrack covers newAlbum y) = false := by
        unfold scanResolved
        rw [hs]
        rfl
      rw [hnot] at h
      exact ih _ h x hx

theorem insertTrackBody_noop_null (newAlbum : MusicAlbum) (a : Int) (db : Database)
    (x : MusicAudioTrack) (hn : newAlbum.artist = none) (hx : x.artist = none) :
    insertTrackBody newAlbum a db x = db := by
  apply insertTrackBody_noop
  right
  simp only [hx, hn, QString.isEmpty, if_true]
  unfold insertTrack
  split
  · cases x.title <;> rfl
  · rfl

theorem foldl_insertTrackBody_noop_null (newAlbum : MusicAlbum) (a : Int) (db : Database)
    (album : List MusicAudioTrack) (hn : newAlbum.artist = none)
    (hx : ∀ x ∈ album, x.artist = none) :
    album.foldl (insertTrackBody newAlbum a) db = db := by
  induction album with
  | nil => rfl
  | cons x rest ih =>
    rw [List.foldl_cons, insertTrackBody_noop_null newAlbum a db x hn
      (hx x (List.mem_cons_self _ _))]
    exact ih (fun y hy => hx y (List.mem_cons_of_mem _ hy))

theorem groupStep_grows (covers : List (String × QString)) (db : Database)
    (album : List MusicAudioTrack) : Grows db (groupStep covers db album) := by
  unfold groupStep
  split
  · exact foldl_insertTrackBody_grows _ _ _ _
  · split
    · exact grows_refl db
    · rename_i d1 hins
      have h1 := grows_insertAlbum _ _ _ _ _ _ hins
      split
      · exact grows_trans _ _ _ h1 (foldl_insertTrackBody_grows _ _ _ _)
      · exact h1

theorem foldl_groupStep_grows (covers : List (String × QString)) (db : Database)
    (groups : List (List MusicAudioTrack)) :
    Grows db (groups.foldl (groupStep covers) db) :=
  foldl_closure Grows grows_refl grows_trans _ (groupStep_grows covers) db groups
/-- The group step for a title that is stored: its tracks are attached to the first album
carrying that title. -/
theorem groupStep_of_found (covers : List (String × QString)) (db : Database)
    (album : List MusicAudioTrack) (f : Int) (r : List Int)
    (h : selectAlbumByTitle db (scanMetadata covers {} album).title = f :: r) :
    groupStep covers db album = album.foldl (insertTrackBody
      { scanMetadata covers {} album with tracksCount := album.length }
      (toQuintptr (toInt f))) db := by
  unfold groupStep
  rw [h]

theorem insertAlbum_none_cases (db : Database) (t a : QString) (c : String) (n : Int)
    (h : insertAlbum db t a c n = none) (hsel : selectAlbumByTitle db t = []) :
    db.hasAlbums = false ∨ t = none ∨ a = none := by
  by_cases hA : db.hasAlbums = true
  · right
    cases t with
    | none => left; rfl
    | some tt =>
      right
      cases a with
      | none => rfl
      | some aa =>
        exfalso
        unfold insertAlbum at h
        rw [if_pos hA] at h
        simp only at h
        split at h
        · rename_i hany
          simp only [List.any_eq_true, Bool.and_eq_true, decide_eq_true_eq] at hany
          obtain ⟨row, hrow, hrt, _⟩ := hany
          unfold selectAlbumByTitle at hsel
          rw [if_pos hA] at hsel
          simp only [List.map_eq_nil_iff, List.filter_eq_nil_iff] at hsel
          exact hsel row hrow (by simp [hrt])
        · exact Option.noConfusion h
  · left
    simpa using hA

/-- A group that was processed once leaves every later store as it is. -/
theorem groupStep_stable (covers : List (String × QString)) (db d1 : Database)
    (album : List MusicAudioTrack) (hg : Grows (groupStep covers db album) d1) :
    groupStep covers d1 album = d1 := by
  cases hsel : selectAlbumByTitle db (scanMetadata covers {} album).title with
  | cons f r =>
    rw [groupStep_of_found covers db album f r hsel] at hg
    obtain ⟨r1, hsel1⟩ := selectAlbumByTitle_head_mono db d1 _ f r
      (grows_trans _ _ _ (foldl_insertTrackBody_grows _ _ _ _) hg) hsel
    rw [groupStep_of_found covers d1 album f r1 hsel1]
    exact foldl_insertTrackBody_stable _ _ album db d1 hg
  | nil =>
    cases hins : insertAlbum db (scanMetadata covers {} album).title
        (scanMetadata covers {} album).artist (scanMetadata covers {} album).albumArtURI
        album.length with
    | none =>
      have hE : groupStep covers db album = db := by
        unfold groupStep
        rw [hsel]
        simp only [hins]
      rw [hE] at hg
      rcases insertAlbum_none_cases _ _ _ _ _ hins hsel with h | h | h
      · -- no `Albums` relation
        have hA1 : d1.hasAlbums = false := hg.1.trans h
        unfold groupStep
        simp [selectAlbumByTitle, insertAlbum, hA1]
      · -- null title
        unfold groupStep
        simp [selectAlbumByTitle, insertAlbum, h]
      · -- null artist: every track of the group has a null artist
        have hall := scanMetadata_artist_none covers {} album h
        cases hsel1 : selectAlbumByTitle d1 (scanMetadata covers {} album).title with
        | cons f1 r1 =>
          rw [groupStep_of_found covers d1 album f1 r1 hsel1]
          exact foldl_insertTrackBody_noop_null _ _ _ _ h hall
        | nil =>
          unfold groupStep
          rw [hsel1]
          simp [insertAlbum, h]
    | some d2 =>
      have hsel2 := selectAlbumByTitle_after_insert _ _ _ _ _ _ hins
      cases hs2 : selectAlbumByTitle d2 (scanMetadata covers {} album).title with
      | nil => exact absurd hs2 hsel2
      | cons f r =>
        have hE : groupStep covers db album = album.foldl (insertTrackBody
            { scanMetadata covers {} album with tracksCount := album.length }
            (toQuintptr (toInt f))) d2 := by
          unfold groupStep
          rw [hsel]
          simp only [hins, hs2]
        rw [hE] at hg
        obtain ⟨r1, hsel1⟩ := selectAlbumByTitle_head_mono d2 d1 _ f r
          (grows_trans _ _ _ (foldl_insertTrackBody_grows _ _ _ _) hg) hs2
        rw [groupStep_of_found covers d1 album f r1 hsel1]
        exact foldl_insertTrackBody_stable _ _ album d2 d1 hg

theorem foldl_groupStep_stable (covers : List (String × QString))
    (groups : List (List MusicAudioTrack)) (db d1 : Database)
    (hg : Grows (groups.foldl (groupStep covers) db) d1) :
    groups.foldl (groupStep covers) d1 = d1 := by
  induction groups generalizing db with
  | nil => rfl
  | cons g rest ih =>
    rw [List.foldl_cons] at hg
    have h1 : Grows (groupStep covers db g) d1 :=
      grows_trans _ _ _ (foldl_groupStep_grows covers _ rest) hg
    rw [List.foldl_cons, groupStep_stable covers db d1 g h1]
    exact ih _ hg
theorem foldl_groupStep_outcomes_nil (covers : List (String × QString)) (db : Database)
    (groups : List (List MusicAudioTrack)) (h : db.outcomes = []) :
    (groups.foldl (groupStep covers) db).outcomes = [] := by
  obtain ⟨st1, _, h2, h3⟩ := runLoop_eq_foldl (insertTracksBody covers)
    (fun (st : TracksLocals) => st.db) (groupStep covers)
    (fun (st : TracksLocals) => st.db.outcomes = [])
    (fun st x hs => insertTracksBody_of_nil covers st x hs)
    { db := db, maximumAlbumId := 0, albumId := 0 } groups h
  simp only at h2
  rw [← h2]
  exact h3

theorem selectAlbumById_eq_nil (db : Database) (id : Int) :
    selectAlbumById db id = [] ↔ id ∉ db.albums.map (fun r => r.id) := by
  simp only [selectAlbumById, List.filter_eq_nil_iff, decide_eq_true_eq, List.mem_map, not_exists,
    not_and]

theorem albumFromId_twice (s : DatabaseInterface) (id : Int) :
    (albumFromId (albumFromId s id).2 id).1 = (albumFromId s id).1 := by
  by_cases hA : s.mTracksDatabase.hasAlbums = true
  · cases hsel : selectAlbumById s.mTracksDatabase id with
    | nil =>
      have h1 : albumFromId s id = ({}, s) := by
        unfold albumFromId
        rw [if_pos hA, hsel]
      rw [h1]
      simp only
      rw [h1]
    | cons row rest =>
      cases hc : QHash.find s.mAlbumCache id with
      | some cached =>
        have h1 : albumFromId s id = (cached, s) := by
          unfold albumFromId
          rw [if_pos hA, hsel]
          simp only [hc]
        rw [h1]
        simp only
        rw [h1]
      | none =>
        have hrow : row.id = id := by
          have : row ∈ selectAlbumById s.mTracksDatabase id := by
            rw [hsel]; exact List.mem_cons_self _ _
          simp only [selectAlbumById, List.mem_filter, decide_eq_true_eq] at this
          exact this.2
        have hfr := fetchTracks_frame s.mTracksDatabase row.id
        have hne : selectAlbumById (fetchTracks s.mTracksDatabase row.id).2 id ≠ [] := by
          rw [Ne, selectAlbumById_eq_nil, hfr.2.2.2.2, ← selectAlbumById_eq_nil, hsel]
          simp
        have h1 : albumFromId s id = (
            { databaseId := row.id, title := some row.title, id := row.albumInternalID,
              artist := some row.artist, albumArtURI := row.coverFileName,
              tracksCount := toInt row.tracksCount,
              tracks := (fetchTracks s.mTracksDatabase row.id).1,
              trackIds := (fetchTracks s.mTracksDatabase row.id).1.map (fun e => e.1),
              valid := true },
            { s with mTracksDatabase := (fetchTracks s.mTracksDatabase row.id).2,
                     mAlbumCache := QHash.insert s.mAlbumCache id
                       { databaseId := row.id, title := some row.title,
                         id := row.albumInternalID,
                         artist := some row.artist, albumArtURI := row.coverFileName,
                         tracksCount := toInt row.tracksCount,
                         tracks := (fetchTracks s.mTracksDatabase row.id).1,
                         trackIds := (fetchTracks s.mTracksDatabase row.id).1.map (fun e => e.1),
                         valid := true } }) := by
          unfold albumFromId
          rw [if_pos hA, hsel]
          simp only [hc]
        rw [h1]
        simp only
        unfold albumFromId
        simp only
        rw [if_pos (by rw [hfr.1]; exact hA)]
        cases hsel2 : selectAlbumById (fetchTracks s.mTracksDatabase row.id).2 id with
        | nil => exact absurd hsel2 hne
        | cons row2 rest2 =>
          simp only [QHash.find_insert_self]
  · have h1 : albumFromId s id = ({}, s) := by
      unfold albumFromId
      rw [if_neg hA]
    rw [h1]
    simp only
    rw [h1]

theorem pairwise_rel_at {α : Type} (R : α → α → Prop) (l : List α) (h : l.Pairwise R)
    (p q : Nat) (x y : α) (hpq : p < q) (hp : l[p]? = some x) (hq : l[q]? = some y) :
    R x y := by
  obtain ⟨hp1, hp2⟩ := List.getElem?_eq_some.mp hp
  obtain ⟨hq1, hq2⟩ := List.getElem?_eq_some.mp hq
  rw [← hp2, ← hq2]
  exact List.pairwise_iff_getElem.mp h p q hp1 hq1 hpq

theorem pairwise_of_rel_at {α : Type} (R : α → α → Prop) (l : List α)
    (h : ∀ (p q : Nat) (x y : α), p < q → l[p]? = some x → l[q]? = some y → R x y) :
    l.Pairwise R := by
  rw [List.pairwise_iff_getElem]
  intro i j hi hj hij
  exact h i j _ _ hij (List.getElem?_eq_getElem hi) (List.getElem?_eq_getElem hj)

/-- The index entries are the entries of the album rows. -/
theorem indexEntries_perm (db : Database) :
    (indexEntries db).Perm (db.albums.map AlbumRow.indexEntry) :=
  List.perm_insertionSort _ _

theorem mem_indexEntries (db : Database) (e : Lex (List Nat × Lex (List Nat × Int))) :
    e ∈ indexEntries db ↔ ∃ r ∈ db.albums, r.indexEntry = e := by
  rw [(indexEntries_perm db).mem_iff, List.mem_map]

/-- When the ids are pairwise distinct and grow with the index entries, the scan of the index
yields them in ascending order. -/
theorem selectAlbumIds_ascending (db : Database)
    (hN : (db.albums.map (fun r => r.id)).Nodup)
    (H : ∀ r1 ∈ db.albums, ∀ r2 ∈ db.albums, r1.indexEntry < r2.indexEntry → r1.id < r2.id) :
    (selectAlbumIds db).Pairwise (fun x y => x < y) := by
  have hs := indexEntries_sorted db
  have hnd : (indexEntries db).Nodup :=
    List.Nodup.of_map entryId ((selectAlbumIds_perm db).nodup_iff.mpr hN)
  unfold selectAlbumIds
  rw [List.pairwise_map]
  refine (hs.and hnd).imp_of_mem ?_
  intro a b ha hb hab
  obtain ⟨r1, hr1, rfl⟩ := (mem_indexEntries db a).mp ha
  obtain ⟨r2, hr2, rfl⟩ := (mem_indexEntries db b).mp hb
  exact H r1 hr1 r2 hr2 (lt_of_le_of_ne hab.1 hab.2)

/-- When the scan of the index yields ascending ids, the ids grow with the index entries. -/
theorem selectAlbumIds_ascending_only (db : Database)
    (h : (selectAlbumIds db).Pairwise (fun x y => x < y)) :
    ∀ r1 ∈ db.albums, ∀ r2 ∈ db.albums, r1.indexEntry < r2.indexEntry → r1.id < r2.id := by
  intro r1 h1 r2 h2 hlt
  have hs := indexEntries_sorted db
  unfold selectAlbumIds at h
  rw [List.pairwise_map] at h
  have hb : (indexEntries db).Pairwise (fun a b =>
      (a ≤ b ∧ entryId a < entryId b) ∨ (b ≤ a ∧ entryId b < entryId a)) :=
    (hs.and h).imp (fun hab => Or.inl hab)
  have hsymm : Symmetric (fun (a b : Lex (List Nat × Lex (List Nat × Int))) =>
      (a ≤ b ∧ entryId a < entryId b) ∨ (b ≤ a ∧ entryId b < entryId a)) :=
    fun a b hab => hab.symm
  have hc := hb.forall hsymm ((mem_indexEntries db _).mpr ⟨r1, h1, rfl⟩)
    ((mem_indexEntries db _).mpr ⟨r2, h2, rfl⟩) (ne_of_lt hlt)
  rcases hc with hc | hc
  · exact hc.2
  · exact absurd hlt (not_lt.mpr hc.1)

/-- Whatever stands at two positions of the scan stands there for two album rows, the one at
the earlier position with the entry that is not the larger one. -/
theorem selectAlbumIds_rows_at (db : Database) (p q : Nat) (x y : Int) (hpq : p < q)
    (hp : (selectAlbumIds db)[p]? = some x) (hq : (selectAlbumIds db)[q]? = some y) :
    ∃ r1 ∈ db.albums, ∃ r2 ∈ db.albums,
      r1.id = x ∧ r2.id = y ∧ r1.indexEntry ≤ r2.indexEntry := by
  unfold selectAlbumIds at hp hq
  rw [List.getElem?_map] at hp hq
  cases hep : (indexEntries db)[p]? with
  | none => rw [hep] at hp; simp at hp
  | some e =>
    cases heq : (indexEntries db)[q]? with
    | none => rw [heq] at hq; simp at hq
    | some f =>
      rw [hep] at hp
      rw [heq] at hq
      simp only [Option.map_some', Option.some.injEq] at hp hq
      obtain ⟨r1, hr1, e1⟩ := (mem_indexEntries db e).mp (List.getElem?_mem hep)
      obtain ⟨r2, hr2, e2⟩ := (mem_indexEntries db f).mp (List.getElem?_mem heq)
      refine ⟨r1, hr1, r2, hr2, ?_, ?_, ?_⟩
      · rw [← hp, ← e1]; rfl
      · rw [← hq, ← e2]; rfl
      · rw [e1, e2]
        exact pairwise_rel_at _ _ (indexEntries_sorted db) p q e f hpq hep heq

theorem scanTrack_title (covers : List (String × QString)) (newAlbum : MusicAlbum)
    (track : MusicAudioTrack) :
    (scanTrack covers newAlbum track).title =
      if QString.isNull newAlbum.title then track.albumName else newAlbum.title := by
  unfold scanTrack
  simp only
  split <;> split <;> split <;> simp_all

theorem scanTrack_cover (covers : List (String × QString)) (newAlbum : MusicAlbum)
    (track : MusicAudioTrack) :
    (scanTrack covers newAlbum track).albumArtURI =
      if newAlbum.albumArtURI = "" then QUrl.fromLocalFile (QHash.value covers track.albumName)
      else newAlbum.albumArtURI := by
  unfold scanTrack
  simp only
  split <;> split <;> split <;> simp_all

theorem scanResolved_iff (newAlbum : MusicAlbum) :
    scanResolved newAlbum = true ↔
      QString.isNull newAlbum.artist = false ∧ QString.isNull newAlbum.title = false ∧
      newAlbum.albumArtURI ≠ "" := by
  unfold scanResolved
  simp [and_assoc]

theorem firstNonNull_merge (a b : QString) (rest : List QString) :
    firstNonNull ((if QString.isNull a then b else a) :: rest) = firstNonNull (a :: b :: rest) := by
  cases a with
  | none => simp [firstNonNull, QString.isNull]
  | some v => simp [firstNonNull, QString.isNull]

theorem firstNonNull_head (a : QString) (rest : List QString) (h : QString.isNull a = false) :
    firstNonNull (a :: rest) = a := by
  simp [firstNonNull, h]

theorem firstNonNull_single (a : QString) : firstNonNull [a] = a := by
  cases a <;> simp [firstNonNull, QString.isNull]

theorem fromLocalFile_eq_empty (p : QString) :
    QUrl.fromLocalFile p = "" ↔ QString.isEmpty p = true := by
  unfold QUrl.fromLocalFile
  split
  · rename_i h; simp [h]
  · rename_i h
    have hne : "file://" ++ QString.text p ≠ "" := by
      intro hc
      have hl := congrArg String.length hc
      have h7 : "file://".length = 7 := by decide
      have h0 : "".length = 0 := by decide
      rw [String.length_append, h7, h0] at hl
      omega
    simp [h, hne]

/-- The metadata scan from any starting album: each field keeps its starting value when it
is resolved, and takes the first resolving value of the group otherwise. -/
theorem scanMetadata_fields (covers : List (String × QString)) (newAlbum : MusicAlbum)
    (album : List MusicAudioTrack) :
    (scanMetadata covers newAlbum album).artist
      = firstNonNull (newAlbum.artist :: album.map (fun t => t.artist)) ∧
    (scanMetadata covers newAlbum album).title
      = firstNonNull (newAlbum.title :: album.map (fun t => t.albumName)) ∧
    (scanMetadata covers newAlbum album).albumArtURI
      = (if newAlbum.albumArtURI = "" then
          QUrl.fromLocalFile (firstNonEmpty (album.map (fun t => QHash.value covers t.albumName)))
        else newAlbum.albumArtURI) := by
  induction album generalizing newAlbum with
  | nil =>
    refine ⟨(firstNonNull_single _).symm, (firstNonNull_single _).symm, ?_⟩
    simp only [scanMetadata, List.map_nil, firstNonEmpty]
    split
    · rename_i h; rw [h]; rfl
    · rfl
  | cons t rest ih =>
    have hcov : (if newAlbum.albumArtURI = "" then
          QUrl.fromLocalFile (firstNonEmpty
            ((t :: rest).map (fun t => QHash.value covers t.albumName)))
        else newAlbum.albumArtURI)
        = (if (scanTrack covers newAlbum t).albumArtURI = "" then
            QUrl.fromLocalFile (firstNonEmpty (rest.map (fun t => QHash.value covers t.albumName)))
          else (scanTrack covers newAlbum t).albumArtURI) := by
      rw [scanTrack_cover]
      simp only [List.map_cons, firstNonEmpty]
      by_cases h0 : newAlbum.albumArtURI = ""
      · simp only [h0, if_true]
        by_cases h1 : QString.isEmpty (QHash.value covers t.albumName) = true
        · simp only [h1, if_true, (fromLocalFile_eq_empty _).mpr h1]
        · have h2 : QUrl.fromLocalFile (QHash.value covers t.albumName) ≠ "" :=
            fun hc => h1 ((fromLocalFile_eq_empty _).mp hc)
          simp only [h1, if_neg h2]
          simp
      · simp only [h0, if_false]
    unfold scanMetadata
    split
    · rename_i hres
      obtain ⟨ha, ht, hc⟩ := (scanResolved_iff _).mp hres
      refine ⟨?_, ?_, ?_⟩
      · rw [List.map_cons, ← firstNonNull_merge, ← scanTrack_artist covers]
        exact (firstNonNull_head _ _ ha).symm
      · rw [List.map_cons, ← firstNonNull_merge, ← scanTrack_title covers]
        exact (firstNonNull_head _ _ ht).symm
      · rw [hcov, if_neg hc]
    · obtain ⟨ia, it, ic⟩ := ih (scanTrack covers newAlbum t)
      refine ⟨?_, ?_, ?_⟩
      · rw [ia, List.map_cons, ← firstNonNull_merge newAlbum.artist, ← scanTrack_artist covers]
      · rw [it, List.map_cons, ← firstNonNull_merge newAlbum.title, ← scanTrack_title covers]
      · rw [ic, hcov]

theorem firstNonNull_eq_firstNonEmpty (xs : List QString) (h : ∀ x ∈ xs, x ≠ some "") :
    firstNonNull xs = firstNonEmpty xs := by
  induction xs with
  | nil => rfl
  | cons x rest ih =>
    have hx := h x (List.mem_cons_self _ _)
    have ih1 := ih (fun y hy => h y (List.mem_cons_of_mem _ hy))
    cases x with
    | none => simp [firstNonNull, firstNonEmpty, QString.isNull, QString.isEmpty, ih1]
    | some v =>
      have hv : v ≠ "" := fun hc => hx (by rw [hc])
      simp [firstNonNull, firstNonEmpty, QString.isNull, QString.isEmpty, hv]

theorem nextRowId_pos (ids : List Int) (h : ∀ y ∈ ids, 1 ≤ y) : 1 ≤ nextRowId ids := by
  cases ids with
  | nil => simp [nextRowId]
  | cons x xs =>
    have h1 := (foldl_max_ge xs x).1
    have h2 := h x (List.mem_cons_self _ _)
    simp only [nextRowId]
    omega

theorem albumIdsPositive_insertAlbum (d : Database) (t a : QString) (c : String) (n : Int)
    (d1 : Database) (h : insertAlbum d t a c n = some d1) (hd : AlbumIdsPositive d) :
    AlbumIdsPositive d1 := by
  obtain ⟨tt, aa, _, _, _, _, rfl⟩ := insertAlbum_some d t a c n d1 h
  intro r hr
  simp only [List.mem_append, List.mem_singleton] at hr
  rcases hr with hr | rfl
  · exact hd r hr
  · simp only
    apply nextRowId_pos
    intro y hy
    obtain ⟨r0, hr0, rfl⟩ := List.mem_map.mp hy
    exact hd r0 hr0

theorem albumIdsPositive_insertTrack (d : Database) (t : QString) (al : Int) (ar : QString)
    (f : String) (n du : Int) (d1 : Database) (h : insertTrack d t al ar f n du = some d1)
    (hd : AlbumIdsPositive d) : AlbumIdsPositive d1 := by
  obtain ⟨tt, aa, _, _, _, _, _, rfl⟩ := insertTrack_some d t al ar f n du d1 h
  exact hd

theorem albumIdsPositive_nextOutcome (d : Database) (hd : AlbumIdsPositive d) :
    AlbumIdsPositive d.nextOutcome.2 := by
  unfold AlbumIdsPositive
  rw [(nextOutcome_rows d).1]
  exact hd

theorem insertTracksList_albumIdsPositive (s : DatabaseInterface)
    (tracks : List (String × List MusicAudioTrack)) (covers : List (String × QString))
    (h : AlbumIdsPositive s.mTracksDatabase) :
    AlbumIdsPositive (insertTracksList s tracks covers).mTracksDatabase := by
  have hk := runLoop_closure
    (fun (a b : TracksLocals) => AlbumIdsPositive a.db → AlbumIdsPositive b.db)
    (fun _ h => h) (fun _ _ _ h1 h2 h => h2 (h1 h)) _
    (insertTracksBody_closure (fun (a b : Database) => AlbumIdsPositive a → AlbumIdsPositive b)
      (fun _ h => h) (fun _ _ _ h1 h2 h => h2 (h1 h)) albumIdsPositive_nextOutcome
      albumIdsPositive_insertAlbum albumIdsPositive_insertTrack covers)
    { db := s.mTracksDatabase, maximumAlbumId := 0, albumId := 0 } (tracks.map (fun g => g.2)) h
  unfold AlbumIdsPositive
  rw [(insertTracksList_rows s tracks covers).1]
  exact hk

theorem insertAlbumsList_albumIdsPositive (s : DatabaseInterface) (allAlbums : List MusicAlbum)
    (h : AlbumIdsPositive s.mTracksDatabase) :
    AlbumIdsPositive (insertAlbumsList s allAlbums).mTracksDatabase := by
  have hk := runLoop_closure
    (fun (a b : AlbumsLocals) => AlbumIdsPositive a.db → AlbumIdsPositive b.db)
    (fun _ h => h) (fun _ _ _ h1 h2 h => h2 (h1 h)) _
    (insertAlbumsBody_closure (fun (a b : Database) => AlbumIdsPositive a → AlbumIdsPositive b)
      (fun _ _ _ h1 h2 h => h2 (h1 h)) albumIdsPositive_nextOutcome
      albumIdsPositive_insertAlbum)
    { db := s.mTracksDatabase, albumId := 0 } allAlbums h
  unfold AlbumIdsPositive
  rw [(insertAlbumsList_rows s allAlbums).1]
  exact hk

theorem selectTrackById_of_mem (db : Database) (trackId : Int) (row : TrackRow)
    (hN : (db.tracks.map (fun r => r.id)).Nodup) (hrow : row ∈ db.tracks)
    (hid : row.id = trackId) :
    ∃ rest, selectTrackById db trackId = row :: rest := by
  have hmem : row ∈ selectTrackById db trackId := by
    simp only [selectTrackById, List.mem_filter, decide_eq_true_eq]
    exact ⟨hrow, hid⟩
  cases hsel : selectTrackById db trackId with
  | nil => rw [hsel] at hmem; simp at hmem
  | cons r0 rest =>
    have h0 : r0 ∈ selectTrackById db trackId := by rw [hsel]; exact List.mem_cons_self _ _
    simp only [selectTrackById, List.mem_filter, decide_eq_true_eq] at h0
    have : r0 = row := List.inj_on_of_nodup_map hN h0.1 hrow (by rw [h0.2, hid])
    rw [this]
    exact ⟨rest, rfl⟩

theorem QMap.sorted_insert {β : Type} (m : List (Int × β)) (k : Int) (v : β)
    (h : (m.map Prod.fst).Pairwise (fun x y => x < y)) :
    ((QMap.insert m k v).map Prod.fst).Pairwise (fun x y => x < y) := by
  induction m with
  | nil => simp [QMap.insert]
  | cons e rest ih =>
    obtain ⟨k1, v1⟩ := e
    simp only [List.map_cons, List.pairwise_cons] at h
    simp only [QMap.insert]
    split
    · rename_i hlt
      simp only [List.map_cons, List.pairwise_cons, List.mem_cons]
      refine ⟨?_, h.1, h.2⟩
      intro y hy
      rcases hy with rfl | hy
      · exact hlt
      · exact lt_trans hlt (h.1 y hy)
    · split
      · rename_i h1 h2
        subst h2
        simp only [List.map_cons, List.pairwise_cons]
        exact h
      · rename_i h1 h2
        simp only [List.map_cons, List.pairwise_cons]
        refine ⟨?_, ih h.2⟩
        intro y hy
        rcases (QMap.mem_keys_insert rest k v y).mp hy with rfl | hy
        · omega
        · exact h.1 y hy

theorem QMap.mem_insert_of_fresh {β : Type} (m : List (Int × β)) (k : Int) (v : β)
    (h : k ∉ m.map Prod.fst) (e : Int × β) :
    e ∈ QMap.insert m k v ↔ e = (k, v) ∨ e ∈ m := by
  induction m with
  | nil => simp [QMap.insert]
  | cons e1 rest ih =>
    obtain ⟨k1, v1⟩ := e1
    simp only [List.map_cons, List.mem_cons, not_or] at h
    simp only [QMap.insert]
    split
    · simp only [List.mem_cons]
    · split
      · rename_i h1 h2
        exact absurd h2 h.1
      · simp only [List.mem_cons, ih h.2]
        tauto

theorem fetch_fold_sorted (rows : List TrackRow) (m : List (Int × MusicAudioTrack))
    (h : (m.map Prod.fst).Pairwise (fun x y => x < y)) :
    ((rows.foldl (fun m r => QMap.insert m (trackOfRow r).databaseId (trackOfRow r)) m).map
      Prod.fst).Pairwise (fun x y => x < y) := by
  induction rows generalizing m with
  | nil => exact h
  | cons r rest ih =>
    simp only [List.foldl_cons]
    exact ih _ (QMap.sorted_insert m _ _ h)

theorem fetch_fold_mem (rows : List TrackRow) (m : List (Int × MusicAudioTrack))
    (hn : (rows.map (fun r => r.id)).Nodup)
    (hd : ∀ r ∈ rows, r.id ∉ m.map Prod.fst) (e : Int × MusicAudioTrack) :
    e ∈ rows.foldl (fun m r => QMap.insert m (trackOfRow r).databaseId (trackOfRow r)) m ↔
      e ∈ m ∨ ∃ r ∈ rows, e = (r.id, trackOfRow r) := by
  induction rows generalizing m with
  | nil => simp
  | cons r rest ih =>
    simp only [List.map_cons, List.nodup_cons] at hn
    simp only [List.foldl_cons]
    have hr : (trackOfRow r).databaseId ∉ m.map Prod.fst := hd r (List.mem_cons_self _ _)
    rw [ih _ hn.2]
    · rw [QMap.mem_insert_of_fresh m _ _ hr]
      simp only [List.mem_cons, exists_eq_or_imp]
      have : (trackOfRow r).databaseId = r.id := rfl
      rw [this]
      tauto
    · intro x hx hc
      rcases (QMap.mem_keys_insert m _ _ x.id).mp hc with h1 | h1
      · have : (trackOfRow r).databaseId = r.id := rfl
        rw [this] at h1
        exact hn.1 (by rw [← h1]; exact List.mem_map_of_mem _ hx)
      · exact hd x (List.mem_cons_of_mem _ hx) h1

theorem fetchTracks_mem (db : Database) (a : Int) (hT : db.hasTracks = true)
    (hN : (db.tracks.map (fun r => r.id)).Nodup) (e : Int × MusicAudioTrack) :
    e ∈ (fetchTracks db a).1 ↔ ∃ r ∈ db.tracks, r.albumID = a ∧ e = (r.id, trackOfRow r) := by
  unfold fetchTracks
  simp only [hT, if_true]
  have hsub : ((selectTracksOfAlbum db a).map (fun r => r.id)).Nodup :=
    hN.sublist ((List.filter_sublist _).map _)
  rw [fetch_fold_mem (selectTracksOfAlbum db a) [] hsub (by simp)]
  simp only [List.not_mem_nil, false_or, selectTracksOfAlbum, List.mem_filter,
    decide_eq_true_eq]
  constructor
  · rintro ⟨r, ⟨h1, h2⟩, h3⟩
    exact ⟨r, h1, h2, h3⟩
  · rintro ⟨r, h1, h2, h3⟩
    exact ⟨r, ⟨h1, h2⟩, h3⟩

theorem fetchTracks_sorted (db : Database) (a : Int) :
    ((fetchTracks db a).1.map Prod.fst).Pairwise (fun x y => x < y) := by
  unfold fetchTracks
  split
  · exact fetch_fold_sorted _ [] (by simp)
  · simp

theorem insertAlbum_nextOutcome (d : Database) (t a : QString) (c : String) (n : Int)
    (h : insertAlbum d t a c n = none) : insertAlbum d.nextOutcome.2 t a c n = none := by
  have hr := nextOutcome_rows d
  unfold insertAlbum at h ⊢
  rw [hr.1, hr.2.2.1]
  split
  · rename_i hA
    rw [if_pos hA] at h
    cases t with
    | none => rfl
    | some tt =>
      cases a with
      | none => rfl
      | some aa =>
        simp only at h ⊢
        split
        · rfl
        · rename_i hany
          rw [if_neg hany] at h
          exact Option.noConfusion h
  · rfl

/-- The body of the group loop for a group whose album is neither found nor insertable: the
rows and the locals `albumId` and `maximumAlbumId` are left as they were. -/
theorem insertTracksBody_album_failure (covers : List (String × QString)) (st : TracksLocals)
    (album : List MusicAudioTrack)
    (hsel : selectAlbumByTitle st.db (scanMetadata covers {} album).title = [])
    (hins : insertAlbum st.db (scanMetadata covers {} album).title
      (scanMetadata covers {} album).artist (scanMetadata covers {} album).albumArtURI
      album.length = none) :
    (insertTracksBody covers st album).state.db.tracks = st.db.tracks ∧
    (insertTracksBody covers st album).state.db.albums = st.db.albums ∧
    (insertTracksBody covers st album).state.albumId = st.albumId ∧
    (insertTracksBody covers st album).state.maximumAlbumId = st.maximumAlbumId := by
  have hr := nextOutcome_rows st.db
  unfold insertTracksBody Database.transaction
  split
  · simp only
    rw [selectAlbumByTitle_nextOutcome, hsel]
    simp only
    rw [insertAlbum_nextOutcome _ _ _ _ _ hins]
    simp only
    rw [commitAnd_state]
    have hr2 := nextOutcome_rows st.db.nextOutcome.2
    exact ⟨hr2.2.1.trans hr.2.1, hr2.1.trans hr.1, rfl, rfl⟩
  · exact ⟨hr.2.1, hr.1, rfl, rfl⟩

theorem groupStep_album_failure (covers : List (String × QString)) (db : Database)
    (album : List MusicAudioTrack)
    (hsel : selectAlbumByTitle db (scanMetadata covers {} album).title = [])
    (hins : insertAlbum db (scanMetadata covers {} album).title
      (scanMetadata covers {} album).artist (scanMetadata covers {} album).albumArtURI
      album.length = none) :
    groupStep covers db album = db := by
  unfold groupStep
  rw [hsel]
  simp only
  rw [hins]

theorem insertTracksLoop_db_of_nil (covers : List (String × QString)) (db : Database)
    (groups : List (List MusicAudioTrack)) (h : db.outcomes = []) :
    (runLoop (insertTracksBody covers) { db := db, maximumAlbumId := 0, albumId := 0 }
      groups).state.db = groups.foldl (groupStep covers) db := by
  obtain ⟨st1, h1, h2, _⟩ := runLoop_eq_foldl (insertTracksBody covers)
    (fun (st : TracksLocals) => st.db) (groupStep covers)
    (fun (st : TracksLocals) => st.db.outcomes = [])
    (fun st x hs => insertTracksBody_of_nil covers st x hs)
    { db := db, maximumAlbumId := 0, albumId := 0 } groups h
  rw [h1]
  exact h2

theorem insertTrackBody_of_insert (newAlbum : MusicAlbum) (a : Int) (db d1 : Database)
    (y : MusicAudioTrack)
    (hsel : selectTrack db y.title a (artistName newAlbum y) = [])
    (hins : insertTrack db y.title a (artistName newAlbum y) y.resourceURI y.trackNumber
      (QTime.msecsSinceStartOfDay y.duration) = some d1) :
    insertTrackBody newAlbum a db y = d1 := by
  unfold artistName at hsel hins
  unfold insertTrackBody
  simp only
  rw [hsel]
  simp only
  rw [hins]

theorem insertGroupTracks_tracks (newAlbum : MusicAlbum) (m a : Int) (db : Database)
    (album : List MusicAudioTrack) :
    (insertGroupTracks newAlbum m a db album).state.db.tracks
      = (album.foldl (insertTrackBody newAlbum a) db).tracks := by
  unfold insertGroupTracks
  rw [commitAnd_state]
  exact (nextOutcome_rows _).2.1

/-- The body of the group loop of `insertTracksList`, once `transaction()` succeeded and
the album of the group is found or inserted, is the track loop of the group on a store with
the track rows the body started with. -/
theorem insertTracksBody_runs_track_loop (covers : List (String × QString)) (st : TracksLocals)
    (album : List MusicAudioTrack) (hT : st.db.transaction.1 = true)
    (h : selectAlbumByTitle st.db.transaction.2 (scanMetadata covers {} album).title ≠ [] ∨
      insertAlbum st.db.transaction.2 (scanMetadata covers {} album).title
        (scanMetadata covers {} album).artist (scanMetadata covers {} album).albumArtURI
        album.length ≠ none) :
    ∃ (m a : Int) (d : Database),
      insertTracksBody covers st album
        = insertGroupTracks { scanMetadata covers {} album with tracksCount := album.length }
            m a d album ∧
      d.tracks = st.db.tracks := by
  have hr := nextOutcome_rows st.db
  unfold insertTracksBody
  rw [if_pos hT]
  simp only
  cases hsel : selectAlbumByTitle st.db.transaction.2 (scanMetadata covers {} album).title with
  | cons found rest =>
    exact ⟨_, _, _, rfl, hr.2.1⟩
  | nil =>
    simp only
    cases hins : insertAlbum st.db.transaction.2 (scanMetadata covers {} album).title
        (scanMetadata covers {} album).artist (scanMetadata covers {} album).albumArtURI
        album.length with
    | none =>
      rcases h with h | h
      · exact absurd hsel h
      · exact absurd hins h
    | some d1 =>
      simp only
      obtain ⟨tt, aa, _, _, hA, _, hd1⟩ := insertAlbum_some _ _ _ _ _ d1 hins
      have hA1 : d1.hasAlbums = true := by rw [hd1]; exact hA
      have ht1 : d1.tracks = st.db.tracks := by rw [hd1]; exact hr.2.1
      rw [if_pos hA1]
      split
      · exact ⟨_, _, _, rfl, ht1⟩
      · exact ⟨_, _, _, rfl, ht1⟩

theorem outcomeAt_of_drop (d d1 : Database) (n k : Nat) (h : d1.outcomes = d.outcomes.drop n) :
    d1.outcomeAt k = d.outcomeAt (n + k) := by
  unfold Database.outcomeAt
  rw [h, List.getD_eq_getElem?_getD, List.getD_eq_getElem?_getD, List.getElem?_drop]

theorem execCreate_eq (db : Database) (change : Database → Database) :
    execCreate db change =
      if db.outcomeAt 0 then change { db with outcomes := db.outcomes.drop 1 }
      else { db with outcomes := db.outcomes.drop 1 } := by
  obtain ⟨ds, a, t, tm, idx, albums, tracks, outs⟩ := db
  cases outs with
  | nil => simp [execCreate, Database.nextOutcome, Database.outcomeAt]
  | cons o rest => simp [execCreate, Database.nextOutcome, Database.outcomeAt]

/-- What a conditional `CREATE TABLE` does to the schema and to the script. -/
theorem createTable_effect (d : Database) (present : Bool) (change : Database → Database) :
    (if present then d else execCreate d change)
      = if present then d
        else if d.outcomeAt 0 then change { d with outcomes := d.outcomes.drop 1 }
        else { d with outcomes := d.outcomes.drop 1 } := by
  rw [execCreate_eq]

theorem initDatabase_of_nil (db : Database) (h : db.outcomes = []) :
    (initDatabase db).hasDiscoverSource = true ∧ (initDatabase db).hasAlbums = true ∧
    (initDatabase db).hasTracks = true ∧ (initDatabase db).hasTracksMapping = true ∧
    (initDatabase db).hasTracksAlbumIndex = true ∧
    initDatabase (initDatabase db) = initDatabase db := by
  have ex : ∀ (d : Database) (change : Database → Database), d.outcomes = [] →
      execCreate d change = change d := by
    intro d change hd
    simp [execCreate, nextOutcome_of_nil d hd]
  have h1 : (initDatabase db).hasDiscoverSource = true ∧ (initDatabase db).hasAlbums = true ∧
      (initDatabase db).hasTracks = true ∧ (initDatabase db).hasTracksMapping = true ∧
      (initDatabase db).hasTracksAlbumIndex = true ∧ (initDatabase db).outcomes = [] := by
    unfold initDatabase
    by_cases h1 : db.hasDiscoverSource <;> by_cases h2 : db.hasAlbums <;>
      by_cases h3 : db.hasTracks <;> by_cases h4 : db.hasTracksMapping <;>
      simp [h1, h2, h3, h4, ex, h]
  refine ⟨h1.1, h1.2.1, h1.2.2.1, h1.2.2.2.1, h1.2.2.2.2.1, ?_⟩
  generalize initDatabase db = d at h1
  obtain ⟨g1, g2, g3, g4, g5, g6⟩ := h1
  obtain ⟨ds, a, t, tm, idx, albums, tracks, outs⟩ := d
  simp only at g1 g2 g3 g4 g5 g6
  subst g1 g2 g3 g4 g5 g6
  rfl

theorem initDatabase_of_complete (db : Database)
    (h1 : db.hasDiscoverSource = true) (h2 : db.hasAlbums = true) (h3 : db.hasTracks = true)
    (h4 : db.hasTracksMapping = true) (h5 : db.hasTracksAlbumIndex = true) :
    initDatabase db = { db with outcomes := db.outcomes.drop 1 } := by
  obtain ⟨ds, a, t, tm, idx, albums, tracks, outs⟩ := db
  simp only at h1 h2 h3 h4 h5
  subst h1 h2 h3 h4 h5
  cases outs with
  | nil => rfl
  | cons o rest => cases o <;> rfl

/-- The schema flags after `initDatabase`: every relation is attempted with the store call
of its own turn, whatever the earlier calls answered. -/
theorem initDatabase_flags (db : Database) :
    (initDatabase db).hasDiscoverSource = (db.hasDiscoverSource || db.outcomeAt 0) ∧
    (initDatabase db).hasAlbums
      = (db.hasAlbums || db.outcomeAt (creations db.hasDiscoverSource)) ∧
    (initDatabase db).hasTracks
      = (db.hasTracks ||
          db.outcomeAt (creations db.hasDiscoverSource + creations db.hasAlbums)) ∧
    (initDatabase db).hasTracksMapping
      = (db.hasTracksMapping ||
          db.outcomeAt (creations db.hasDiscoverSource + creations db.hasAlbums
            + creations db.hasTracks)) ∧
    (initDatabase db).hasTracksAlbumIndex
      = (db.hasTracksAlbumIndex ||
          (db.outcomeAt (creations db.hasDiscoverSource + creations db.hasAlbums
              + creations db.hasTracks + creations db.hasTracksMapping) &&
            (initDatabase db).hasTracks)) := by
  have e1 : ∀ d : Database, ∀ d1, d1 = (if d.hasDiscoverSource then d
        else execCreate d (fun d => { d with hasDiscoverSource := true })) →
      d1.hasDiscoverSource = (d.hasDiscoverSource || d.outcomeAt 0) ∧
      d1.hasAlbums = d.hasAlbums ∧ d1.hasTracks = d.hasTracks ∧
      d1.hasTracksMapping = d.hasTracksMapping ∧
      d1.hasTracksAlbumIndex = d.hasTracksAlbumIndex ∧
      d1.outcomes = d.outcomes.drop (creations d.hasDiscoverSource) := by
    intro d d1 h
    rw [createTable_effect] at h
    subst h
    by_cases hf : d.hasDiscoverSource = true <;> by_cases ho : d.outcomeAt 0 = true <;>
      simp [hf, ho, creations]
  have e2 : ∀ d : Database, ∀ d1, d1 = (if d.hasAlbums then d
        else execCreate d (fun d => { d with hasAlbums := true })) →
      d1.hasDiscoverSource = d.hasDiscoverSource ∧
      d1.hasAlbums = (d.hasAlbums || d.outcomeAt 0) ∧ d1.hasTracks = d.hasTracks ∧
      d1.hasTracksMapping = d.hasTracksMapping ∧
      d1.hasTracksAlbumIndex = d.hasTracksAlbumIndex ∧
      d1.outcomes = d.outcomes.drop (creations d.hasAlbums) := by
    intro d d1 h
    rw [createTable_effect] at h
    subst h
    by_cases hf : d.hasAlbums = true <;> by_cases ho : d.outcomeAt 0 = true <;>
      simp [hf, ho, creations]
  have e3 : ∀ d : Database, ∀ d1, d1 = (if d.hasTracks then d
        else execCreate d (fun d => { d with hasTracks := true })) →
      d1.hasDiscoverSource = d.hasDiscoverSource ∧
      d1.hasAlbums = d.hasAlbums ∧ d1.hasTracks = (d.hasTracks || d.outcomeAt 0) ∧
      d1.hasTracksMapping = d.hasTracksMapping ∧
      d1.hasTracksAlbumIndex = d.hasTracksAlbumIndex ∧
      d1.outcomes = d.outcomes.drop (creations d.hasTracks) := by
    intro d d1 h
    rw [createTable_effect] at h
    subst h
    by_cases hf : d.hasTracks = true <;> by_cases ho : d.outcomeAt 0 = true <;>
      simp [hf, ho, creations]
  have e4 : ∀ d : Database, ∀ d1, d1 = (if d.hasTracksMapping then d
        else execCreate d (fun d => { d with hasTracksMapping := true })) →
      d1.hasDiscoverSource = d.hasDiscoverSource ∧
      d1.hasAlbums = d.hasAlbums ∧ d1.hasTracks = d.hasTracks ∧
      d1.hasTracksMapping = (d.hasTracksMapping || d.outcomeAt 0) ∧
      d1.hasTracksAlbumIndex = d.hasTracksAlbumIndex ∧
      d1.outcomes = d.outcomes.drop (creations d.hasTracksMapping) := by
    intro d d1 h
    rw [createTable_effect] at h
    subst h
    by_cases hf : d.hasTracksMapping = true <;> by_cases ho : d.outcomeAt 0 = true <;>
      simp [hf, ho, creations]
  have e5 : ∀ d : Database, ∀ d1, d1 = execCreate d
        (fun d => if d.hasTracks then { d with hasTracksAlbumIndex := true } else d) →
      d1.hasTracks = d.hasTracks ∧
      d1.hasTracksAlbumIndex = (d.hasTracksAlbumIndex || (d.outcomeAt 0 && d.hasTracks)) ∧
      d1.hasDiscoverSource = d.hasDiscoverSource ∧ d1.hasAlbums = d.hasAlbums ∧
      d1.hasTracksMapping = d.hasTracksMapping := by
    intro d d1 h
    rw [execCreate_eq] at h
    subst h
    by_cases hf : d.hasTracks = true <;> by_cases ho : d.outcomeAt 0 = true <;>
      simp [hf, ho]
  have key : ∀ d1 d2 d3 d4 d5 : Database,
      d1 = (if db.hasDiscoverSource then db
        else execCreate db (fun d => { d with hasDiscoverSource := true })) →
      d2 = (if d1.hasAlbums then d1 else execCreate d1 (fun d => { d with hasAlbums := true })) →
      d3 = (if d2.hasTracks then d2 else execCreate d2 (fun d => { d with hasTracks := true })) →
      d4 = (if d3.hasTracksMapping then d3
        else execCreate d3 (fun d => { d with hasTracksMapping := true })) →
      d5 = execCreate d4
        (fun d => if d.hasTracks then { d with hasTracksAlbumIndex := true } else d) →
      d5 = initDatabase db →
      d1.hasDiscoverSource = (db.hasDiscoverSource || db.outcomeAt 0) ∧
      d2.hasAlbums = (db.hasAlbums || db.outcomeAt (creations db.hasDiscoverSource)) ∧
      d3.hasTracks = (db.hasTracks ||
          db.outcomeAt (creations db.hasDiscoverSource + creations db.hasAlbums)) ∧
      d4.hasTracksMapping = (db.hasTracksMapping ||
          db.outcomeAt (creations db.hasDiscoverSource + creations db.hasAlbums
            + creations db.hasTracks)) ∧
      d5.hasTracksAlbumIndex = (db.hasTracksAlbumIndex ||
          (db.outcomeAt (creations db.hasDiscoverSource + creations db.hasAlbums
              + creations db.hasTracks + creations db.hasTracksMapping) &&
            d5.hasTracks)) ∧
      d5.hasDiscoverSource = d1.hasDiscoverSource ∧ d5.hasAlbums = d2.hasAlbums ∧
      d5.hasTracks = d3.hasTracks ∧ d5.hasTracksMapping = d4.hasTracksMapping := by
    intro d1 d2 d3 d4 d5 h1 h2 h3 h4 h5 _
    obtain ⟨a1, a2, a3, a4, a5, a6⟩ := e1 db d1 h1
    obtain ⟨b1, b2, b3, b4, b5, b6⟩ := e2 d1 d2 h2
    obtain ⟨c1, c2, c3, c4, c5, c6⟩ := e3 d2 d3 h3
    obtain ⟨f1, f2, f3, f4, f5, f6⟩ := e4 d3 d4 h4
    obtain ⟨g1, g2, g3, g4, g5⟩ := e5 d4 d5 h5
    have o2 : d2.outcomes = db.outcomes.drop
        (creations db.hasDiscoverSource + creations db.hasAlbums) := by
      rw [b6, a6, List.drop_drop, a2]
    have o3 : d3.outcomes = db.outcomes.drop
        (creations db.hasDiscoverSource + creations db.hasAlbums + creations db.hasTracks) := by
      rw [c6, o2, List.drop_drop, b3, a3]
    have o4 : d4.outcomes = db.outcomes.drop
        (creations db.hasDiscoverSource + creations db.hasAlbums + creations db.hasTracks
          + creations db.hasTracksMapping) := by
      rw [f6, o3, List.drop_drop, c4, b4, a4]
    refine ⟨a1, ?_, ?_, ?_, ?_, ?_, ?_, ?_, ?_⟩
    · rw [b2, a2, outcomeAt_of_drop db d1 _ 0 a6, Nat.add_zero]
    · rw [c3, b3, a3, outcomeAt_of_drop db d2 _ 0 o2, Nat.add_zero]
    · rw [f4, c4, b4, a4, outcomeAt_of_drop db d3 _ 0 o3, Nat.add_zero]
    · rw [g2, g1, f5, c5, b5, a5, outcomeAt_of_drop db d4 _ 0 o4, Nat.add_zero]
    · rw [g3, f1, c1, b1]
    · rw [g4, f2, c2]
    · rw [g1, f3]
    · exact g5
  obtain ⟨k1, k2, k3, k4, k5, k6, k7, k8, k9⟩ := key _ _ _ _ _ rfl rfl rfl rfl rfl rfl
  exact ⟨k6.trans k1, k7.trans k2, k8.trans k3, k9.trans k4, k5⟩

theorem titlesUnique_nextOutcome (d : Database) (h : TitlesUnique d) :
    TitlesUnique d.nextOutcome.2 := by
  have hr := nextOutcome_rows d
  unfold TitlesUnique
  rw [hr.1, hr.2.2.1]
  exact h

theorem titlesUnique_insertTrack (d : Database) (t : QString) (al : Int) (ar : QString)
    (f : String) (n du : Int) (d1 : Database) (h : insertTrack d t al ar f n du = some d1)
    (hd : TitlesUnique d) : TitlesUnique d1 := by
  obtain ⟨tt, aa, _, _, _, _, _, rfl⟩ := insertTrack_some d t al ar f n du d1 h
  exact hd

theorem selectAlbumByTitle_eq_nil (d : Database) (tt : String) (hA : d.hasAlbums = true)
    (h : selectAlbumByTitle d (some tt) = []) : ∀ r ∈ d.albums, r.title ≠ tt := by
  unfold selectAlbumByTitle at h
  rw [if_pos hA] at h
  simp only [List.map_eq_nil_iff, List.filter_eq_nil_iff, decide_eq_true_eq] at h
  exact h

/-- An album insert that follows an empty lookup by title keeps the titles distinct. -/
theorem titlesUnique_insertAlbum (d : Database) (t a : QString) (c : String) (n : Int)
    (d1 : Database) (hsel : selectAlbumByTitle d t = [])
    (h : insertAlbum d t a c n = some d1) (hd : TitlesUnique d) : TitlesUnique d1 := by
  obtain ⟨tt, aa, rfl, rfl, hA, _, rfl⟩ := insertAlbum_some d t a c n d1 h
  have hno := selectAlbumByTitle_eq_nil d tt hA hsel
  refine ⟨?_, fun _ => hA⟩
  simp only [List.map_append, List.map_cons, List.map_nil]
  rw [List.nodup_append]
  refine ⟨hd.1, by simp, ?_⟩
  intro x hx hy
  simp only [List.mem_singleton] at hy
  subst hy
  obtain ⟨r, hr, hrt⟩ := List.mem_map.mp hx
  exact hno r hr hrt

/-- The closure of the group loop body under a relation that album inserts respect when they
follow an empty lookup by title on the same store. -/
theorem insertTracksBody_guarded (R : Database → Database → Prop)
    (hrefl : ∀ d, R d d) (htrans : ∀ a b c, R a b → R b c → R a c)
    (hout : ∀ d, R d d.nextOutcome.2)
    (halb : ∀ d t a c n d1, selectAlbumByTitle d t = [] → insertAlbum d t a c n = some d1 →
      R d d1)
    (htrk : ∀ d t al ar f n du d1, insertTrack d t al ar f n du = some d1 → R d d1)
    (covers : List (String × QString)) (st : TracksLocals) (album : List MusicAudioTrack) :
    R st.db (insertTracksBody covers st album).state.db := by
  have hg := insertGroupTracks_closure R hrefl htrans hout htrk
  unfold insertTracksBody
  split
  · simp only
    refine htrans _ _ _ (hout st.db) ?_
    show R st.db.nextOutcome.2 _
    split
    · exact hg _ _ _ _ _
    · rename_i hsel
      split
      · rw [commitAnd_state]; exact hout _
      · rename_i d1 h
        refine htrans _ _ _ (halb _ _ _ _ _ _ hsel h) ?_
        split
        · split
          · exact hg _ _ _ _ _
          · exact hg _ _ _ _ _
        · rw [commitAnd_state]; exact hout _
  · exact hout st.db

theorem insertAlbumsBody_guarded (R : Database → Database → Prop)
    (htrans : ∀ a b c, R a b → R b c → R a c)
    (hout : ∀ d, R d d.nextOutcome.2)
    (halb : ∀ d t a c n d1, selectAlbumByTitle d t = [] → insertAlbum d t a c n = some d1 →
      R d d1)
    (st : AlbumsLocals) (album : MusicAlbum) :
    R st.db (insertAlbumsBody st album).state.db := by
  unfold insertAlbumsBody
  split
  · simp only
    refine htrans _ _ _ (hout st.db) ?_
    show R st.db.nextOutcome.2 _
    split
    · rw [commitAnd_state]; exact hout _
    · rename_i hsel
      split
      · rw [commitAnd_state]; exact hout _
      · rename_i d1 h
        refine htrans _ _ _ (halb _ _ _ _ _ _ hsel h) ?_
        split
        · split
          · rw [commitAnd_state]; exact hout _
          · rw [commitAnd_state]; exact hout _
        · rw [commitAnd_state]; exact hout _
  · exact hout st.db

theorem titlesUnique_initDatabase (d : Database) (h : TitlesUnique d) :
    TitlesUnique (initDatabase d) := by
  have hs := initDatabase_schemaStep d
  unfold TitlesUnique
  rw [hs.1]
  exact ⟨h.1, fun hne => hs.2.2.1 (h.2 hne)⟩

theorem titlesUnique_updateIndexCache (s : DatabaseInterface)
    (h : TitlesUnique s.mTracksDatabase) : TitlesUnique (updateIndexCache s).mTracksDatabase := by
  rw [updateIndexCache_db]
  exact titlesUnique_initDatabase _ h

theorem titlesUnique_insertTracksList (s : DatabaseInterface)
    (tracks : List (String × List MusicAudioTrack)) (covers : List (String × QString))
    (h : TitlesUnique s.mTracksDatabase) :
    TitlesUnique (insertTracksList s tracks covers).mTracksDatabase := by
  have hk := runLoop_closure
    (fun (a b : TracksLocals) => TitlesUnique a.db → TitlesUnique b.db)
    (fun _ h => h) (fun _ _ _ h1 h2 h => h2 (h1 h)) _
    (insertTracksBody_guarded (fun (a b : Database) => TitlesUnique a → TitlesUnique b)
      (fun _ h => h) (fun _ _ _ h1 h2 h => h2 (h1 h)) titlesUnique_nextOutcome
      (fun d t a c n d1 hsel hins => titlesUnique_insertAlbum d t a c n d1 hsel hins)
      titlesUnique_insertTrack covers)
    { db := s.mTracksDatabase, maximumAlbumId := 0, albumId := 0 } (tracks.map (fun g => g.2)) h
  unfold insertTracksList
  cases hrun : runLoop (insertTracksBody covers)
      { db := s.mTracksDatabase, maximumAlbumId := 0, albumId := 0 }
      (tracks.map (fun g => g.2)) with
  | next st =>
    rw [hrun] at hk
    exact titlesUnique_updateIndexCache _ hk
  | stop st =>
    rw [hrun] at hk
    exact hk

theorem titlesUnique_insertAlbumsList (s : DatabaseInterface) (allAlbums : List MusicAlbum)
    (h : TitlesUnique s.mTracksDatabase) :
    TitlesUnique (insertAlbumsList s allAlbums).mTracksDatabase := by
  have hk := runLoop_closure
    (fun (a b : AlbumsLocals) => TitlesUnique a.db → TitlesUnique b.db)
    (fun _ h => h) (fun _ _ _ h1 h2 h => h2 (h1 h)) _
    (insertAlbumsBody_guarded (fun (a b : Database) => TitlesUnique a → TitlesUnique b)
      (fun _ _ _ h1 h2 h => h2 (h1 h)) titlesUnique_nextOutcome
      (fun d t a c n d1 hsel hins => titlesUnique_insertAlbum d t a c n d1 hsel hins))
    { db := s.mTracksDatabase, albumId := 0 } allAlbums h
  unfold insertAlbumsList
  cases hrun : runLoop insertAlbumsBody { db := s.mTracksDatabase, albumId := 0 } allAlbums with
  | next st =>
    rw [hrun] at hk
    exact titlesUnique_updateIndexCache _ hk
  | stop st =>
    rw [hrun] at hk
    exact hk

theorem updateTracksCount_titles (db : Database) (a n : Int) :
    (updateTracksCount db a n).albums.map (fun r => r.title)
      = db.albums.map (fun r => r.title) ∧
    ((updateTracksCount db a n).albums = [] ↔ db.albums = []) := by
  unfold updateTracksCount
  split
  · split
    · exact ⟨rfl, Iff.rfl⟩
    · split
      · refine ⟨?_, ?_⟩
        · simp only [updateAlbumTracksCount, List.map_map]
          apply List.map_congr_left
          intro r _
          simp only [Function.comp]
          split <;> rfl
        · simp [updateAlbumTracksCount]
      · exact ⟨rfl, Iff.rfl⟩
  · exact ⟨rfl, Iff.rfl⟩

theorem titlesUnique_updateTracksCount (db : Database) (a n : Int) (h : TitlesUnique db) :
    TitlesUnique (updateTracksCount db a n) := by
  have ht := updateTracksCount_titles db a n
  have hf := updateTracksCount_frame db a n
  unfold TitlesUnique
  rw [ht.1, hf.1]
  exact ⟨h.1, fun hne => h.2 (fun hc => hne (ht.2.mpr hc))⟩

theorem titlesUnique_fetchTracks (db : Database) (a : Int) (h : TitlesUnique db) :
    TitlesUnique (fetchTracks db a).2 := by
  unfold fetchTracks
  split
  · exact titlesUnique_updateTracksCount _ _ _ h
  · exact h

theorem titlesUnique_albumFromId (s : DatabaseInterface) (albumId : Int)
    (h : TitlesUnique s.mTracksDatabase) :
    TitlesUnique (albumFromId s albumId).2.mTracksDatabase := by
  unfold albumFromId
  split
  · split
    · exact h
    · split
      · exact titlesUnique_fetchTracks _ _ h
      · exact h
  · exact h

theorem titlesUnique_albumFromIndex (s : DatabaseInterface) (albumIndex : Int)
    (h : TitlesUnique s.mTracksDatabase) :
    TitlesUnique (albumFromIndex s albumIndex).2.mTracksDatabase := by
  unfold albumFromIndex
  split
  · exact h
  · exact titlesUnique_albumFromId _ _ h

theorem titlesUnique_albumPositionByIndex (s : DatabaseInterface) (index : Int)
    (h : TitlesUnique s.mTracksDatabase) :
    TitlesUnique (albumPositionByIndex s index).2.mTracksDatabase := by
  unfold albumPositionByIndex
  split <;> exact h

theorem titlesUnique_of_reachable (init s : DatabaseInterface)
    (hinit : TitlesUnique init.mTracksDatabase) (h : ReachableFrom init s) :
    TitlesUnique s.mTracksDatabase := by
  induction h with
  | start => exact hinit
  | albumFromIndex s p _ ih => exact titlesUnique_albumFromIndex s p ih
  | albumFromId s a _ ih => exact titlesUnique_albumFromId s a ih
  | albumPositionByIndex s i _ ih => exact titlesUnique_albumPositionByIndex s i ih
  | insertAlbumsList s l _ ih => exact titlesUnique_insertAlbumsList s l ih
  | insertTracksList s t c _ ih => exact titlesUnique_insertTracksList s t c ih
  | initDatabase s _ ih => exact titlesUnique_initDatabase _ ih
  | fetchTracks s a _ ih => exact titlesUnique_fetchTracks _ a ih
  | updateTracksCount s a n _ ih => exact titlesUnique_updateTracksCount _ a n ih
  | updateIndexCache s _ ih => exact titlesUnique_updateIndexCache s ih

theorem titlesUnique_construct (store : Database) (h : store.albums = []) :
    TitlesUnique (DatabaseInterface.construct store).mTracksDatabase := by
  have hs := initDatabase_schemaStep store
  unfold DatabaseInterface.construct TitlesUnique
  simp only
  rw [hs.1, h]
  exact ⟨by simp, fun hc => absurd rfl hc⟩

theorem filter_eq_singleton_of_nodup {α β : Type} [DecidableEq β] (f : α → β) (l : List α)
    (hn : (l.map f).Nodup) (x : α) (hx : x ∈ l) :
    l.filter (fun y => decide (f y = f x)) = [x] := by
  induction l with
  | nil => simp at hx
  | cons y rest ih =>
    simp only [List.map_cons, List.nodup_cons] at hn
    rcases List.mem_cons.mp hx with rfl | hx
    · have hrest : rest.filter (fun y => decide (f y = f x)) = [] := by
        simp only [List.filter_eq_nil_iff, decide_eq_true_eq]
        intro z hz hzx
        exact hn.1 (by rw [← hzx]; exact List.mem_map_of_mem f hz)
      simp [List.filter_cons, hrest]
    · have hne : f y ≠ f x := by
        intro hc
        exact hn.1 (by rw [hc]; exact List.mem_map_of_mem f hx)
      simp [List.filter_cons, hne, ih hn.2 hx]

/-- On a store with distinct titles, the lookup by a stored title yields that one row. -/
theorem selectAlbumByTitle_of_titlesUnique (db : Database) (h : TitlesUnique db) (r : AlbumRow)
    (hr : r ∈ db.albums) : selectAlbumByTitle db (some r.title) = [r.id] := by
  have hA : db.hasAlbums = true := h.2 (List.ne_nil_of_mem hr)
  unfold selectAlbumByTitle
  rw [if_pos hA]
  simp only
  rw [filter_eq_singleton_of_nodup (fun (y : AlbumRow) => y.title) db.albums h.1 r hr]
  rfl

theorem insertAlbumsBody_found (st : AlbumsLocals) (album : MusicAlbum) (found : Int)
    (rest : List Int) (h : selectAlbumByTitle st.db album.title = found :: rest) :
    (insertAlbumsBody st album).state.db.albums = st.db.albums ∧
    (insertAlbumsBody st album).state.db.tracks = st.db.tracks := by
  have hr := nextOutcome_rows st.db
  unfold insertAlbumsBody Database.transaction
  split
  · simp only
    rw [selectAlbumByTitle_nextOutcome, h]
    simp only
    rw [commitAnd_state]
    have hr2 := nextOutcome_rows st.db.nextOutcome.2
    exact ⟨hr2.1.trans hr.1, hr2.2.1.trans hr.2.1⟩
  · exact ⟨hr.1, hr.2.1⟩

theorem QMap.lookup_insert_self {β : Type} (m : List (Int × β)) (k : Int) (v : β) :
    QHash.find (QMap.insert m k v) k = some v := by
  induction m with
  | nil => simp [QMap.insert, QHash.find]
  | cons e rest ih =>
    obtain ⟨k1, v1⟩ := e
    simp only [QMap.insert]
    split
    · simp [QHash.find]
    · split
      · simp [QHash.find]
      · rename_i h1 h2
        have hne : ¬ k1 = k := fun hc => h2 hc.symm
        simp only [QHash.find, if_neg hne]
        exact ih

theorem QMap.lookup_insert_ne {β : Type} (m : List (Int × β)) (k j : Int) (v : β) (hne : j ≠ k) :
    QHash.find (QMap.insert m k v) j = QHash.find m j := by
  induction m with
  | nil =>
    have : ¬ k = j := fun hc => hne hc.symm
    simp [QMap.insert, QHash.find, this]
  | cons e rest ih =>
    obtain ⟨k1, v1⟩ := e
    have hkj : ¬ k = j := fun hc => hne hc.symm
    simp only [QMap.insert]
    split
    · simp only [QHash.find, if_neg hkj]
    · split
      · rename_i h1 h2
        subst h2
        simp only [QHash.find, if_neg hkj]
      · simp only [QHash.find]
        split
        · rfl
        · exact ih

theorem nextRowId_append_self (ids : List Int) :
    nextRowId (ids ++ [nextRowId ids]) = nextRowId ids + 1 := by
  cases ids with
  | nil => simp [nextRowId]
  | cons x xs =>
    have h := (foldl_max_ge xs x).1
    simp only [nextRowId, List.cons_append, List.foldl_append, List.foldl_cons, List.foldl_nil]
    rw [max_eq_right (by omega)]

theorem localSelectTrack_nil (db : LocalStore) (t al a : String) (hT : db.hasTracks = true)
    (h : db.selectTrack (some t) (some al) (some a) = []) :
    ∀ r ∈ db.tracks, ¬ (r.title = t ∧ r.album = al ∧ r.artist = a) := by
  unfold LocalStore.selectTrack at h
  rw [if_pos hT] at h
  simp only [List.map_eq_nil_iff, List.filter_eq_nil_iff, Bool.and_eq_true, decide_eq_true_eq,
    and_assoc] at h
  exact h

/-- The insert of a track whose strings are non-null, whose triple is not stored and whose
file is not stored succeeds and appends a row with the next id, which the lookup then
returns. -/
theorem localInsertTrack_ok (db : LocalStore) (t al a f : String) (hT : db.hasTracks = true)
    (hsel : db.selectTrack (some t) (some al) (some a) = [])
    (hfile : ∀ r ∈ db.tracks, r.fileName ≠ f) :
    db.insertTrack (some t) (some al) (some a) f
      = some { db with tracks := db.tracks ++
          [⟨nextRowId (db.tracks.map (fun r => r.id)), t, al, a, f⟩] } ∧
    LocalStore.selectTrack { db with tracks := db.tracks ++
          [⟨nextRowId (db.tracks.map (fun r => r.id)), t, al, a, f⟩] }
        (some t) (some al) (some a)
      = [nextRowId (db.tracks.map (fun r => r.id))] := by
  have hno := localSelectTrack_nil db t al a hT hsel
  refine ⟨?_, ?_⟩
  · unfold LocalStore.insertTrack
    rw [if_pos hT]
    simp only
    have h1 : db.tracks.any (fun r => decide (r.fileName = f)) = false := by
      simp only [List.any_eq_false, decide_eq_true_eq]
      exact hfile
    have h2 : db.tracks.any (fun r => decide (r.title = t) && decide (r.album = al) &&
        decide (r.artist = a)) = false := by
      simp only [List.any_eq_false, Bool.and_eq_true, decide_eq_true_eq, and_assoc]
      exact hno
    rw [h1, h2]
    simp
  · unfold LocalStore.selectTrack
    simp only [hT, if_true, List.filter_append, List.map_append]
    have h3 : db.tracks.filter (fun r => decide (r.title = t) && decide (r.album = al) &&
        decide (r.artist = a)) = [] := by
      simp only [List.filter_eq_nil_iff, Bool.and_eq_true, decide_eq_true_eq, and_assoc]
      exact hno
    rw [h3]
    simp

theorem localSelectAlbum_nil (db : LocalStore) (t a : String) (hA : db.hasAlbums = true)
    (h : ∀ r ∈ db.albums, ¬ (r.title = t ∧ r.artist = a)) :
    db.selectAlbum (some t) (some a) = [] := by
  unfold LocalStore.selectAlbum
  rw [if_pos hA]
  simp only [List.map_eq_nil_iff, List.filter_eq_nil_iff, Bool.and_eq_true, decide_eq_true_eq]
  exact h

theorem localInsertAlbum_ok (db : LocalStore) (t a c : String) (n : Int)
    (hA : db.hasAlbums = true) (h : ∀ r ∈ db.albums, ¬ (r.title = t ∧ r.artist = a)) :
    db.insertAlbum (some t) (some a) c n
      = some { db with albums := db.albums ++
          [⟨nextRowId (db.albums.map (fun r => r.id)), t, a, c, n⟩] } ∧
    LocalStore.selectAlbum { db with albums := db.albums ++
          [⟨nextRowId (db.albums.map (fun r => r.id)), t, a, c, n⟩] } (some t) (some a)
      = [nextRowId (db.albums.map (fun r => r.id))] := by
  refine ⟨?_, ?_⟩
  · unfold LocalStore.insertAlbum
    rw [if_pos hA]
    simp only
    have h1 : db.albums.any (fun r => decide (r.title = t) && decide (r.artist = a)) = false := by
      simp only [List.any_eq_false, Bool.and_eq_true, decide_eq_true_eq]
      exact h
    rw [h1]
    simp
  · unfold LocalStore.selectAlbum
    simp only [hA, if_true, List.filter_append, List.map_append]
    have h3 : db.albums.filter (fun r => decide (r.title = t) && decide (r.artist = a)) = [] := by
      simp only [List.filter_eq_nil_iff, Bool.and_eq_true, decide_eq_true_eq]
      exact h
    rw [h3]
    simp

theorem localAlbum_null (db : LocalStore) (t a : QString) (c : String) (n : Int)
    (h : t = none ∨ a = none) :
    db.selectAlbum t a = [] ∧ db.insertAlbum t a c n = none := by
  unfold LocalStore.selectAlbum LocalStore.insertAlbum
  rcases h with rfl | rfl
  · constructor <;> split <;> rfl
  · constructor <;> split <;> cases t <;> rfl

theorem getElem?_snoc {α : Type} (prev : List α) (x a : α) (p : Nat) :
    (prev ++ [x])[p]? = some a ↔ prev[p]? = some a ∨ (p = prev.length ∧ a = x) := by
  by_cases hp : p < prev.length
  · rw [List.getElem?_append_left hp]
    constructor
    · exact Or.inl
    · rintro (h | ⟨h, _⟩)
      · exact h
      · omega
  · have hge : prev.length ≤ p := Nat.le_of_not_lt hp
    rw [List.getElem?_append_right hge, List.getElem?_eq_none hge]
    by_cases he : p = prev.length
    · subst he
      simp [eq_comm]
    · have : p - prev.length ≠ 0 := by omega
      obtain ⟨k, hk⟩ := Nat.exists_eq_succ_of_ne_zero this
      rw [hk]
      simp [he]

theorem recorded_snoc (db : LocalStore) (tia : List (Int × Int)) (prev : List LocalBalooAlbum)
    (x : LocalBalooAlbum) :
    Recorded db tia (prev ++ [x]) ↔
      Recorded db tia prev ∧ ∀ id ∈ x.mTrackIds,
        id ∈ db.tracks.map (fun r => r.id) ∧ QHash.find tia id = some (prev.length : Int) := by
  unfold Recorded
  constructor
  · intro h
    refine ⟨fun p a hp => h p a ((getElem?_snoc prev x a p).mpr (Or.inl hp)), ?_⟩
    exact h prev.length x ((getElem?_snoc prev x x prev.length).mpr (Or.inr ⟨rfl, rfl⟩))
  · rintro ⟨h1, h2⟩ p a hp
    rcases (getElem?_snoc prev x a p).mp hp with h | ⟨rfl, rfl⟩
    · exact h1 p a h
    · exact h2

theorem recorded_mono (db db1 : LocalStore) (tia tia1 : List (Int × Int))
    (albums : List LocalBalooAlbum) (h : Recorded db tia albums)
    (hids : ∀ id ∈ db.tracks.map (fun r => r.id), id ∈ db1.tracks.map (fun r => r.id) ∧
      QHash.find tia1 id = QHash.find tia id) :
    Recorded db1 tia1 albums := by
  intro p a hp id hid
  obtain ⟨h1, h2⟩ := h p a hp id hid
  exact ⟨(hids id h1).1, ((hids id h1).2).trans h2⟩

theorem localArtistName_some (newAlbum : LocalBalooAlbum) (t : LocalBalooTrack) (av : String)
    (h : newAlbum.mArtist = some av) : ∃ ar, LocalAlbumModel.artistName newAlbum t = some ar := by
  unfold LocalAlbumModel.artistName
  cases hx : t.mArtist with
  | none => exact ⟨av, by simp [QString.isEmpty, h]⟩
  | some v =>
    by_cases hv : v = ""
    · exact ⟨av, by simp [QString.isEmpty, hv, h]⟩
    · exact ⟨v, by simp [QString.isEmpty, hv]⟩

/-- One iteration of the track loop of `tracksList` on a track with non-null title and album
name whose file is not stored: the invariants of the loop are kept. -/
theorem trackBody_step (prev : List LocalBalooAlbum) (ts : LocalAlbumModel.TrackLocals)
    (t : LocalBalooTrack) (n : Nat) (av : String)
    (hT : ts.db.hasTracks = true)
    (hpos : ∀ x ∈ ts.db.tracks, 1 ≤ x.id)
    (hb : nextRowId (ts.db.tracks.map (fun r => r.id)) + ((n + 1 : Nat) : Int) ≤ 2147483648)
    (hrec : Recorded ts.db ts.mTracksInAlbums (prev ++ [ts.newAlbum]))
    (hart : ts.newAlbum.mArtist = some av)
    (htt : t.mTitle ≠ none) (hal : t.mAlbum ≠ none)
    (hfile : ∀ x ∈ ts.db.tracks, x.fileName ≠ t.mFile) :
    (LocalAlbumModel.trackBody (prev.length : Int) ts t).db.hasTracks = true ∧
    (LocalAlbumModel.trackBody (prev.length : Int) ts t).db.hasAlbums = ts.db.hasAlbums ∧
    (LocalAlbumModel.trackBody (prev.length : Int) ts t).db.albums = ts.db.albums ∧
    (∀ x ∈ (LocalAlbumModel.trackBody (prev.length : Int) ts t).db.tracks, 1 ≤ x.id) ∧
    nextRowId ((LocalAlbumModel.trackBody (prev.length : Int) ts t).db.tracks.map
      (fun r => r.id)) + (n : Int) ≤ 2147483648 ∧
    Recorded (LocalAlbumModel.trackBody (prev.length : Int) ts t).db
      (LocalAlbumModel.trackBody (prev.length : Int) ts t).mTracksInAlbums
      (prev ++ [(LocalAlbumModel.trackBody (prev.length : Int) ts t).newAlbum]) ∧
    (LocalAlbumModel.trackBody (prev.length : Int) ts t).newAlbum.mArtist = some av ∧
    (∀ x ∈ (LocalAlbumModel.trackBody (prev.length : Int) ts t).db.tracks,
      x ∈ ts.db.tracks ∨ x.fileName = t.mFile) := by
  obtain ⟨tt, htt1⟩ := Option.ne_none_iff_exists'.mp htt
  obtain ⟨al, hal1⟩ := Option.ne_none_iff_exists'.mp hal
  obtain ⟨ar, har⟩ := localArtistName_some ts.newAlbum t av hart
  cases hsel : ts.db.selectTrack (some tt) (some al) (some ar) with
  | cons y ys =>
    have hb1 : LocalAlbumModel.trackBody (prev.length : Int) ts t = ts := by
      unfold LocalAlbumModel.trackBody
      rw [htt1, hal1, har, hsel]
    rw [hb1]
    refine ⟨hT, rfl, rfl, hpos, ?_, hrec, hart, fun x hx => Or.inl hx⟩
    push_cast at hb ⊢
    omega
  | nil =>
    obtain ⟨hins, hsel1⟩ := localInsertTrack_ok ts.db tt al ar t.mFile hT hsel hfile
    have hnew1 : 1 ≤ nextRowId (ts.db.tracks.map (fun r => r.id)) := by
      apply nextRowId_pos
      intro y hy
      obtain ⟨r0, hr0, rfl⟩ := List.mem_map.mp hy
      exact hpos r0 hr0
    have hnew2 : nextRowId (ts.db.tracks.map (fun r => r.id)) < 2147483648 := by
      push_cast at hb
      omega
    have hcur : toQuintptr (toInt (nextRowId (ts.db.tracks.map (fun r => r.id))))
        = nextRowId (ts.db.tracks.map (fun r => r.id)) := by
      rw [toInt_of_range _ (by omega) hnew2]
      unfold toQuintptr
      omega
    have hb1 : LocalAlbumModel.trackBody (prev.length : Int) ts t =
        { db := { ts.db with tracks := ts.db.tracks ++
            [⟨nextRowId (ts.db.tracks.map (fun r => r.id)), tt, al, ar, t.mFile⟩] },
          newAlbum :=
            { ts.newAlbum with
              mTracks := QHash.insert ts.newAlbum.mTracks
                (nextRowId (ts.db.tracks.map (fun r => r.id))) { t with mArtist := some ar },
              mTrackIds := ts.newAlbum.mTrackIds ++
                [nextRowId (ts.db.tracks.map (fun r => r.id))] },
          mTracksInAlbums := QMap.insert ts.mTracksInAlbums
            (nextRowId (ts.db.tracks.map (fun r => r.id))) (prev.length : Int) } := by
      unfold LocalAlbumModel.trackBody LocalAlbumModel.currentElementId
      rw [htt1, hal1, har, hsel]
      simp only [hins, hsel1, hcur]
    rw [hb1]
    obtain ⟨hr1, hr2⟩ := (recorded_snoc _ _ _ _).mp hrec
    have hold : ∀ id ∈ ts.db.tracks.map (fun r => r.id),
        id ∈ (ts.db.tracks ++
          [(⟨nextRowId (ts.db.tracks.map (fun r => r.id)), tt, al, ar, t.mFile⟩ :
            LocalTrackRow)]).map (fun r => r.id) ∧
        QHash.find (QMap.insert ts.mTracksInAlbums
          (nextRowId (ts.db.tracks.map (fun r => r.id))) (prev.length : Int)) id
          = QHash.find ts.mTracksInAlbums id := by
      intro id hid
      refine ⟨by simp only [List.map_append, List.mem_append]; exact Or.inl hid, ?_⟩
      apply QMap.lookup_insert_ne
      exact ne_of_lt (lt_nextRowId _ id hid)
    refine ⟨hT, rfl, rfl, ?_, ?_, ?_, hart, ?_⟩
    · intro x hx
      simp only [List.mem_append, List.mem_singleton] at hx
      rcases hx with hx | rfl
      · exact hpos x hx
      · exact hnew1
    · simp only [List.map_append, List.map_cons, List.map_nil]
      rw [nextRowId_append_self]
      push_cast at hb ⊢
      omega
    · rw [recorded_snoc]
      refine ⟨recorded_mono _ _ _ _ _ hr1 hold, ?_⟩
      intro id hid
      simp only [List.mem_append, List.mem_singleton] at hid
      rcases hid with hid | rfl
      · obtain ⟨h1, h2⟩ := hr2 id hid
        exact ⟨(hold id h1).1, ((hold id h1).2).trans h2⟩
      · refine ⟨by simp, ?_⟩
        exact QMap.lookup_insert_self _ _ _
    · intro x hx
      simp only [List.mem_append, List.mem_singleton] at hx
      rcases hx with hx | rfl
      · exact Or.inl hx
      · exact Or.inr rfl

theorem trackLoop_inv (prev : List LocalBalooAlbum) (g : List LocalBalooTrack)
    (ts : LocalAlbumModel.TrackLocals) (n : Nat) (av : String)
    (hT : ts.db.hasTracks = true)
    (hpos : ∀ x ∈ ts.db.tracks, 1 ≤ x.id)
    (hb : nextRowId (ts.db.tracks.map (fun r => r.id)) + ((n + g.length : Nat) : Int)
      ≤ 2147483648)
    (hrec : Recorded ts.db ts.mTracksInAlbums (prev ++ [ts.newAlbum]))
    (hart : ts.newAlbum.mArtist = some av)
    (hg : ∀ t ∈ g, t.mTitle ≠ none ∧ t.mAlbum ≠ none)
    (hnd : (g.map (fun t => t.mFile)).Nodup)
    (hfile : ∀ x ∈ ts.db.tracks, ∀ t ∈ g, x.fileName ≠ t.mFile) :
    (g.foldl (LocalAlbumModel.trackBody (prev.length : Int)) ts).db.hasTracks = true ∧
    (g.foldl (LocalAlbumModel.trackBody (prev.length : Int)) ts).db.hasAlbums
      = ts.db.hasAlbums ∧
    (g.foldl (LocalAlbumModel.trackBody (prev.length : Int)) ts).db.albums = ts.db.albums ∧
    (∀ x ∈ (g.foldl (LocalAlbumModel.trackBody (prev.length : Int)) ts).db.tracks, 1 ≤ x.id) ∧
    nextRowId ((g.foldl (LocalAlbumModel.trackBody (prev.length : Int)) ts).db.tracks.map
      (fun r => r.id)) + (n : Int) ≤ 2147483648 ∧
    Recorded (g.foldl (LocalAlbumModel.trackBody (prev.length : Int)) ts).db
      (g.foldl (LocalAlbumModel.trackBody (prev.length : Int)) ts).mTracksInAlbums
      (prev ++ [(g.foldl (LocalAlbumModel.trackBody (prev.length : Int)) ts).newAlbum]) ∧
    (∀ x ∈ (g.foldl (LocalAlbumModel.trackBody (prev.length : Int)) ts).db.tracks,
      x ∈ ts.db.tracks ∨ ∃ t ∈ g, x.fileName = t.mFile) := by
  induction g generalizing ts with
  | nil =>
    exact ⟨hT, rfl, rfl, hpos, by simpa using hb, hrec, fun x hx => Or.inl hx⟩
  | cons t rest ih =>
    simp only [List.map_cons, List.nodup_cons] at hnd
    have ht := hg t (List.mem_cons_self _ _)
    have hb0 : nextRowId (ts.db.tracks.map (fun r => r.id))
        + (((n + rest.length) + 1 : Nat) : Int) ≤ 2147483648 := by
      simp only [List.length_cons] at hb
      push_cast at hb ⊢
      omega
    obtain ⟨s1, s2, s3, s4, s5, s6, s7, s8⟩ := trackBody_step prev ts t (n + rest.length) av
      hT hpos hb0 hrec hart ht.1 ht.2 (fun x hx => hfile x hx t (List.mem_cons_self _ _))
    have hfile1 : ∀ x ∈ (LocalAlbumModel.trackBody (prev.length : Int) ts t).db.tracks,
        ∀ u ∈ rest, x.fileName ≠ u.mFile := by
      intro x hx u hu
      rcases s8 x hx with h | h
      · exact hfile x h u (List.mem_cons_of_mem _ hu)
      · rw [h]
        intro hc
        exact hnd.1 (by rw [hc]; exact List.mem_map_of_mem (fun t => t.mFile) hu)
    obtain ⟨i1, i2, i3, i4, i5, i6, i7⟩ := ih (LocalAlbumModel.trackBody (prev.length : Int) ts t)
      s1 s4 s5 s6 s7 (fun u hu => hg u (List.mem_cons_of_mem _ hu)) hnd.2 hfile1
    rw [List.foldl_cons]
    refine ⟨i1, i2.trans s2, i3.trans s3, i4, i5, i6, ?_⟩
    intro x hx
    rcases i7 x hx with h | ⟨u, hu, h⟩
    · rcases s8 x h with h1 | h1
      · exact Or.inl h1
      · exact Or.inr ⟨t, List.mem_cons_self _ _, h1⟩
    · exact Or.inr ⟨u, List.mem_cons_of_mem _ hu, h⟩

theorem localScanTrack_trackIds (covers : List (String × QString)) (na : LocalBalooAlbum)
    (t : LocalBalooTrack) :
    (LocalAlbumModel.scanTrack covers na t).mTrackIds = na.mTrackIds := by
  unfold LocalAlbumModel.scanTrack
  simp only
  split <;> split <;> split <;> rfl

theorem localScanMetadata_trackIds (covers : List (String × QString)) (na : LocalBalooAlbum)
    (g : List LocalBalooTrack) :
    (LocalAlbumModel.scanMetadata covers na g).mTrackIds = na.mTrackIds := by
  induction g generalizing na with
  | nil => rfl
  | cons t rest ih =>
    unfold LocalAlbumModel.scanMetadata
    split
    · exact localScanTrack_trackIds covers na t
    · rw [ih, localScanTrack_trackIds]

theorem albumKey_some (covers : List (String × QString)) (g : List LocalBalooTrack)
    (t a : String) (h : albumKey covers g = some (t, a)) :
    (LocalAlbumModel.scanMetadata covers {} g).mTitle = some t ∧
    (LocalAlbumModel.scanMetadata covers {} g).mArtist = some a := by
  unfold albumKey at h
  split at h
  · rename_i t1 a1 h1 h2
    simp only [Option.some.injEq, Prod.mk.injEq] at h
    rw [h1, h2, h.1, h.2]
    exact ⟨rfl, rfl⟩
  · exact Option.noConfusion h

theorem albumKey_none (covers : List (String × QString)) (g : List LocalBalooTrack)
    (h : albumKey covers g = none) :
    (LocalAlbumModel.scanMetadata covers {} g).mTitle = none ∨
    (LocalAlbumModel.scanMetadata covers {} g).mArtist = none := by
  unfold albumKey at h
  cases h1 : (LocalAlbumModel.scanMetadata covers {} g).mTitle with
  | none => exact Or.inl rfl
  | some t =>
    cases h2 : (LocalAlbumModel.scanMetadata covers {} g).mArtist with
    | none => exact Or.inr rfl
    | some a =>
      rw [h1, h2] at h
      exact Option.noConfusion h

theorem treeInv_weaken (nG nT nG1 nT1 : Nat) (st : LocalAlbumModel.GroupLocals)
    (h : TreeInv nG nT st) (h1 : nG1 ≤ nG) (h2 : nT1 ≤ nT) : TreeInv nG1 nT1 st := by
  obtain ⟨a1, a2, a3, a4, a5, a6, a7⟩ := h
  refine ⟨a1, a2, a3, a4, ?_, ?_, a7⟩
  · have : (nG1 : Int) ≤ nG := by exact_mod_cast h1
    omega
  · have : (nT1 : Int) ≤ nT := by exact_mod_cast h2
    omega

/-- One iteration of the group loop of `tracksList` keeps the invariant of the loop. -/
theorem groupBody_step (covers : List (String × QString)) (st : LocalAlbumModel.GroupLocals)
    (g : List LocalBalooTrack) (rest : List (List LocalBalooTrack)) (nG nT : Nat)
    (hinv : TreeInv (nG + 1) (nT + g.length) st)
    (hfresh : FreshFor covers st.db (g :: rest))
    (hg : ∀ t ∈ g, t.mTitle ≠ none ∧ t.mAlbum ≠ none)
    (hnd : (g.map (fun t => t.mFile)).Nodup)
    (hdis : ∀ t ∈ g, ∀ h ∈ rest, ∀ u ∈ h, t.mFile ≠ u.mFile)
    (hkey : albumKey covers g = none ∨ ∀ h ∈ rest, albumKey covers g ≠ albumKey covers h) :
    TreeInv nG nT (LocalAlbumModel.groupBody covers st g) ∧
    FreshFor covers (LocalAlbumModel.groupBody covers st g).db rest := by
  have hfresh_rest : FreshFor covers st.db rest :=
    ⟨fun x hx h hh t ht => hfresh.1 x hx h (List.mem_cons_of_mem _ hh) t ht,
     fun r hr h hh => hfresh.2 r hr h (List.mem_cons_of_mem _ hh)⟩
  cases hk : albumKey covers g with
  | none =>
    obtain ⟨h1, h2⟩ := localAlbum_null st.db _ _
      (LocalAlbumModel.scanMetadata covers {} g).mCoverFile 0 (albumKey_none covers g hk)
    have hb : LocalAlbumModel.groupBody covers st g = st := by
      unfold LocalAlbumModel.groupBody
      rw [h1]
      simp only
      rw [h2]
    rw [hb]
    exact ⟨treeInv_weaken _ _ _ _ st hinv (by omega) (by omega), hfresh_rest⟩
  | some key =>
    obtain ⟨t, a⟩ := key
    obtain ⟨ht, ha⟩ := albumKey_some covers g t a hk
    obtain ⟨a1, a2, a3, a4, a5, a6, a7⟩ := hinv
    have hno : ∀ r ∈ st.db.albums, ¬ (r.title = t ∧ r.artist = a) := by
      intro r hr hc
      apply hfresh.2 r hr g (List.mem_cons_self _ _)
      rw [hk, hc.1, hc.2]
    have hsel := localSelectAlbum_nil st.db t a a1 hno
    obtain ⟨hins, hsel1⟩ := localInsertAlbum_ok st.db t a
      (LocalAlbumModel.scanMetadata covers {} g).mCoverFile 0 a1 hno
    have hlen : (st.mAlbumsData.length : Int) + 1 < 2147483648 := by
      push_cast at a5
      omega
    have hid : toQuintptr (toInt (nextRowId (st.db.albums.map (fun r => r.id))) - 1)
        = (st.mAlbumsData.length : Int) := by
      rw [a3, toInt_of_range _ (by omega) hlen]
      unfold toQuintptr
      omega
    have hb : LocalAlbumModel.groupBody covers st g =
        LocalAlbumModel.pushAlbum st (LocalAlbumModel.scanMetadata covers {} g)
          (st.mAlbumsData.length : Int)
          { st.db with albums := st.db.albums ++
            [⟨nextRowId (st.db.albums.map (fun r => r.id)), t, a,
              (LocalAlbumModel.scanMetadata covers {} g).mCoverFile, 0⟩] } g := by
      unfold LocalAlbumModel.groupBody
      rw [ht, ha, hsel]
      simp only
      rw [hins]
      simp only
      rw [if_pos (show _ from a1), hsel1]
      simp only [hid]
    have hrec0 : Recorded
        ({ st.db with albums := st.db.albums ++
            [⟨nextRowId (st.db.albums.map (fun r => r.id)), t, a,
              (LocalAlbumModel.scanMetadata covers {} g).mCoverFile, 0⟩] } : LocalStore)
        st.mTracksInAlbums (st.mAlbumsData ++ [LocalAlbumModel.scanMetadata covers {} g]) := by
      rw [recorded_snoc]
      refine ⟨a7, ?_⟩
      intro id hid1
      rw [localScanMetadata_trackIds] at hid1
      simp at hid1
    have hb6 : nextRowId (st.db.tracks.map (fun r => r.id)) + ((nT + g.length : Nat) : Int)
        ≤ 2147483648 := a6
    obtain ⟨l1, l2, l3, l4, l5, l6, l7⟩ := trackLoop_inv st.mAlbumsData g
      ⟨{ st.db with albums := st.db.albums ++
          [⟨nextRowId (st.db.albums.map (fun r => r.id)), t, a,
            (LocalAlbumModel.scanMetadata covers {} g).mCoverFile, 0⟩] },
        LocalAlbumModel.scanMetadata covers {} g, st.mTracksInAlbums⟩ nT a a2 a4 hb6 hrec0 ha hg hnd
      (fun x hx u hu => hfresh.1 x hx g (List.mem_cons_self _ _) u hu)
    rw [hb]
    unfold LocalAlbumModel.pushAlbum
    refine ⟨⟨?_, l1, ?_, l4, ?_, l5, ?_⟩, ?_, ?_⟩
    · rw [l2]
      exact a1
    · simp only
      rw [l3]
      simp only [List.map_append, List.map_cons, List.map_nil, List.length_append,
        List.length_singleton]
      rw [nextRowId_append_self, a3]
      push_cast
      ring
    · simp only [List.length_append, List.length_singleton]
      push_cast at a5 ⊢
      omega
    · simp only
      rw [recorded_snoc] at l6 ⊢
      exact l6
    · intro x hx h hh u hu
      rcases l7 x hx with h1 | ⟨v, hv, h1⟩
      · exact hfresh.1 x h1 h (List.mem_cons_of_mem _ hh) u hu
      · rw [h1]
        exact hdis v hv h hh u hu
    · intro r hr h hh
      simp only at hr
      rw [l3] at hr
      simp only [List.mem_append, List.mem_singleton] at hr
      rcases hr with hr | rfl
      · exact hfresh.2 r hr h (List.mem_cons_of_mem _ hh)
      · simp only
        rcases hkey with hkey | hkey
        · rw [hk] at hkey
          exact Option.noConfusion hkey
        · rw [← hk]
          exact fun hc => hkey h hh hc.symm

theorem groupLoop_inv (covers : List (String × QString)) (groups : List (List LocalBalooTrack))
    (st : LocalAlbumModel.GroupLocals) (nG nT : Nat)
    (hinv : TreeInv (nG + groups.length) (nT + (groups.map (fun g => g.length)).sum) st)
    (hfresh : FreshFor covers st.db groups) (hl : Listable covers groups) :
    TreeInv nG nT (groups.foldl (LocalAlbumModel.groupBody covers) st) := by
  induction groups generalizing st with
  | nil => simpa using hinv
  | cons g rest ih =>
    obtain ⟨l1, l2, l3⟩ := hl
    simp only [List.flatten_cons, List.map_append, List.nodup_append] at l2
    obtain ⟨n1, n2, n3⟩ := l2
    rw [List.pairwise_cons] at l3
    have hkey : albumKey covers g = none ∨ ∀ h ∈ rest, albumKey covers g ≠ albumKey covers h := by
      cases hk : albumKey covers g with
      | none => exact Or.inl rfl
      | some key =>
        right
        intro h hh
        rcases l3.1 h hh with h1 | h1
        · rw [hk] at h1
          exact Option.noConfusion h1
        · rw [hk] at h1
          exact h1
    have hdis : ∀ t ∈ g, ∀ h ∈ rest, ∀ u ∈ h, t.mFile ≠ u.mFile := by
      intro t ht h hh u hu hc
      apply n3 (List.mem_map_of_mem (fun t => t.mFile) ht)
      rw [hc]
      exact List.mem_map_of_mem (fun t => t.mFile) (List.mem_flatten.mpr ⟨h, hh, hu⟩)
    have hinv1 : TreeInv ((nG + rest.length) + 1)
        ((nT + (rest.map (fun g => g.length)).sum) + g.length) st := by
      refine treeInv_weaken _ _ _ _ st hinv ?_ ?_
      · simp only [List.length_cons]
        omega
      · simp only [List.map_cons, List.sum_cons]
        omega
    obtain ⟨s1, s2⟩ := groupBody_step covers st g rest _ _ hinv1 hfresh
      (l1 g (List.mem_cons_self _ _)) n1 hdis hkey
    rw [List.foldl_cons]
    exact ih _ s1 s2 ⟨fun h hh => l1 h (List.mem_cons_of_mem _ hh), n2, l3.2⟩

theorem localInitDatabase_of_nil (db : LocalStore) (h : db.outcomes = []) :
    (LocalAlbumModel.initDatabase db).hasAlbums = true ∧
    (LocalAlbumModel.initDatabase db).hasTracks = true ∧
    (LocalAlbumModel.initDatabase db).albums = db.albums ∧
    (LocalAlbumModel.initDatabase db).tracks = db.tracks := by
  obtain ⟨a, t, albums, tracks, outs⟩ := db
  simp only at h
  subst h
  cases a <;> cases t <;> exact ⟨rfl, rfl, rfl, rfl⟩

theorem getD_mem_of_lt {α : Type} (l : List α) (n : Nat) (d : α) (h : n < l.length) :
    l[n]? = some (l.getD n d) ∧ l.getD n d ∈ l := by
  rw [List.getD_eq_getElem?_getD, List.getElem?_eq_getElem h]
  exact ⟨rfl, List.getElem_mem _⟩

/-- The tree functions on a model whose recorded tracks point to the position of their
album. -/
theorem tree_of_recorded (m : LocalAlbumModel)
    (hpos : ∀ x ∈ m.mTracksDatabase.tracks, 1 ≤ x.id)
    (hlen : (m.mAlbumsData.length : Int) ≤ 2147483647)
    (hrec : Recorded m.mTracksDatabase m.mTracksInAlbums m.mAlbumsData)
    (p r : Int) (hp0 : 0 ≤ p) (hp : p < LocalAlbumModel.rowCount m {})
    (hr0 : 0 ≤ r)
    (hr : r < LocalAlbumModel.rowCount m (LocalAlbumModel.index m p 0 {})) :
    (LocalAlbumModel.index m r 0 (LocalAlbumModel.index m p 0 {})).isValid = true ∧
    LocalAlbumModel.parent m (LocalAlbumModel.index m r 0 (LocalAlbumModel.index m p 0 {}))
      = LocalAlbumModel.index m p 0 {} ∧
    (LocalAlbumModel.parent m
      (LocalAlbumModel.index m r 0 (LocalAlbumModel.index m p 0 {}))).row = p := by
  have hroot : LocalAlbumModel.rowCount m {} = (m.mAlbumsData.length : Int) := by
    simp [LocalAlbumModel.rowCount, QModelIndex.isValid]
  rw [hroot] at hp
  have hidx : LocalAlbumModel.index m p 0 {} = createIndex p 0 0 := by
    simp [LocalAlbumModel.index, QModelIndex.isValid]
  have hvalid : (createIndex p 0 0).isValid = true := by
    simp [createIndex, QModelIndex.isValid, hp0]
  have hrange : ¬ ((createIndex p 0 0).row < 0 ∨
      (createIndex p 0 0).row ≥ (m.mAlbumsData.length : Int)) := by
    simp only [createIndex]
    omega
  rw [hidx] at hr ⊢
  have hcount : LocalAlbumModel.rowCount m (createIndex p 0 0)
      = (((m.mAlbumsData.getD p.toNat {}).mTrackIds.length : Nat) : Int) := by
    unfold LocalAlbumModel.rowCount
    rw [hvalid]
    simp only [Bool.not_true, Bool.false_eq_true, if_false]
    rw [if_neg hrange]
    rfl
  rw [hcount] at hr
  have hpn : p.toNat < m.mAlbumsData.length := by omega
  have hget : m.mAlbumsData[p.toNat]? = some (m.mAlbumsData.getD p.toNat {}) :=
    (getD_mem_of_lt _ _ _ hpn).1
  have hrn : r.toNat < (m.mAlbumsData.getD p.toNat {}).mTrackIds.length := by omega
  have hmem : (m.mAlbumsData.getD p.toNat {}).mTrackIds.getD r.toNat 0
      ∈ (m.mAlbumsData.getD p.toNat {}).mTrackIds :=
    (getD_mem_of_lt _ _ _ hrn).2
  obtain ⟨h1, h2⟩ := hrec p.toNat _ hget _ hmem
  have hne : (m.mAlbumsData.getD p.toNat {}).mTrackIds.getD r.toNat 0 ≠ 0 := by
    obtain ⟨x, hx, hxid⟩ := List.mem_map.mp h1
    have := hpos x hx
    rw [hxid] at this
    omega
  have hchild : LocalAlbumModel.index m r 0 (createIndex p 0 0)
      = createIndex r 0 ((m.mAlbumsData.getD p.toNat {}).mTrackIds.getD r.toNat 0) := by
    unfold LocalAlbumModel.index
    rw [hvalid]
    simp only [ne_eq, not_true_eq_false, if_false, Bool.not_true, Bool.false_eq_true]
    rw [if_neg hrange]
    have : ¬ (r ≥ (((m.mAlbumsData.getD (createIndex p 0 0).row.toNat {}).mTrackIds.length
        : Nat) : Int)) := by
      simp only [createIndex]
      omega
    rw [if_neg this]
    rfl
  have hcv : (createIndex r 0
      ((m.mAlbumsData.getD p.toNat {}).mTrackIds.getD r.toNat 0)).isValid = true := by
    simp [createIndex, QModelIndex.isValid, hr0]
  have hpt : ((p.toNat : Nat) : Int) = p := Int.toNat_of_nonneg hp0
  have hparent : LocalAlbumModel.parent m (createIndex r 0
      ((m.mAlbumsData.getD p.toNat {}).mTrackIds.getD r.toNat 0)) = createIndex p 0 0 := by
    unfold LocalAlbumModel.parent
    rw [hcv]
    simp only [Bool.not_true, Bool.false_eq_true, if_false]
    have hid : (createIndex r 0
        ((m.mAlbumsData.getD p.toNat {}).mTrackIds.getD r.toNat 0)).internalId
        = (m.mAlbumsData.getD p.toNat {}).mTrackIds.getD r.toNat 0 := rfl
    rw [hid, if_neg hne, h2]
    simp only
    rw [hpt, toInt_of_range p (by omega) (by omega)]
    simp [LocalAlbumModel.index, QModelIndex.isValid]
  rw [hchild]
  exact ⟨hcv, hparent, by rw [hparent]; rfl⟩
/-! ## The claims -/

/-- C1 as stated fails: on a store that holds every relation and no row, and whose next
`transaction()` fails, `insertTracksList` returns at once (`if (!result) return;`) and
leaves no album row and no track row; the same call again, with the same batch, finds the
store working and leaves one album row and two track rows.  The same happens on a store
that holds no relation yet: the statements of the first run fail, the `updateIndexCache`
that ends it creates the relations through `initDatabase`, and the second run stores the
album and its two tracks. -/
theorem insertTracksList_idempotent_counterexample :
    ((insertTracksList failingOnce [("Foo", fooGroup)] []).mTracksDatabase.albums.length = 0 ∧
     (insertTracksList failingOnce [("Foo", fooGroup)] []).mTracksDatabase.tracks.length = 0 ∧
     (insertTracksList (insertTracksList failingOnce [("Foo", fooGroup)] [])
       [("Foo", fooGroup)] []).mTracksDatabase.albums.length = 1 ∧
     (insertTracksList (insertTracksList failingOnce [("Foo", fooGroup)] [])
       [("Foo", fooGroup)] []).mTracksDatabase.tracks.length = 2) ∧
    ((insertTracksList {} [("Foo", fooGroup)] []).mTracksDatabase.albums.length = 0 ∧
     (insertTracksList {} [("Foo", fooGroup)] []).mTracksDatabase.tracks.length = 0 ∧
     (insertTracksList (insertTracksList {} [("Foo", fooGroup)] [])
       [("Foo", fooGroup)] []).mTracksDatabase.albums.length = 1 ∧
     (insertTracksList (insertTracksList {} [("Foo", fooGroup)] [])
       [("Foo", fooGroup)] []).mTracksDatabase.tracks.length = 2) := by
  decide

/-- C1, amended: on a store holding the `Albums` and `Tracks` relations, when no store call
fails (no scripted failure is pending), running `insertTracksList` with the same batch twice
in a row leaves exactly the album rows and the track rows of running it once, hence the same
number of album rows and of track rows. -/
theorem insertTracksList_idempotent (s : DatabaseInterface)
    (tracks : List (String × List MusicAudioTrack)) (covers : List (String × QString))
    (hA : s.mTracksDatabase.hasAlbums = true) (hT : s.mTracksDatabase.hasTracks = true)
    (ho : s.mTracksDatabase.outcomes = []) :
    (insertTracksList (insertTracksList s tracks covers) tracks covers).mTracksDatabase.albums.length
      = (insertTracksList s tracks covers).mTracksDatabase.albums.length ∧
    (insertTracksList (insertTracksList s tracks covers) tracks covers).mTracksDatabase.tracks.length
      = (insertTracksList s tracks covers).mTracksDatabase.tracks.length ∧
    (insertTracksList (insertTracksList s tracks covers) tracks covers).mTracksDatabase.albums
      = (insertTracksList s tracks covers).mTracksDatabase.albums ∧
    (insertTracksList (insertTracksList s tracks covers) tracks covers).mTracksDatabase.tracks
      = (insertTracksList s tracks covers).mTracksDatabase.tracks := by
  -- the store after the first run
  have h1 : (insertTracksList s tracks covers).mTracksDatabase
      = initDatabase ((tracks.map (fun g => g.2)).foldl (groupStep covers) s.mTracksDatabase) := by
    rw [insertTracksList_of_nil s tracks covers ho, updateIndexCache_db]
  have hgr := foldl_groupStep_grows covers s.mTracksDatabase (tracks.map (fun g => g.2))
  have hsch := initDatabase_schemaStep
    ((tracks.map (fun g => g.2)).foldl (groupStep covers) s.mTracksDatabase)
  have hout := initDatabase_outcomes_nil _
    (foldl_groupStep_outcomes_nil covers s.mTracksDatabase (tracks.map (fun g => g.2)) ho)
  have hgrow : Grows ((tracks.map (fun g => g.2)).foldl (groupStep covers) s.mTracksDatabase)
      (insertTracksList s tracks covers).mTracksDatabase := by
    rw [h1]
    refine ⟨?_, ?_, ?_, ?_⟩
    · rw [hsch.2.2.1 (hgr.1.trans hA), hgr.1, hA]
    · rw [hsch.2.2.2.1 (hgr.2.1.trans hT), hgr.2.1, hT]
    · rw [hsch.1]
    · rw [hsch.2.1]
  -- the second run changes no row
  have h2 : (insertTracksList (insertTracksList s tracks covers) tracks covers).mTracksDatabase
      = initDatabase (insertTracksList s tracks covers).mTracksDatabase := by
    rw [insertTracksList_of_nil (insertTracksList s tracks covers) tracks covers
      (by rw [h1]; exact hout.1), updateIndexCache_db]
    simp only
    rw [foldl_groupStep_stable covers _ _ _ hgrow]
  have hsch2 := initDatabase_schemaStep (insertTracksList s tracks covers).mTracksDatabase
  rw [h2]
  exact ⟨by rw [hsch2.1], by rw [hsch2.2.1], hsch2.1, hsch2.2.1⟩

/-- C1, amended, on the scenario of the specification: `Foo` by `Bar` with `T1` and `T2`,
reconciled twice into an empty catalogue. -/
theorem insertTracksList_idempotent_witness :
    (insertTracksList (insertTracksList { mTracksDatabase := emptyCatalogue }
        [("Foo", fooGroup)] []) [("Foo", fooGroup)] []).mTracksDatabase.albums.length
      = (insertTracksList { mTracksDatabase := emptyCatalogue }
        [("Foo", fooGroup)] []).mTracksDatabase.albums.length ∧
    (insertTracksList (insertTracksList { mTracksDatabase := emptyCatalogue }
        [("Foo", fooGroup)] []) [("Foo", fooGroup)] []).mTracksDatabase.tracks.length
      = (insertTracksList { mTracksDatabase := emptyCatalogue }
        [("Foo", fooGroup)] []).mTracksDatabase.tracks.length :=
  ⟨(insertTracksList_idempotent { mTracksDatabase := emptyCatalogue } [("Foo", fooGroup)] []
      (by rfl) (by rfl) (by rfl)).1,
   (insertTracksList_idempotent { mTracksDatabase := emptyCatalogue } [("Foo", fooGroup)] []
      (by rfl) (by rfl) (by rfl)).2.1⟩

/-- C2 as stated fails, in two states reached through the public operations.  First: the
interface is constructed on an empty catalogue and `insertTracksList` is called once; the
first group is committed, `transaction()` fails for the second group and the function
returns before the rebuild.  Second: the interface is constructed on the shared store when
it already holds an album; the constructor runs `initDatabase` only.  In both states
`albumCount()` is 1 and `albumFromIndex(0)` is the empty, invalid album. -/
theorem position_bijection_counterexample :
    (ReachableFrom (freshWithFailure 3)
        (insertTracksList (freshWithFailure 3) twoAlbumsBatch [])
      ∧ albumCount (insertTracksList (freshWithFailure 3) twoAlbumsBatch []) = 1
      ∧ (albumFromIndex (insertTracksList (freshWithFailure 3) twoAlbumsBatch []) 0).1.valid
          = false) ∧
    (albumCount (DatabaseInterface.construct (fooCatalogue 2)) = 1
      ∧ (albumFromIndex (DatabaseInterface.construct (fooCatalogue 2)) 0).1.valid = false) :=
  ⟨⟨ReachableFrom.insertTracksList _ _ _ ReachableFrom.start, by decide, by decide⟩,
   by decide, by decide⟩

/-- C2, amended: in every state reached from an interface constructed on a store without rows
by calling member functions, when no store call fails (no scripted failure is pending at
construction), for every `p` with `0 ≤ p < albumCount()`, `albumFromIndex(p)` is a valid
album and `albumPositionByIndex(albumFromIndex(p).databaseId())`, called next, equals `p`. -/
theorem position_bijection (store : Database) (s : DatabaseInterface)
    (ha : store.albums = []) (ht : store.tracks = []) (ho : store.outcomes = [])
    (h : ReachableFrom (DatabaseInterface.construct store) s)
    (p : Int) (h0 : 0 ≤ p) (hp : p < albumCount s) :
    (albumFromIndex s p).1.valid = true ∧
    (albumPositionByIndex (albumFromIndex s p).2 (albumFromIndex s p).1.databaseId).1 = p :=
  coherent_position_bijection s
    (coherent_of_reachable _ s (coherent_construct store ha ht ho) h) p h0 hp

/-- C2, amended, in the state reached by reconciling the two-album batch and then reading
album 1: position 1 holds a valid album that maps back to position 1. -/
theorem position_bijection_witness :
    (albumFromIndex (albumFromId
        (insertTracksList (DatabaseInterface.construct {}) twoAlbumsBatch []) 1).2 1).1.valid
      = true ∧
    (albumPositionByIndex
      (albumFromIndex (albumFromId
        (insertTracksList (DatabaseInterface.construct {}) twoAlbumsBatch []) 1).2 1).2
      (albumFromIndex (albumFromId
        (insertTracksList (DatabaseInterface.construct {}) twoAlbumsBatch []) 1).2
        1).1.databaseId).1 = 1 :=
  position_bijection {} _ (by rfl) (by rfl) (by rfl)
    (ReachableFrom.albumFromId _ 1
      (ReachableFrom.insertTracksList _ twoAlbumsBatch [] ReachableFrom.start))
    1 (by decide) (by decide)

/-- C3: `albumFromIndex(p)` returns the empty, invalid album (and leaves the state alone) when
`p < 0` or `p` is at least the length of the position index; otherwise it is exactly
`albumFromId(id)` for the entry `id` of the position index at `p`. -/
theorem albumFromIndex_bounds_and_delegation (s : DatabaseInterface) (p : Int) :
    ((p < 0 ∨ p ≥ s.mIndexByPosition.length) →
      albumFromIndex s p = ({}, s) ∧ (albumFromIndex s p).1.valid = false) ∧
    (∀ id : Int, 0 ≤ p → s.mIndexByPosition[p.toNat]? = some id →
      albumFromIndex s p = albumFromId s id) := by
  constructor
  · intro h
    have : albumFromIndex s p = ({}, s) := by
      unfold albumFromIndex
      rw [if_pos h]
    rw [this]
    exact ⟨rfl, rfl⟩
  · intro id h0 hid
    have hlt : p.toNat < s.mIndexByPosition.length := by
      by_contra hcon
      rw [List.getElem?_eq_none (Nat.le_of_not_lt hcon)] at hid
      exact Option.noConfusion hid
    have hneg : ¬ (p < 0 ∨ p ≥ s.mIndexByPosition.length) := by omega
    unfold albumFromIndex
    rw [if_neg hneg]
    simp [List.getD, hid]

/-- C3, at a concrete state: position 0 of the index `[7]` delegates to `albumFromId 7`,
position 1 is out of range. -/
theorem albumFromIndex_bounds_and_delegation_witness :
    albumFromIndex { mIndexByPosition := [7] } 0 = albumFromId { mIndexByPosition := [7] } 7 ∧
    albumFromIndex { mIndexByPosition := [7] } 1 = ({}, { mIndexByPosition := [7] }) :=
  ⟨(albumFromIndex_bounds_and_delegation { mIndexByPosition := [7] } 0).2 7 (by decide) (by rfl),
   ((albumFromIndex_bounds_and_delegation { mIndexByPosition := [7] } 1).1 (by decide)).1⟩

/-- C4: right after `updateIndexCache`, on a store whose `Albums` relation exists, whose
album ids are pairwise distinct (primary key) and which holds fewer than 2^31 albums, the
length of the position index equals `albumCount()`, and every album id of the store occurs
exactly once in the position index, at a position the reverse map sends it to. -/
theorem updateIndexCache_complete (s : DatabaseInterface)
    (hA : s.mTracksDatabase.hasAlbums = true)
    (hN : (s.mTracksDatabase.albums.map (fun r => r.id)).Nodup)
    (hL : (s.mTracksDatabase.albums.length : Int) < 2147483648) :
    ((updateIndexCache s).mIndexByPosition.length : Int) = albumCount (updateIndexCache s) ∧
    ∀ r ∈ (updateIndexCache s).mTracksDatabase.albums,
      (updateIndexCache s).mIndexByPosition.count r.id = 1 ∧
      ∃ p : Nat, (updateIndexCache s).mIndexByPosition[p]? = some r.id ∧
        QHash.find (updateIndexCache s).mPositionByIndex r.id = some (p : Int) := by
  obtain ⟨hi, _, hp⟩ := updateIndexCache_index s hA
  have hdb := updateIndexCache_db s
  have hs := initDatabase_schemaStep s.mTracksDatabase
  have hperm := selectAlbumIds_perm s.mTracksDatabase
  have hN1 : (selectAlbumIds s.mTracksDatabase).Nodup := hperm.nodup_iff.mpr hN
  constructor
  · unfold albumCount
    rw [hdb, hs.2.2.1 hA, hs.1, hi, hperm.length_eq]
    simp only [List.length_map, if_true]
    rw [toInt_of_range _ (by omega) hL]
  · intro r hr
    rw [hdb, hs.1] at hr
    rw [hi, hp]
    have hmem : r.id ∈ selectAlbumIds s.mTracksDatabase :=
      hperm.mem_iff.mpr (List.mem_map_of_mem _ hr)
    refine ⟨List.count_eq_one_of_mem hN1 hmem, ?_⟩
    obtain ⟨p, hlt, hget⟩ := List.getElem_of_mem hmem
    refine ⟨p, ?_, ?_⟩
    · rw [List.getElem?_eq_getElem hlt, hget]
    · have := fillIndex_find _ [] [] hN1 p r.id (by rw [List.getElem?_eq_getElem hlt, hget])
      simpa using this

/-- C4, at a store with the albums 1 and 2. -/
theorem updateIndexCache_complete_witness :
    ((updateIndexCache { mTracksDatabase := { hasAlbums := true, albums :=
        [⟨1, "A", "x", "", 0, none⟩, ⟨2, "B", "y", "", 0, none⟩] } }).mIndexByPosition.length : Int)
      = albumCount (updateIndexCache { mTracksDatabase := { hasAlbums := true, albums :=
        [⟨1, "A", "x", "", 0, none⟩, ⟨2, "B", "y", "", 0, none⟩] } }) :=
  (updateIndexCache_complete { mTracksDatabase := { hasAlbums := true, albums :=
        [⟨1, "A", "x", "", 0, none⟩, ⟨2, "B", "y", "", 0, none⟩] } }
    (by rfl) (by decide) (by decide)).1

/-- C5 as stated fails: album 1 stores the count 4294967298 and has two track rows; `toInt()`
narrows the stored value to 2, no update is issued, and the stored count stays wrong. -/
theorem fetchTracks_selfHealing_counterexample :
    (fetchTracks (fooCatalogue 4294967298) 1).2.albums
      = [⟨1, "Foo", "Bar", "", 4294967298, none⟩] ∧
    (selectTracksOfAlbum (fooCatalogue 4294967298) 1).length
      = 2 := by
  decide

/-- C5, amended: on a store with both relations and distinct row ids, for every album row
with id `a` whose stored `TracksCount` is a 32-bit `int` value (right or wrong), after
`fetchTracks(a)` the `Albums` relation is the old one with the count of album `a` replaced by
the number of track rows whose `AlbumID` is `a`; every other album row and every track row
is unchanged. -/
theorem fetchTracks_selfHealing (db : Database) (a : Int) (row : AlbumRow)
    (hA : db.hasAlbums = true) (hT : db.hasTracks = true)
    (hAlbumIds : (db.albums.map (fun r => r.id)).Nodup)
    (hTrackIds : (db.tracks.map (fun r => r.id)).Nodup)
    (hrow : row ∈ db.albums) (hid : row.id = a)
    (hlo : -2147483648 ≤ row.tracksCount) (hhi : row.tracksCount < 2147483648) :
    (fetchTracks db a).2.albums = db.albums.map (fun r =>
      if r.id = a then { r with tracksCount := ((selectTracksOfAlbum db a).length : Int) }
      else r) ∧
    (fetchTracks db a).2.tracks = db.tracks := by
  rw [fetchTracks_db db a hT, fetchTracks_length db a hT hTrackIds]
  -- the row selected by id is `row`
  have huniq : ∀ r ∈ db.albums, r.id = a → r = row := by
    intro r hr hra
    exact List.inj_on_of_nodup_map hAlbumIds hr hrow (by show r.id = row.id; rw [hra, hid])
  have hsel : ∃ rest, selectAlbumById db a = row :: rest := by
    have hmem : row ∈ selectAlbumById db a := by
      simp [selectAlbumById, hrow, hid]
    cases hs : selectAlbumById db a with
    | nil => rw [hs] at hmem; simp at hmem
    | cons x rest =>
      have hx : x ∈ selectAlbumById db a := by rw [hs]; exact List.mem_cons_self _ _
      simp only [selectAlbumById, List.mem_filter, decide_eq_true_eq] at hx
      exact ⟨rest, by rw [huniq x hx.1 hx.2]⟩
  obtain ⟨rest, hsel⟩ := hsel
  unfold updateTracksCount
  simp only [hA, if_true, hsel, toInt_of_range _ hlo hhi]
  split
  · simp [updateAlbumTracksCount]
  · rename_i hne
    simp only [ne_eq, not_not] at hne
    refine ⟨?_, rfl⟩
    conv_lhs => rw [← List.map_id db.albums]
    apply List.map_congr_left
    intro r hr
    by_cases hra : r.id = a
    · rw [if_pos hra, huniq r hr hra, ← hne]
      rfl
    · rw [if_neg hra]
      rfl

/-- C5, amended, at a store whose album 1 stores the wrong count 7 for two track rows. -/
theorem fetchTracks_selfHealing_witness :
    (fetchTracks (fooCatalogue 7) 1).2.albums
      = [⟨1, "Foo", "Bar", "", 2, none⟩] :=
  (fetchTracks_selfHealing (fooCatalogue 7) 1
      ⟨1, "Foo", "Bar", "", 7, none⟩ (by rfl) (by rfl) (by decide) (by decide) (by decide)
      (by rfl) (by decide) (by decide)).1

/-- C6 as stated fails: the list holds `Foo` by `Bar` twice, after `Foo` by `Baz`; the lookup
by title absorbs both into the row of `Foo` by `Baz`, and no row is stored for the pair
`(Foo, Bar)`. -/
theorem insertAlbumsList_uniqueness_counterexample :
    (insertAlbumsList { mTracksDatabase := emptyCatalogue }
        [albumOf "Foo" "Baz" "c0", albumOf "Foo" "Bar" "c1",
         albumOf "Foo" "Bar" "c1"]).mTracksDatabase.albums
      = [⟨1, "Foo", "Baz", "c0", 0, none⟩] := by
  decide

/-- C6, amended: `insertAlbumsList` keeps the `(title, artist)` pair unique across all album
rows, whatever the store calls answer, so a pair occurring twice in the list never yields
two rows.  It stores exactly one row for a pair with non-null title and artist when no store
call fails, no stored album and no earlier entry of the list carries that title; an entry
whose title is already stored is absorbed, whatever its artist. -/
theorem insertAlbumsList_uniqueness (s : DatabaseInterface) (allAlbums : List MusicAlbum) :
    (PairsUnique s.mTracksDatabase →
      PairsUnique (insertAlbumsList s allAlbums).mTracksDatabase) ∧
    (∀ (pre post : List MusicAlbum) (x : MusicAlbum) (t a : String),
      allAlbums = pre ++ x :: post → x.title = some t → x.artist = some a →
      s.mTracksDatabase.hasAlbums = true → s.mTracksDatabase.outcomes = [] →
      (∀ r ∈ s.mTracksDatabase.albums, r.title ≠ t) → (∀ y ∈ pre, y.title ≠ some t) →
      ((insertAlbumsList s allAlbums).mTracksDatabase.albums.filter
        (fun r => decide (r.title = t) && decide (r.artist = a))).length = 1 ∧
      ((insertAlbumsList s allAlbums).mTracksDatabase.albums.filter
        (fun r => decide (r.title = t))).length = 1) := by
  constructor
  · intro h
    unfold PairsUnique
    rw [(insertAlbumsList_rows s allAlbums).1]
    exact insertAlbumsLoop_pairsUnique _ _ h
  · intro pre post x t a hl ht ha hA ho hno hpre
    have hrows : (insertAlbumsList s allAlbums).mTracksDatabase.albums
        = (allAlbums.foldl albumStep s.mTracksDatabase).albums := by
      rw [insertAlbumsList_of_nil s allAlbums ho, updateIndexCache_db]
      exact (initDatabase_schemaStep _).1
    have h0 : titleRows t s.mTracksDatabase = [] := by
      unfold titleRows
      rw [List.filter_eq_nil_iff]
      intro r hr
      simp [hno r hr]
    have h1 : titleRows t (pre.foldl albumStep s.mTracksDatabase) = [] := by
      rw [foldl_albumStep_titleRows_other t _ pre hpre, h0]
    have hA1 : (pre.foldl albumStep s.mTracksDatabase).hasAlbums = true :=
      (foldl_albumStep_hasAlbums _ pre).trans hA
    have h2 := albumStep_titleRows_new t a _ x hA1 h1 ht ha
    have h3 : titleRows t (allAlbums.foldl albumStep s.mTracksDatabase)
        = titleRows t (albumStep (pre.foldl albumStep s.mTracksDatabase) x) := by
      rw [hl, List.foldl_append, List.foldl_cons]
      exact foldl_albumStep_titleRows_present t _ post
        ((albumStep_hasAlbums _ x).trans hA1) (by rw [h2]; simp)
    rw [h2] at h3
    unfold titleRows at h3
    rw [hrows]
    constructor
    · have : (allAlbums.foldl albumStep s.mTracksDatabase).albums.filter
          (fun r => decide (r.title = t) && decide (r.artist = a))
          = ((allAlbums.foldl albumStep s.mTracksDatabase).albums.filter
              (fun r => decide (r.title = t))).filter (fun r => decide (r.artist = a)) := by
        rw [List.filter_filter]
        congr 1
        funext r
        exact Bool.and_comm _ _
      rw [this, h3]
      simp
    · rw [h3]
      rfl

/-- C6, amended, on an empty catalogue and a list holding `Foo` by `Bar` twice. -/
theorem insertAlbumsList_uniqueness_witness :
    ((insertAlbumsList { mTracksDatabase := emptyCatalogue }
        [albumOf "Foo" "Bar" "c1", albumOf "Foo" "Bar" "c2"]).mTracksDatabase.albums.filter
        (fun r => decide (r.title = "Foo") && decide (r.artist = "Bar"))).length = 1 :=
  ((insertAlbumsList_uniqueness { mTracksDatabase := emptyCatalogue }
      [albumOf "Foo" "Bar" "c1", albumOf "Foo" "Bar" "c2"]).2
    [] [albumOf "Foo" "Bar" "c2"] (albumOf "Foo" "Bar" "c1") "Foo" "Bar"
    (by rfl) (by rfl) (by rfl) (by rfl) (by rfl) (by decide) (by decide)).1

/-- C7 as stated fails: the groups `k1` and `k2` both derive `(Foo, Bar)`, with the covers
`file:///c1` and `file:///c2`, but the group `k0`, processed before them, derives the title
`Foo` for another artist.  The lookup by title absorbs `k1` and `k2` into the row of `k0`:
the stored cover of `Foo` is the empty one of `k0`, not the cover of `k1`. -/
theorem insertTracksList_first_seen_counterexample :
    (scanMetadata otherCovers {} [discovered "T1" "Foo" "Bar" "f1",
        discovered "T2" "Other1" "Bar" "f2"]).albumArtURI = "file:///c1" ∧
    (scanMetadata otherCovers {} [discovered "T3" "Foo" "Bar" "f3",
        discovered "T4" "Other2" "Bar" "f4"]).albumArtURI = "file:///c2" ∧
    (insertTracksList { mTracksDatabase := emptyCatalogue }
        (("k0", [discovered "T0" "Foo" "Baz" "f0"]) :: fooBarTwice)
        otherCovers).mTracksDatabase.albums
      = [⟨1, "Foo", "Baz", "", 1, none⟩] := by
  decide

/-- C7, amended: when no store call fails, no album with the title `t` is stored beforehand
and `group` is the first group of the batch deriving the title `t` (with a non-null artist),
then after `insertTracksList` exactly one album row carries the title `t`, and it carries the
artist and the cover derived from `group`; whatever later groups derive for that title,
their cover is not stored. -/
theorem insertTracksList_first_seen_wins (s : DatabaseInterface)
    (pre post : List (String × List MusicAudioTrack)) (label : String)
    (group : List MusicAudioTrack) (covers : List (String × QString)) (t a : String)
    (hA : s.mTracksDatabase.hasAlbums = true) (ho : s.mTracksDatabase.outcomes = [])
    (hno : ∀ r ∈ s.mTracksDatabase.albums, r.title ≠ t)
    (hpre : ∀ p ∈ pre, (scanMetadata covers {} p.2).title ≠ some t)
    (ht : (scanMetadata covers {} group).title = some t)
    (ha : (scanMetadata covers {} group).artist = some a) :
    ∃ id : Int,
      (insertTracksList s (pre ++ (label, group) :: post) covers).mTracksDatabase.albums.filter
          (fun r => decide (r.title = t))
        = [⟨id, t, a, (scanMetadata covers {} group).albumArtURI, group.length, none⟩] := by
  have hrows : (insertTracksList s (pre ++ (label, group) :: post) covers).mTracksDatabase.albums
      = (((pre ++ (label, group) :: post).map (fun g => g.2)).foldl (groupStep covers)
          s.mTracksDatabase).albums := by
    rw [insertTracksList_of_nil s _ covers ho, updateIndexCache_db]
    exact (initDatabase_schemaStep _).1
  have h0 : titleRows t s.mTracksDatabase = [] := by
    unfold titleRows
    rw [List.filter_eq_nil_iff]
    intro r hr
    simp [hno r hr]
  have hpre1 : ∀ g ∈ pre.map (fun g => g.2), (scanMetadata covers {} g).title ≠ some t := by
    intro g hg
    obtain ⟨p, hp, rfl⟩ := List.mem_map.mp hg
    exact hpre p hp
  have h1 : titleRows t ((pre.map (fun g => g.2)).foldl (groupStep covers) s.mTracksDatabase)
      = [] := by
    rw [foldl_groupStep_titleRows_other covers t _ _ hpre1, h0]
  have hA1 : ((pre.map (fun g => g.2)).foldl (groupStep covers) s.mTracksDatabase).hasAlbums
      = true := (foldl_groupStep_hasAlbums covers _ _).trans hA
  have h2 := groupStep_titleRows_new covers t a _ group hA1 h1 ht ha
  have h3 : titleRows t (((pre ++ (label, group) :: post).map (fun g => g.2)).foldl
      (groupStep covers) s.mTracksDatabase)
      = titleRows t (groupStep covers
          ((pre.map (fun g => g.2)).foldl (groupStep covers) s.mTracksDatabase) group) := by
    rw [List.map_append, List.map_cons, List.foldl_append, List.foldl_cons]
    exact foldl_groupStep_titleRows_present covers t _ _
      ((groupStep_hasAlbums covers _ group).trans hA1) (by rw [h2]; simp)
  rw [h2] at h3
  unfold titleRows at h3
  rw [hrows, h3]
  exact ⟨_, rfl⟩

/-- C7, amended, on an empty catalogue and the two groups for `(Foo, Bar)`. -/
theorem insertTracksList_first_seen_wins_witness :
    ∃ id : Int,
      (insertTracksList { mTracksDatabase := emptyCatalogue }
          ([] ++ ("k1", [discovered "T1" "Foo" "Bar" "f1", discovered "T2" "Other1" "Bar" "f2"])
            :: [("k2", [discovered "T3" "Foo" "Bar" "f3", discovered "T4" "Other2" "Bar" "f4"])])
          otherCovers).mTracksDatabase.albums.filter (fun r => decide (r.title = "Foo"))
        = [⟨id, "Foo", "Bar", (scanMetadata otherCovers {} [discovered "T1" "Foo" "Bar" "f1",
            discovered "T2" "Other1" "Bar" "f2"]).albumArtURI,
            [discovered "T1" "Foo" "Bar" "f1", discovered "T2" "Other1" "Bar" "f2"].length,
            none⟩] :=
  insertTracksList_first_seen_wins { mTracksDatabase := emptyCatalogue } []
    [("k2", [discovered "T3" "Foo" "Bar" "f3", discovered "T4" "Other2" "Bar" "f4"])] "k1"
    [discovered "T1" "Foo" "Bar" "f1", discovered "T2" "Other1" "Bar" "f2"] otherCovers
    "Foo" "Bar" (by rfl) (by rfl) (by decide) (by decide) (by decide) (by decide)

/-- C8 as stated fails: one group for `Foo` by `Bar` with a single track whose title is the
null string (its title is trivially distinct from the others).  The album is stored, but the
track binds `NULL` to the `NOT NULL` column `Title` and is skipped: `fetchTracks` has no
entry instead of one. -/
theorem insertTracksList_single_album_counterexample :
    albumCount (insertTracksList (DatabaseInterface.construct {})
      [("Foo", [untitledTrack])] []) = 1 ∧
    (albumFromIndex (insertTracksList (DatabaseInterface.construct {})
      [("Foo", [untitledTrack])] []) 0).1.title = some "Foo" ∧
    (fetchTracks (insertTracksList (DatabaseInterface.construct {})
      [("Foo", [untitledTrack])] []).mTracksDatabase 1).1.length = 0 := by
  decide

/-- C8, amended: starting from an empty store, for every batch made of one group deriving the
title `t` and the artist `a` (both non-null) whose `n` tracks have non-null, pairwise
distinct titles and pairwise distinct resource locations, after `insertTracksList`
`albumCount() = 1`, `albumFromIndex(0)` is valid with title `t`, and `fetchTracks` of its id
has exactly `n` entries. -/
theorem insertTracksList_single_album (label : String) (group : List MusicAudioTrack)
    (covers : List (String × QString)) (t a : String)
    (ht : (scanMetadata covers {} group).title = some t)
    (ha : (scanMetadata covers {} group).artist = some a)
    (hnn : ∀ x ∈ group, x.title ≠ none)
    (hdist : (group.map (fun x => x.title)).Nodup)
    (hfiles : (group.map (fun x => x.resourceURI)).Nodup) :
    albumCount (insertTracksList (DatabaseInterface.construct {}) [(label, group)] covers) = 1 ∧
    (albumFromIndex (insertTracksList (DatabaseInterface.construct {}) [(label, group)] covers)
      0).1.valid = true ∧
    (albumFromIndex (insertTracksList (DatabaseInterface.construct {}) [(label, group)] covers)
      0).1.title = some t ∧
    ((fetchTracks
        (insertTracksList (DatabaseInterface.construct {}) [(label, group)] covers).mTracksDatabase
        (albumFromIndex (insertTracksList (DatabaseInterface.construct {}) [(label, group)]
          covers) 0).1.databaseId).1.length : Int) = group.length := by
  obtain ⟨g1, g2, g3, g4, g5⟩ := groupStep_emptyCatalogue covers group t a ht ha hnn hdist hfiles
  rw [construct_empty]
  -- the state after the call
  have hs : insertTracksList { mTracksDatabase := emptyCatalogue } [(label, group)] covers
      = updateIndexCache { mTracksDatabase := groupStep covers emptyCatalogue group } := by
    rw [insertTracksList_of_nil _ _ _ (by rfl)]
    rfl
  have hids : IdsAscending
      (insertTracksList { mTracksDatabase := emptyCatalogue } [(label, group)]
        covers).mTracksDatabase := by
    have hk := (insertTracksLoop_keeps covers
      { db := emptyCatalogue, maximumAlbumId := 0, albumId := 0 } ([(label, group)].map
        (fun g => g.2))).2.1 (by decide)
    obtain ⟨r1, r2⟩ := insertTracksList_rows { mTracksDatabase := emptyCatalogue }
      [(label, group)] covers
    unfold IdsAscending
    rw [r1, r2]
    exact hk
  have hsch := initDatabase_schemaStep (groupStep covers emptyCatalogue group)
  obtain ⟨hi, hc, _⟩ := updateIndexCache_index
    { mTracksDatabase := groupStep covers emptyCatalogue group } g2
  have hdb := updateIndexCache_db { mTracksDatabase := groupStep covers emptyCatalogue group }
  simp only at hi hdb
  rw [selectAlbumIds_of_single _ _ g1] at hi
  rw [hs] at hids ⊢
  have hAl : (updateIndexCache
      { mTracksDatabase := groupStep covers emptyCatalogue group }).mTracksDatabase.albums
      = [⟨1, t, a, (scanMetadata covers {} group).albumArtURI, group.length, none⟩] := by
    rw [hdb, hsch.1, g1]
  have hA : (updateIndexCache
      { mTracksDatabase := groupStep covers emptyCatalogue group }).mTracksDatabase.hasAlbums
      = true := by
    rw [hdb]; exact hsch.2.2.1 g2
  have hT : (updateIndexCache
      { mTracksDatabase := groupStep covers emptyCatalogue group }).mTracksDatabase.hasTracks
      = true := by
    rw [hdb]; exact hsch.2.2.2.1 g3
  have hTr : (updateIndexCache
      { mTracksDatabase := groupStep covers emptyCatalogue group }).mTracksDatabase.tracks
      = (groupStep covers emptyCatalogue group).tracks := by
    rw [hdb, hsch.2.1]
  have hfrom : albumFromIndex (updateIndexCache
      { mTracksDatabase := groupStep covers emptyCatalogue group }) 0
      = albumFromId (updateIndexCache
      { mTracksDatabase := groupStep covers emptyCatalogue group }) 1 :=
    (albumFromIndex_delegates _ 0 1 (by decide) (by rw [hi]; rfl))
  have halbum : (albumFromId (updateIndexCache
      { mTracksDatabase := groupStep covers emptyCatalogue group }) 1).1.valid = true ∧
      (albumFromId (updateIndexCache
      { mTracksDatabase := groupStep covers emptyCatalogue group }) 1).1.title = some t ∧
      (albumFromId (updateIndexCache
      { mTracksDatabase := groupStep covers emptyCatalogue group }) 1).1.databaseId = 1 := by
    unfold albumFromId
    simp only [hA, if_true, selectAlbumById, hAl, hc, QHash.find]
    simp
  refine ⟨?_, ?_, ?_, ?_⟩
  · unfold albumCount
    rw [hA, hAl]
    simp only [if_true, List.length_singleton]
    decide
  · rw [hfrom]; exact halbum.1
  · rw [hfrom]; exact halbum.2.1
  · rw [hfrom, halbum.2.2, fetchTracks_length _ 1 hT (idsAscending_nodup_tracks _ hids)]
    unfold selectTracksOfAlbum
    rw [hTr, List.filter_eq_self.mpr (fun r hr => by simp [g5 r hr]), g4]

/-- C8, amended, on the scenario of the specification: `Foo` by `Bar` with `T1` and `T2`. -/
theorem insertTracksList_single_album_witness :
    albumCount (insertTracksList (DatabaseInterface.construct {}) [("Foo", fooGroup)] []) = 1 ∧
    (albumFromIndex (insertTracksList (DatabaseInterface.construct {}) [("Foo", fooGroup)] [])
      0).1.title = some "Foo" ∧
    ((fetchTracks
        (insertTracksList (DatabaseInterface.construct {}) [("Foo", fooGroup)] []).mTracksDatabase
        (albumFromIndex (insertTracksList (DatabaseInterface.construct {}) [("Foo", fooGroup)]
          []) 0).1.databaseId).1.length : Int) = fooGroup.length :=
  ⟨(insertTracksList_single_album "Foo" fooGroup [] "Foo" "Bar" (by decide) (by decide)
      (by decide) (by decide) (by decide)).1,
   (insertTracksList_single_album "Foo" fooGroup [] "Foo" "Bar" (by decide) (by decide)
      (by decide) (by decide) (by decide)).2.2.1,
   (insertTracksList_single_album "Foo" fooGroup [] "Foo" "Bar" (by decide) (by decide)
      (by decide) (by decide) (by decide)).2.2.2⟩

/-- C10 as stated fails: on a fresh interface over an empty catalogue, the first group of
the batch is committed (album 1 is stored), `transaction()` fails for the second group and
`insertTracksList` returns at once: the position index is still empty. -/
theorem insertTracksList_rebuild_counterexample :
    (insertTracksList (freshWithFailure 3) twoAlbumsBatch []).mTracksDatabase.albums.map
        (fun r => r.id) = [1] ∧
    (insertTracksList (freshWithFailure 3) twoAlbumsBatch []).mIndexByPosition = [] := by
  decide

/-- C10, amended: on a store whose `Albums` relation exists and whose ids ascend, when the
outer loop of `insertTracksList` runs to its end (no `transaction()` and no `commit()`
fails, as is the case when no scripted failure is left), the position index has been rebuilt
when the function returns: it lists exactly the album ids of the store, with the matching
reverse map, and the entity cache is empty.  When a `transaction()` or a `commit()` fails,
the function returns at once and index, reverse map and cache are left as they were. -/
theorem insertTracksList_rebuild (s : DatabaseInterface)
    (tracks : List (String × List MusicAudioTrack)) (covers : List (String × QString))
    (hA : s.mTracksDatabase.hasAlbums = true) (hI : IdsAscending s.mTracksDatabase) :
    (∀ st, runLoop (insertTracksBody covers)
        { db := s.mTracksDatabase, maximumAlbumId := 0, albumId := 0 }
        (tracks.map (fun g => g.2)) = Flow.next st →
      Rebuilt (insertTracksList s tracks covers)) ∧
    (∀ st, runLoop (insertTracksBody covers)
        { db := s.mTracksDatabase, maximumAlbumId := 0, albumId := 0 }
        (tracks.map (fun g => g.2)) = Flow.stop st →
      (insertTracksList s tracks covers).mIndexByPosition = s.mIndexByPosition ∧
      (insertTracksList s tracks covers).mPositionByIndex = s.mPositionByIndex ∧
      (insertTracksList s tracks covers).mAlbumCache = s.mAlbumCache) ∧
    (s.mTracksDatabase.outcomes = [] → Rebuilt (insertTracksList s tracks covers)) := by
  have hk := insertTracksLoop_keeps covers
    { db := s.mTracksDatabase, maximumAlbumId := 0, albumId := 0 } (tracks.map (fun g => g.2))
  have hnext : ∀ st, runLoop (insertTracksBody covers)
        { db := s.mTracksDatabase, maximumAlbumId := 0, albumId := 0 }
        (tracks.map (fun g => g.2)) = Flow.next st →
      Rebuilt (insertTracksList s tracks covers) := by
    intro st hst
    rw [hst] at hk
    unfold insertTracksList
    rw [hst]
    exact updateIndexCache_rebuilt _ (hk.1.1.trans hA) (idsAscending_nodup_albums _ (hk.2.1 hI))
  refine ⟨hnext, ?_, ?_⟩
  · intro st hst
    unfold insertTracksList
    rw [hst]
    exact ⟨rfl, rfl, rfl⟩
  · intro ho
    obtain ⟨st, hst⟩ := insertTracksLoop_next_of_nil covers
      { db := s.mTracksDatabase, maximumAlbumId := 0, albumId := 0 }
      (tracks.map (fun g => g.2)) ho
    exact hnext st hst

/-- C10, amended, on a fresh interface over an empty catalogue with no scripted failure. -/
theorem insertTracksList_rebuild_witness :
    Rebuilt (insertTracksList { mTracksDatabase := emptyCatalogue } twoAlbumsBatch []) :=
  (insertTracksList_rebuild { mTracksDatabase := emptyCatalogue } twoAlbumsBatch []
    (by rfl) (by decide)).2.2 (by rfl)

/-- C11: in the track loop that `insertTracksList` runs for a group, with any album id, any
store and any outcome of the store calls, a track whose insert the store rejects at its
turn adds no row, and the loop ends as it does for the group without that track; the loop
leaves the album rows as they were; and every track of the group that is not present at its
turn and whose insert the store accepts has its row, carrying its title, the album id, its
artist (the one of the album when it has none), its file, track number and duration, in the
store the loop ends with.  This loop is what the body of `insertTracksList` runs for the
group whenever `transaction()` succeeded and the album of the group is found or inserted. -/
theorem insertGroupTracks_isolates_failure (newAlbum : MusicAlbum)
    (maximumAlbumId albumId : Int) (db : Database) (pre post : List MusicAudioTrack)
    (x : MusicAudioTrack)
    (hrej : insertTrack (pre.foldl (insertTrackBody newAlbum albumId) db) x.title albumId
      (artistName newAlbum x) x.resourceURI x.trackNumber
      (QTime.msecsSinceStartOfDay x.duration) = none) :
    insertTrackBody newAlbum albumId (pre.foldl (insertTrackBody newAlbum albumId) db) x
      = pre.foldl (insertTrackBody newAlbum albumId) db ∧
    insertGroupTracks newAlbum maximumAlbumId albumId db (pre ++ x :: post)
      = insertGroupTracks newAlbum maximumAlbumId albumId db (pre ++ post) ∧
    (insertGroupTracks newAlbum maximumAlbumId albumId db (pre ++ x :: post)).state.db.albums
      = db.albums ∧
    (∀ (p q : List MusicAudioTrack) (y : MusicAudioTrack) (d1 : Database),
      pre ++ x :: post = p ++ y :: q →
      selectTrack (p.foldl (insertTrackBody newAlbum albumId) db) y.title albumId
        (artistName newAlbum y) = [] →
      insertTrack (p.foldl (insertTrackBody newAlbum albumId) db) y.title albumId
        (artistName newAlbum y) y.resourceURI y.trackNumber
        (QTime.msecsSinceStartOfDay y.duration) = some d1 →
      ∃ row : TrackRow,
        some row.title = y.title ∧ row.albumID = albumId ∧
        some row.artist = artistName newAlbum y ∧ row.fileName = y.resourceURI ∧
        row.trackNumber = y.trackNumber ∧
        row.duration = QTime.msecsSinceStartOfDay y.duration ∧
        row ∉ (p.foldl (insertTrackBody newAlbum albumId) db).tracks ∧
        ((p.foldl (insertTrackBody newAlbum albumId) db).tracks ++ [row]) <+:
          (insertGroupTracks newAlbum maximumAlbumId albumId db
            (pre ++ x :: post)).state.db.tracks) ∧
    (∀ (covers : List (String × QString)) (st : TracksLocals),
      st.db.transaction.1 = true →
      (selectAlbumByTitle st.db.transaction.2
          (scanMetadata covers {} (pre ++ x :: post)).title ≠ [] ∨
        insertAlbum st.db.transaction.2 (scanMetadata covers {} (pre ++ x :: post)).title
          (scanMetadata covers {} (pre ++ x :: post)).artist
          (scanMetadata covers {} (pre ++ x :: post)).albumArtURI
          (pre ++ x :: post).length ≠ none) →
      ∃ (m a : Int) (d : Database),
        insertTracksBody covers st (pre ++ x :: post)
          = insertGroupTracks
              { scanMetadata covers {} (pre ++ x :: post) with
                tracksCount := (pre ++ x :: post).length }
              m a d (pre ++ x :: post) ∧
        d.tracks = st.db.tracks) := by
  have hnoop : insertTrackBody newAlbum albumId
      (pre.foldl (insertTrackBody newAlbum albumId) db) x
      = pre.foldl (insertTrackBody newAlbum albumId) db :=
    insertTrackBody_noop newAlbum albumId _ x (Or.inr hrej)
  refine ⟨hnoop, ?_, (insertGroupTracks_attaches newAlbum _ albumId db _).1, ?_,
    fun covers st hT h => insertTracksBody_runs_track_loop covers st _ hT h⟩
  · unfold insertGroupTracks
    simp only [List.foldl_append, List.foldl_cons]
    rw [hnoop]
  · intro p q y d1 hsplit hsel hins
    obtain ⟨tt, aa, ht, ha, _, hfile, _, hd1⟩ := insertTrack_some _ _ _ _ _ _ _ d1 hins
    have hbody := insertTrackBody_of_insert newAlbum albumId _ d1 y hsel hins
    refine ⟨⟨nextRowId ((p.foldl (insertTrackBody newAlbum albumId) db).tracks.map
        (fun r => r.id)), tt, albumId, aa, y.resourceURI, y.trackNumber,
        QTime.msecsSinceStartOfDay y.duration⟩, ht.symm, rfl, ha.symm, rfl, rfl, rfl, ?_, ?_⟩
    · intro hmem
      exact hfile _ hmem rfl
    · rw [insertGroupTracks_tracks, hsplit, List.foldl_append, List.foldl_cons, hbody]
      have hg := (foldl_insertTrackBody_grows newAlbum albumId d1 q).2.2.2
      rw [hd1] at hg
      rw [hd1]
      exact hg

/-- C11 on the album `Foo` (id 1) and a group whose second track names the file of the
first: the second insert is rejected, and the loop stores `T1` and `T3`, as it does for the
group without `T2`; so does `insertTracksList` on an empty catalogue. -/
theorem insertGroupTracks_isolates_failure_witness :
    insertGroupTracks { artist := some "Bar" } 1 1
        { emptyCatalogue with albums := [⟨1, "Foo", "Bar", "", 3, none⟩] }
        ([discovered "T1" "Foo" "Bar" "f1"] ++ discovered "T2" "Foo" "Bar" "f1" ::
          [discovered "T3" "Foo" "Bar" "f3"])
      = insertGroupTracks { artist := some "Bar" } 1 1
        { emptyCatalogue with albums := [⟨1, "Foo", "Bar", "", 3, none⟩] }
        ([discovered "T1" "Foo" "Bar" "f1"] ++ [discovered "T3" "Foo" "Bar" "f3"]) ∧
    (insertTracksList { mTracksDatabase := emptyCatalogue } [("Foo", sharedFileGroup)]
      []).mTracksDatabase.tracks.map (fun r => (r.title, r.albumID, r.fileName))
      = [("T1", 1, "f1"), ("T3", 1, "f3")] ∧
    (insertTracksList { mTracksDatabase := emptyCatalogue } [("Foo", sharedFileGroup)]
      []).mTracksDatabase.albums.map (fun r => (r.id, r.title)) = [(1, "Foo")] :=
  ⟨(insertGroupTracks_isolates_failure { artist := some "Bar" } 1 1
      { emptyCatalogue with albums := [⟨1, "Foo", "Bar", "", 3, none⟩] }
      [discovered "T1" "Foo" "Bar" "f1"] [discovered "T3" "Foo" "Bar" "f3"]
      (discovered "T2" "Foo" "Bar" "f1") (by decide)).2.1,
   by decide, by decide⟩

/-- C12: when no `transaction()` and no `commit()` fails, a group whose album is neither
found nor insertable in the store reached at its turn leaves no trace: `insertTracksList`
on the batch gives the very interface it gives on the batch without that group, so the
group adds no album row and no track row and the later groups are processed as if it were
absent.  For every outcome of the store calls, the loop body of such a group leaves the
album rows, the track rows and the locals `albumId` and `maximumAlbumId` as they were, so no
track is attached to the album of an earlier group. -/
theorem insertTracksList_album_failure_skips_group (s : DatabaseInterface)
    (before after : List (String × List MusicAudioTrack)) (label : String)
    (group : List MusicAudioTrack) (covers : List (String × QString))
    (hO : s.mTracksDatabase.outcomes = [])
    (hsel : selectAlbumByTitle
      (runLoop (insertTracksBody covers)
        { db := s.mTracksDatabase, maximumAlbumId := 0, albumId := 0 }
        (before.map (fun g => g.2))).state.db
      (scanMetadata covers {} group).title = [])
    (hins : insertAlbum
      (runLoop (insertTracksBody covers)
        { db := s.mTracksDatabase, maximumAlbumId := 0, albumId := 0 }
        (before.map (fun g => g.2))).state.db
      (scanMetadata covers {} group).title (scanMetadata covers {} group).artist
      (scanMetadata covers {} group).albumArtURI group.length = none) :
    insertTracksList s (before ++ (label, group) :: after) covers
      = insertTracksList s (before ++ after) covers ∧
    (∀ st : TracksLocals,
      selectAlbumByTitle st.db (scanMetadata covers {} group).title = [] →
      insertAlbum st.db (scanMetadata covers {} group).title (scanMetadata covers {} group).artist
        (scanMetadata covers {} group).albumArtURI group.length = none →
      (insertTracksBody covers st group).state.db.tracks = st.db.tracks ∧
      (insertTracksBody covers st group).state.db.albums = st.db.albums ∧
      (insertTracksBody covers st group).state.albumId = st.albumId ∧
      (insertTracksBody covers st group).state.maximumAlbumId = st.maximumAlbumId) := by
  refine ⟨?_, fun st h1 h2 => insertTracksBody_album_failure covers st group h1 h2⟩
  rw [insertTracksLoop_db_of_nil covers _ _ hO] at hsel hins
  rw [insertTracksList_of_nil s _ covers hO, insertTracksList_of_nil s _ covers hO]
  simp only [List.map_append, List.map_cons, List.foldl_append, List.foldl_cons]
  rw [groupStep_album_failure covers _ group hsel hins]

/-- C12 on a batch of three groups, `Foo`, a group that names no album, and `Qux`: the
outcome is the one of the batch `Foo`, `Qux`, with the albums 1 and 2 and one track each. -/
theorem insertTracksList_album_failure_skips_group_witness :
    insertTracksList { mTracksDatabase := emptyCatalogue }
        ([("Foo", [discovered "T1" "Foo" "Bar" "f1"])] ++ ("", namelessGroup) ::
          [("Qux", [discovered "T2" "Qux" "Bar" "f2"])]) []
      = insertTracksList { mTracksDatabase := emptyCatalogue }
        ([("Foo", [discovered "T1" "Foo" "Bar" "f1"])] ++
          [("Qux", [discovered "T2" "Qux" "Bar" "f2"])]) [] ∧
    (insertTracksList { mTracksDatabase := emptyCatalogue }
        ([("Foo", [discovered "T1" "Foo" "Bar" "f1"])] ++ ("", namelessGroup) ::
          [("Qux", [discovered "T2" "Qux" "Bar" "f2"])]) []).mTracksDatabase.tracks.map
      (fun r => (r.title, r.albumID)) = [("T1", 1), ("T2", 2)] :=
  ⟨(insertTracksList_album_failure_skips_group { mTracksDatabase := emptyCatalogue }
      [("Foo", [discovered "T1" "Foo" "Bar" "f1"])] [("Qux", [discovered "T2" "Qux" "Bar" "f2"])]
      "" namelessGroup [] (by rfl) (by decide) (by decide)).1,
   by decide⟩

/-- C13 as stated fails: in a group whose first track carries an empty, non-null artist and
whose second track carries the artist `Bar`, the first track whose artist is non-empty is
the second one, but the scan tests `isNull()` and keeps the empty artist of the first track;
the album row is stored with the artist `""`. -/
theorem scanMetadata_first_nonempty_counterexample :
    emptyArtistGroup.map (fun t => t.artist) = [some "", some "Bar"] ∧
    firstNonEmpty (emptyArtistGroup.map (fun t => t.artist)) = some "Bar" ∧
    (scanMetadata [] {} emptyArtistGroup).artist = some "" ∧
    (insertTracksList { mTracksDatabase := emptyCatalogue } [("Foo", emptyArtistGroup)]
      []).mTracksDatabase.albums = [⟨1, "Foo", "", "", 2, none⟩] := by
  decide

/-- C13, amended: for every group and every covers map, the album artist derived by the
metadata scan of `insertTracksList` is the artist of the first track whose artist is not the
null string (an empty non-null artist counts), the derived title is the album name of the
first track whose album name is not the null string, and the derived cover is the URL of the
first non-empty cover location that the covers map holds for the album name of a track; a
field that no track resolves stays null (artist, title) or empty (cover).  When no track of
the group carries an empty non-null artist, respectively album name, the derived value is the
first non-empty one. -/
theorem scanMetadata_first_wins (covers : List (String × QString))
    (album : List MusicAudioTrack) :
    (scanMetadata covers {} album).artist = firstNonNull (album.map (fun t => t.artist)) ∧
    (scanMetadata covers {} album).title = firstNonNull (album.map (fun t => t.albumName)) ∧
    (scanMetadata covers {} album).albumArtURI =
      QUrl.fromLocalFile (firstNonEmpty (album.map (fun t => QHash.value covers t.albumName))) ∧
    ((∀ t ∈ album, t.artist ≠ some "") →
      (scanMetadata covers {} album).artist = firstNonEmpty (album.map (fun t => t.artist))) ∧
    ((∀ t ∈ album, t.albumName ≠ some "") →
      (scanMetadata covers {} album).title = firstNonEmpty (album.map (fun t => t.albumName))) := by
  obtain ⟨ha, ht, hc⟩ := scanMetadata_fields covers {} album
  have ha1 : (scanMetadata covers {} album).artist
      = firstNonNull (album.map (fun t => t.artist)) := by
    rw [ha]; simp [firstNonNull, QString.isNull]
  have ht1 : (scanMetadata covers {} album).title
      = firstNonNull (album.map (fun t => t.albumName)) := by
    rw [ht]; simp [firstNonNull, QString.isNull]
  refine ⟨ha1, ht1, ?_, ?_, ?_⟩
  · rw [hc]; simp
  · intro h
    rw [ha1]
    apply firstNonNull_eq_firstNonEmpty
    intro x hx
    obtain ⟨t, htm, rfl⟩ := List.mem_map.mp hx
    exact h t htm
  · intro h
    rw [ht1]
    apply firstNonNull_eq_firstNonEmpty
    intro x hx
    obtain ⟨t, htm, rfl⟩ := List.mem_map.mp hx
    exact h t htm

/-- C13, amended, on the first group of `fooBarTwice` with the covers of `Other1` and
`Other2`: the artist `Bar` and the title `Foo` come from the first track, the cover from the
second one, whose album name `Other1` is the first with a cover. -/
theorem scanMetadata_first_wins_witness :
    (scanMetadata otherCovers {} [discovered "T1" "Foo" "Bar" "f1",
      discovered "T2" "Other1" "Bar" "f2"]).artist = some "Bar" ∧
    (scanMetadata otherCovers {} [discovered "T1" "Foo" "Bar" "f1",
      discovered "T2" "Other1" "Bar" "f2"]).title = some "Foo" ∧
    (scanMetadata otherCovers {} [discovered "T1" "Foo" "Bar" "f1",
      discovered "T2" "Other1" "Bar" "f2"]).albumArtURI = "file:///c1" :=
  ⟨((scanMetadata_first_wins otherCovers [discovered "T1" "Foo" "Bar" "f1",
      discovered "T2" "Other1" "Bar" "f2"]).2.2.2.1 (by decide)).trans (by decide),
   ((scanMetadata_first_wins otherCovers [discovered "T1" "Foo" "Bar" "f1",
      discovered "T2" "Other1" "Bar" "f2"]).2.2.2.2 (by decide)).trans (by decide),
   (scanMetadata_first_wins otherCovers [discovered "T1" "Foo" "Bar" "f1",
      discovered "T2" "Other1" "Bar" "f2"]).2.2.1.trans (by decide)⟩

/-- C14: for every store state, every batch and every outcome of the store calls,
`insertTracksList` leaves the album rows and the track rows present before the call where
they were, with every column unchanged, and only appends rows after them. -/
theorem insertTracksList_only_adds_rows (s : DatabaseInterface)
    (tracks : List (String × List MusicAudioTrack)) (covers : List (String × QString)) :
    (∃ newAlbums, (insertTracksList s tracks covers).mTracksDatabase.albums
        = s.mTracksDatabase.albums ++ newAlbums) ∧
    (∃ newTracks, (insertTracksList s tracks covers).mTracksDatabase.tracks
        = s.mTracksDatabase.tracks ++ newTracks) ∧
    (∀ r ∈ s.mTracksDatabase.albums,
      r ∈ (insertTracksList s tracks covers).mTracksDatabase.albums) ∧
    (∀ r ∈ s.mTracksDatabase.tracks,
      r ∈ (insertTracksList s tracks covers).mTracksDatabase.tracks) := by
  have hk := (insertTracksLoop_keeps covers
    { db := s.mTracksDatabase, maximumAlbumId := 0, albumId := 0 }
    (tracks.map (fun g => g.2))).1
  obtain ⟨ha, ht⟩ := insertTracksList_rows s tracks covers
  obtain ⟨xa, hxa⟩ := hk.2.2.1
  obtain ⟨xt, hxt⟩ := hk.2.2.2
  simp only at hxa hxt
  refine ⟨⟨xa, by rw [ha, ← hxa]⟩, ⟨xt, by rw [ht, ← hxt]⟩, ?_, ?_⟩
  · intro r hr
    rw [ha, ← hxa]
    exact List.mem_append_left _ hr
  · intro r hr
    rw [ht, ← hxt]
    exact List.mem_append_left _ hr

/-- C14 on the store holding `Foo` with `T1` and `T2`, reconciled with the two-album batch:
the album row and the two track rows stored before are still there, unchanged. -/
theorem insertTracksList_only_adds_rows_witness :
    (∀ r ∈ (fooCatalogue 2).albums,
      r ∈ (insertTracksList { mTracksDatabase := fooCatalogue 2 } twoAlbumsBatch
        []).mTracksDatabase.albums) ∧
    (∀ r ∈ (fooCatalogue 2).tracks,
      r ∈ (insertTracksList { mTracksDatabase := fooCatalogue 2 } twoAlbumsBatch
        []).mTracksDatabase.tracks) ∧
    (insertTracksList { mTracksDatabase := fooCatalogue 2 } twoAlbumsBatch
      []).mTracksDatabase.albums.length = 2 :=
  ⟨(insertTracksList_only_adds_rows { mTracksDatabase := fooCatalogue 2 } twoAlbumsBatch
      []).2.2.1,
   (insertTracksList_only_adds_rows { mTracksDatabase := fooCatalogue 2 } twoAlbumsBatch
      []).2.2.2,
   by decide⟩

/-- C15 as stated fails: the entity cache holds album 1 (it was read while the store held
its row) and the shared store holds no album row any more.  `albumFromId(1)` queries the
store before it looks at the cache, finds no row and returns the empty invalid album, not
the cached one. -/
theorem albumFromId_cache_hit_counterexample :
    (QHash.find fooCachedEmptied.mAlbumCache 1).isSome = true ∧
    (QHash.find fooCachedEmptied.mAlbumCache 1).map (fun a => a.valid) = some true ∧
    (albumFromId fooCachedEmptied 1).1 = {} ∧
    (albumFromId fooCachedEmptied 1).1.valid = false ∧
    some (albumFromId fooCachedEmptied 1).1 ≠ QHash.find fooCachedEmptied.mAlbumCache 1 := by
  decide

/-- C15, amended: `albumFromId(id)` queries the store first.  When the entity cache holds an
album for `id`, the call changes neither the store nor the cache nor the index; it returns
exactly the cached album when the `Albums` relation exists and holds a row with that id, and
the empty invalid album otherwise.  In every state, a second `albumFromId(id)` right after a
first one returns the same album. -/
theorem albumFromId_cache_hit (s : DatabaseInterface) (id : Int) :
    (∀ cached, QHash.find s.mAlbumCache id = some cached →
      (albumFromId s id).2 = s ∧
      (s.mTracksDatabase.hasAlbums = true →
        id ∈ s.mTracksDatabase.albums.map (fun r => r.id) → (albumFromId s id).1 = cached) ∧
      (s.mTracksDatabase.hasAlbums = false → (albumFromId s id).1 = {}) ∧
      (id ∉ s.mTracksDatabase.albums.map (fun r => r.id) → (albumFromId s id).1 = {})) ∧
    (albumFromId (albumFromId s id).2 id).1 = (albumFromId s id).1 := by
  refine ⟨?_, albumFromId_twice s id⟩
  intro cached hc
  refine ⟨?_, ?_, ?_, ?_⟩
  · unfold albumFromId
    split
    · split
      · rfl
      · simp only [hc]
    · rfl
  · intro hA hid
    unfold albumFromId
    rw [if_pos hA]
    cases hsel : selectAlbumById s.mTracksDatabase id with
    | nil => exact absurd hid ((selectAlbumById_eq_nil _ _).mp hsel)
    | cons row rest => simp only [hc]
  · intro hA
    unfold albumFromId
    rw [hA]
    simp
  · intro hid
    unfold albumFromId
    rw [(selectAlbumById_eq_nil _ _).mpr hid]
    split <;> rfl

/-- C15, amended, at the interface holding album `Foo` (id 1) in the store and in the
cache: the call returns the cached album and leaves the interface as it was. -/
theorem albumFromId_cache_hit_witness :
    (albumFromId fooCached 1).2 = fooCached ∧
    some (albumFromId fooCached 1).1 = QHash.find fooCached.mAlbumCache 1 ∧
    (albumFromId fooCached 1).1.tracks.length = 2 :=
  ⟨((albumFromId_cache_hit fooCached 1).1 (albumFromId fooReconciled 1).1 (by decide)).1,
   by rw [((albumFromId_cache_hit fooCached 1).1 (albumFromId fooReconciled 1).1
      (by decide)).2.1 (by decide) (by decide)]; decide,
   by decide⟩

/-- C16 fails on the code: the album `Foo` was stored with two tracks and a later batch
added a third one, so the stored `TracksCount` is 2 for three track rows.  `albumFromId(1)`
returns a valid album carrying three tracks with `tracksCount()` 2, because the count is
copied from the row read before `fetchTracks` corrects it; the store then holds 3, while a
second call still answers 2 from the cache. -/
theorem albumFromId_stale_tracksCount :
    (albumFromId fooWithThird 1).1.valid = true ∧
    (albumFromId fooWithThird 1).1.tracksCount = 2 ∧
    (albumFromId fooWithThird 1).1.tracks.length = 3 ∧
    (selectTracksOfAlbum fooWithThird.mTracksDatabase 1).length = 3 ∧
    (albumFromId fooWithThird 1).2.mTracksDatabase.albums.map (fun r => r.tracksCount) = [3] ∧
    (albumFromId (albumFromId fooWithThird 1).2 1).1.tracksCount = 2 := by
  decide

/-- C17: on a store whose `Tracks` relation exists and whose track ids are pairwise distinct
(primary key), for every album id `a` the keys of `fetchTracks(a)` are exactly the ids of the
track rows whose `AlbumID` is `a`; every entry is a valid track carrying the id, title,
artist and resource location of the row with its key, and the row's track number and
duration whenever these fit the `int` they are read through; the entries come in strictly
ascending id order, there is one entry per row, and the mapping is empty when no track row
has `AlbumID` `a`. -/
theorem fetchTracks_exact (db : Database) (a : Int) (hT : db.hasTracks = true)
    (hN : (db.tracks.map (fun r => r.id)).Nodup) :
    (∀ k, k ∈ (fetchTracks db a).1.map Prod.fst ↔ ∃ r ∈ db.tracks, r.albumID = a ∧ r.id = k) ∧
    (∀ e ∈ (fetchTracks db a).1, ∃ r ∈ db.tracks, r.albumID = a ∧ r.id = e.1 ∧
      e.2.valid = true ∧ e.2.databaseId = r.id ∧ e.2.title = some r.title ∧
      e.2.artist = some r.artist ∧ e.2.resourceURI = r.fileName ∧
      (-2147483648 ≤ r.trackNumber → r.trackNumber < 2147483648 →
        e.2.trackNumber = r.trackNumber) ∧
      (-2147483648 ≤ r.duration → r.duration < 2147483648 → e.2.duration = r.duration)) ∧
    ((fetchTracks db a).1.map Prod.fst).Pairwise (fun x y => x < y) ∧
    (fetchTracks db a).1.length = (selectTracksOfAlbum db a).length ∧
    ((∀ r ∈ db.tracks, r.albumID ≠ a) → (fetchTracks db a).1 = []) := by
  refine ⟨?_, ?_, fetchTracks_sorted db a, fetchTracks_length db a hT hN, ?_⟩
  · intro k
    simp only [List.mem_map]
    constructor
    · rintro ⟨e, he, rfl⟩
      obtain ⟨r, hr, ha, rfl⟩ := (fetchTracks_mem db a hT hN e).mp he
      exact ⟨r, hr, ha, rfl⟩
    · rintro ⟨r, hr, ha, rfl⟩
      exact ⟨(r.id, trackOfRow r), (fetchTracks_mem db a hT hN _).mpr ⟨r, hr, ha, rfl⟩, rfl⟩
  · intro e he
    obtain ⟨r, hr, ha, rfl⟩ := (fetchTracks_mem db a hT hN e).mp he
    refine ⟨r, hr, ha, rfl, rfl, rfl, rfl, rfl, rfl, ?_, ?_⟩
    · intro h1 h2
      exact toInt_of_range _ h1 h2
    · intro h1 h2
      exact toInt_of_range _ h1 h2
  · intro hno
    apply List.eq_nil_iff_forall_not_mem.mpr
    intro e he
    obtain ⟨r, hr, ha, _⟩ := (fetchTracks_mem db a hT hN e).mp he
    exact hno r hr ha

/-- C17 on the store holding `Foo` (id 1) with `T1` and `T2`: `fetchTracks(1)` has the keys
1 and 2 in this order, and `fetchTracks(5)` is empty. -/
theorem fetchTracks_exact_witness :
    (fetchTracks (fooCatalogue 2) 1).1.map Prod.fst = [1, 2] ∧
    ((fetchTracks (fooCatalogue 2) 1).1.map Prod.fst).Pairwise (fun x y => x < y) ∧
    (fetchTracks (fooCatalogue 2) 5).1 = [] :=
  ⟨by decide,
   (fetchTracks_exact (fooCatalogue 2) 1 (by rfl) (by decide)).2.2.1,
   (fetchTracks_exact (fooCatalogue 2) 5 (by rfl) (by decide)).2.2.2.2 (by decide)⟩

/-- C18: `albumIdFromTrackId(trackId)` returns the `AlbumID` of the track row with that id,
when the `Tracks` relation exists, track ids are pairwise distinct (primary key) and the
`AlbumID` fits the `int` the function returns; it returns -1 when no track row has that id
and when the query fails because the relation is missing.  Album rows created by
`insertTracksList` and `insertAlbumsList` receive ids of at least 1 on a store whose album
ids are at least 1 (in particular on an empty one), whatever `transaction()` and `commit()`
answer, so -1 is not the id of any of them. -/
theorem albumIdFromTrackId_sentinel (s : DatabaseInterface) (trackId : Int) :
    (s.mTracksDatabase.hasTracks = true →
      (s.mTracksDatabase.tracks.map (fun r => r.id)).Nodup →
      ∀ row ∈ s.mTracksDatabase.tracks, row.id = trackId →
        -2147483648 ≤ row.albumID → row.albumID < 2147483648 →
        albumIdFromTrackId s trackId = row.albumID) ∧
    ((∀ row ∈ s.mTracksDatabase.tracks, row.id ≠ trackId) →
      albumIdFromTrackId s trackId = -1) ∧
    (s.mTracksDatabase.hasTracks = false → albumIdFromTrackId s trackId = -1) ∧
    (AlbumIdsPositive s.mTracksDatabase →
      (∀ (tracks : List (String × List MusicAudioTrack)) (covers : List (String × QString)),
        ∀ r ∈ (insertTracksList s tracks covers).mTracksDatabase.albums,
          1 ≤ r.id ∧ r.id ≠ -1) ∧
      (∀ (allAlbums : List MusicAlbum),
        ∀ r ∈ (insertAlbumsList s allAlbums).mTracksDatabase.albums, 1 ≤ r.id ∧ r.id ≠ -1)) := by
  refine ⟨?_, ?_, ?_, ?_⟩
  · intro hT hN row hrow hid h1 h2
    obtain ⟨rest, hsel⟩ := selectTrackById_of_mem _ trackId row hN hrow hid
    unfold albumIdFromTrackId
    rw [if_pos hT, hsel]
    exact toInt_of_range _ h1 h2
  · intro hno
    have hsel : selectTrackById s.mTracksDatabase trackId = [] := by
      simp only [selectTrackById, List.filter_eq_nil_iff, decide_eq_true_eq]
      exact hno
    unfold albumIdFromTrackId
    rw [hsel]
    split <;> rfl
  · intro hT
    unfold albumIdFromTrackId
    rw [hT]
    rfl
  · intro hp
    refine ⟨?_, ?_⟩
    · intro tracks covers r hr
      have := insertTracksList_albumIdsPositive s tracks covers hp r hr
      exact ⟨this, by omega⟩
    · intro allAlbums r hr
      have := insertAlbumsList_albumIdsPositive s allAlbums hp r hr
      exact ⟨this, by omega⟩

/-- C18 on the store holding `Foo` with `T1` and `T2`: track 2 belongs to album 1, track 9
has no row, and the album created by reconciling `Foo` into an empty catalogue has id 1. -/
theorem albumIdFromTrackId_sentinel_witness :
    albumIdFromTrackId { mTracksDatabase := fooCatalogue 2 } 2 = 1 ∧
    albumIdFromTrackId { mTracksDatabase := fooCatalogue 2 } 9 = -1 ∧
    albumIdFromTrackId {} 2 = -1 ∧
    (∀ r ∈ (insertTracksList { mTracksDatabase := emptyCatalogue } [("Foo", fooGroup)]
      []).mTracksDatabase.albums, 1 ≤ r.id ∧ r.id ≠ -1) :=
  ⟨(albumIdFromTrackId_sentinel { mTracksDatabase := fooCatalogue 2 } 2).1 (by rfl) (by decide)
      ⟨2, "T2", 1, "Bar", "f2", 2, 0⟩ (by decide) (by rfl) (by decide) (by decide),
   (albumIdFromTrackId_sentinel { mTracksDatabase := fooCatalogue 2 } 9).2.1 (by decide),
   (albumIdFromTrackId_sentinel {} 2).2.2.1 (by rfl),
   ((albumIdFromTrackId_sentinel { mTracksDatabase := emptyCatalogue } 0).2.2.2
      (by decide)).1 [("Foo", fooGroup)] []⟩

/-- C19 as stated fails: the statement `SELECT ID FROM Albums` of `updateIndexCache` names no
order, and the store answers it from the index behind `UNIQUE (Title, Artist)`, by title.
After `insertTracksList` stored the album `Qux` (id 1) and then the album `Foo` (id 2) in an
empty catalogue, the index it rebuilt, and the one a further `updateIndexCache` rebuilds, is
`[2, 1]`: position 0 is before position 1 and holds the larger id. -/
theorem updateIndexCache_order_counterexample :
    (insertTracksList (DatabaseInterface.construct {}) quxThenFoo []).mTracksDatabase.albums.map
      (fun r => (r.id, r.title)) = [(1, "Qux"), (2, "Foo")] ∧
    (insertTracksList (DatabaseInterface.construct {}) quxThenFoo []).mIndexByPosition = [2, 1] ∧
    (updateIndexCache
      (insertTracksList (DatabaseInterface.construct {}) quxThenFoo [])).mIndexByPosition
      = [2, 1] ∧
    ∃ (p q : Nat) (x y : Int), p < q ∧
      (updateIndexCache
        (insertTracksList (DatabaseInterface.construct {}) quxThenFoo [])).mIndexByPosition[p]?
        = some x ∧
      (updateIndexCache
        (insertTracksList (DatabaseInterface.construct {}) quxThenFoo [])).mIndexByPosition[q]?
        = some y ∧
      ¬ x < y :=
  ⟨by decide, by decide, by decide, 0, 1, 2, 1, by decide, by decide, by decide, by decide⟩

/-- C19, amended: right after `updateIndexCache`, on a store whose `Albums` relation exists,
the position index holds the album ids of the store in the order of the index behind
`UNIQUE (Title, Artist)`: it is the scan `selectAlbumIds`, a rearrangement of the stored ids,
and for all positions `p < q` the id at `p` belongs to an album row whose entry (title, then
artist, then id) is not larger than the entry of a row the id at `q` belongs to.  When the
album ids are pairwise distinct and a row with the smaller entry always has the smaller id,
the album id at `p` is strictly smaller than the album id at every later position `q`; and
the ids ascend with the positions only on such a store. -/
theorem updateIndexCache_index_order (s : DatabaseInterface)
    (hA : s.mTracksDatabase.hasAlbums = true) :
    (updateIndexCache s).mIndexByPosition = selectAlbumIds s.mTracksDatabase ∧
    (updateIndexCache s).mIndexByPosition.Perm (s.mTracksDatabase.albums.map (fun r => r.id)) ∧
    (∀ (p q : Nat) (x y : Int), p < q →
      (updateIndexCache s).mIndexByPosition[p]? = some x →
      (updateIndexCache s).mIndexByPosition[q]? = some y →
      ∃ r1 ∈ s.mTracksDatabase.albums, ∃ r2 ∈ s.mTracksDatabase.albums,
        r1.id = x ∧ r2.id = y ∧ r1.indexEntry ≤ r2.indexEntry) ∧
    ((s.mTracksDatabase.albums.map (fun r => r.id)).Nodup →
      (∀ r1 ∈ s.mTracksDatabase.albums, ∀ r2 ∈ s.mTracksDatabase.albums,
        r1.indexEntry < r2.indexEntry → r1.id < r2.id) →
      ∀ (p q : Nat) (x y : Int), p < q →
        (updateIndexCache s).mIndexByPosition[p]? = some x →
        (updateIndexCache s).mIndexByPosition[q]? = some y → x < y) ∧
    ((∀ (p q : Nat) (x y : Int), p < q →
        (updateIndexCache s).mIndexByPosition[p]? = some x →
        (updateIndexCache s).mIndexByPosition[q]? = some y → x < y) →
      ∀ r1 ∈ s.mTracksDatabase.albums, ∀ r2 ∈ s.mTracksDatabase.albums,
        r1.indexEntry < r2.indexEntry → r1.id < r2.id) := by
  have hi := (updateIndexCache_index s hA).1
  rw [hi]
  refine ⟨rfl, selectAlbumIds_perm _, ?_, ?_, ?_⟩
  · intro p q x y hpq hp hq
    exact selectAlbumIds_rows_at _ p q x y hpq hp hq
  · intro hN H p q x y hpq hp hq
    exact pairwise_rel_at _ _ (selectAlbumIds_ascending _ hN H) p q x y hpq hp hq
  · intro h
    exact selectAlbumIds_ascending_only _ (pairwise_of_rel_at _ _ h)

/-- C19, amended, on the catalogue that holds `Foo` (id 1) and `Qux` (id 2): the rebuilt
index is `[1, 2]`, the ids are distinct and grow with the titles, and the id at position 0 is
smaller than the id at position 1. -/
theorem updateIndexCache_index_order_witness :
    (updateIndexCache { mTracksDatabase := { emptyCatalogue with albums :=
      [⟨1, "Foo", "Bar", "", 1, none⟩, ⟨2, "Qux", "Bar", "", 1, none⟩] } }).mIndexByPosition
      = [1, 2] ∧ (1 : Int) < 2 :=
  ⟨by decide,
   (updateIndexCache_index_order { mTracksDatabase := { emptyCatalogue with albums :=
      [⟨1, "Foo", "Bar", "", 1, none⟩, ⟨2, "Qux", "Bar", "", 1, none⟩] } } (by rfl)).2.2.2.1
     (by decide) (by decide) 0 1 1 2 (by decide) (by decide) (by decide)⟩

/-- C20 fails on the code: after the album `Foo` was reconciled the reverse map is
`[(1, 0)]`.  `albumPositionByIndex(7)`, for an id that is not in the index, answers
position 0 and leaves the entry `(7, 0)` in the reverse map (`operator[]` on the non-const
hash creates it), so the map is no longer the inverse of the position vector `[1]`. -/
theorem albumPositionByIndex_absent_key :
    fooReconciled.mIndexByPosition = [1] ∧
    fooReconciled.mPositionByIndex = [(1, 0)] ∧
    (albumPositionByIndex fooReconciled 7).1 = 0 ∧
    (albumPositionByIndex fooReconciled 7).2.mIndexByPosition = [1] ∧
    (albumPositionByIndex fooReconciled 7).2.mPositionByIndex = [(7, 0), (1, 0)] := by
  decide

/-- C21: for every store and every outcome of the schema statements, `initDatabase` keeps
every album and track row and never removes a relation or the index (`SchemaStep`); each of
`DiscoverSource`, `Albums`, `Tracks`, `TracksMapping` is present afterwards exactly when it was
present before or the store call of its own `CREATE TABLE` succeeded, whatever the earlier
calls answered, and the index is present exactly when it was present before or its statement
succeeded on an existing `Tracks`.  When every statement succeeds all five are present and a
second run gives the very same store; whenever the first run left all five present, a second
run changes nothing but the script of store calls. -/
theorem initDatabase_idempotent_additive (db : Database) :
    SchemaStep db (initDatabase db) ∧
    (db.outcomes = [] →
      (initDatabase db).hasDiscoverSource = true ∧ (initDatabase db).hasAlbums = true ∧
      (initDatabase db).hasTracks = true ∧ (initDatabase db).hasTracksMapping = true ∧
      (initDatabase db).hasTracksAlbumIndex = true ∧
      initDatabase (initDatabase db) = initDatabase db) ∧
    ((initDatabase db).hasDiscoverSource = true → (initDatabase db).hasAlbums = true →
      (initDatabase db).hasTracks = true → (initDatabase db).hasTracksMapping = true →
      (initDatabase db).hasTracksAlbumIndex = true →
      initDatabase (initDatabase db)
        = { initDatabase db with outcomes := (initDatabase db).outcomes.drop 1 }) ∧
    (initDatabase db).hasDiscoverSource = (db.hasDiscoverSource || db.outcomeAt 0) ∧
    (initDatabase db).hasAlbums
      = (db.hasAlbums || db.outcomeAt (creations db.hasDiscoverSource)) ∧
    (initDatabase db).hasTracks
      = (db.hasTracks ||
          db.outcomeAt (creations db.hasDiscoverSource + creations db.hasAlbums)) ∧
    (initDatabase db).hasTracksMapping
      = (db.hasTracksMapping ||
          db.outcomeAt (creations db.hasDiscoverSource + creations db.hasAlbums
            + creations db.hasTracks)) ∧
    (initDatabase db).hasTracksAlbumIndex
      = (db.hasTracksAlbumIndex ||
          (db.outcomeAt (creations db.hasDiscoverSource + creations db.hasAlbums
              + creations db.hasTracks + creations db.hasTracksMapping) &&
            (initDatabase db).hasTracks)) :=
  ⟨initDatabase_schemaStep db, initDatabase_of_nil db,
   initDatabase_of_complete (initDatabase db), initDatabase_flags db⟩

/-- C21 on an empty store: when every statement succeeds the five relations are created and
a second run changes nothing; when the first statement (`DiscoverSource`) fails, the four
others are still created. -/
theorem initDatabase_idempotent_additive_witness :
    initDatabase (initDatabase {}) = initDatabase {} ∧
    initDatabase {} = emptyCatalogue ∧
    (initDatabase { outcomes := [false] }).hasDiscoverSource = false ∧
    (initDatabase { outcomes := [false] }).hasAlbums = true ∧
    (initDatabase { outcomes := [false] }).hasTracks = true ∧
    (initDatabase { outcomes := [false] }).hasTracksMapping = true ∧
    (initDatabase { outcomes := [false] }).hasTracksAlbumIndex = true :=
  ⟨((initDatabase_idempotent_additive {}).2.1 rfl).2.2.2.2.2, by decide,
   (initDatabase_idempotent_additive { outcomes := [false] }).2.2.2.1.trans (by decide),
   (initDatabase_idempotent_additive { outcomes := [false] }).2.2.2.2.1.trans (by decide),
   (initDatabase_idempotent_additive { outcomes := [false] }).2.2.2.2.2.1.trans (by decide),
   (initDatabase_idempotent_additive { outcomes := [false] }).2.2.2.2.2.2.1.trans (by decide),
   by decide⟩

/-- C22: in every state reached from an interface constructed on a store without album rows
by calling its member functions (any sequence of `insertAlbumsList` and `insertTracksList`
calls in particular), for every outcome of the store calls, no two album rows share a title
and the lookup by a stored title yields exactly the row carrying it.  A group or an album
whose title is stored adds no album row, whatever its artist, and the tracks of such a group
are attached to the id of the stored row. -/
theorem writers_keep_titles_unique (store : Database) (s : DatabaseInterface)
    (hstore : store.albums = [])
    (hr : ReachableFrom (DatabaseInterface.construct store) s) :
    (s.mTracksDatabase.albums.map (fun r => r.title)).Nodup ∧
    (∀ r ∈ s.mTracksDatabase.albums,
      selectAlbumByTitle s.mTracksDatabase (some r.title) = [r.id]) ∧
    (∀ r ∈ s.mTracksDatabase.albums, ∀ (label : String) (group : List MusicAudioTrack)
        (covers : List (String × QString)),
      (scanMetadata covers {} group).title = some r.title →
      (insertTracksList s [(label, group)] covers).mTracksDatabase.albums
        = s.mTracksDatabase.albums ∧
      ∃ added, (insertTracksList s [(label, group)] covers).mTracksDatabase.tracks
          = s.mTracksDatabase.tracks ++ added ∧
        ∀ x ∈ added, x.albumID = toQuintptr (toInt r.id)) ∧
    (∀ r ∈ s.mTracksDatabase.albums, ∀ (album : MusicAlbum),
      album.title = some r.title →
      (insertAlbumsList s [album]).mTracksDatabase.albums = s.mTracksDatabase.albums) := by
  have hu : TitlesUnique s.mTracksDatabase :=
    titlesUnique_of_reachable _ s (titlesUnique_construct store hstore) hr
  refine ⟨hu.1, fun r hrm => selectAlbumByTitle_of_titlesUnique _ hu r hrm, ?_, ?_⟩
  · intro r hrm label group covers ht
    have hsel := selectAlbumByTitle_of_titlesUnique _ hu r hrm
    rw [← ht] at hsel
    have hat := insertTracksBody_found covers
      { db := s.mTracksDatabase, maximumAlbumId := 0, albumId := 0 } group r.id [] hsel
    obtain ⟨ha, ht2⟩ := insertTracksList_rows s [(label, group)] covers
    simp only [List.map_cons, List.map_nil] at ha ht2
    rw [runLoop_single] at ha ht2
    obtain ⟨h1, _, added, h3, h4⟩ := hat
    exact ⟨ha.trans h1, added, ht2.trans h3, h4⟩
  · intro r hrm album ht
    have hsel := selectAlbumByTitle_of_titlesUnique _ hu r hrm
    rw [← ht] at hsel
    have hb := insertAlbumsBody_found { db := s.mTracksDatabase, albumId := 0 } album r.id []
      hsel
    obtain ⟨ha, _⟩ := insertAlbumsList_rows s [album]
    rw [runLoop_single] at ha
    exact ha.trans hb.1

/-- C22 after the two-album batch was reconciled into an empty store and an album `Foo` by
another artist was offered to `insertAlbumsList`: the titles stay `Foo` and `Qux`. -/
theorem writers_keep_titles_unique_witness :
    ((insertAlbumsList (insertTracksList (DatabaseInterface.construct {}) twoAlbumsBatch [])
      [albumOf "Foo" "Baz" ""]).mTracksDatabase.albums.map (fun r => r.title)).Nodup ∧
    (insertAlbumsList (insertTracksList (DatabaseInterface.construct {}) twoAlbumsBatch [])
      [albumOf "Foo" "Baz" ""]).mTracksDatabase.albums.map (fun r => (r.title, r.artist))
      = [("Foo", "Bar"), ("Qux", "Bar")] :=
  ⟨(writers_keep_titles_unique {} _ rfl
      (ReachableFrom.insertAlbumsList _ [albumOf "Foo" "Baz" ""]
        (ReachableFrom.insertTracksList _ twoAlbumsBatch [] ReachableFrom.start))).1,
   by decide⟩

/-- C23 as stated fails on a new model, in two ways.  With a listing whose second track has
no title, the store rejects the insert, the track is recorded under the id 0, and the index
of track row 1 under album 0 is valid but has no parent.  With a listing whose two groups
derive the same album, the second group is shown at position 1 while its track is recorded
for position 0 (the stored album id minus one), so the parent of its track has row 0. -/
theorem tracksList_tree_counterexample :
    LocalAlbumModel.rowCount (LocalAlbumModel.tracksList {} untitledListing []) {} = 1 ∧
    LocalAlbumModel.rowCount (LocalAlbumModel.tracksList {} untitledListing [])
      (LocalAlbumModel.index (LocalAlbumModel.tracksList {} untitledListing []) 0 0 {}) = 2 ∧
    (LocalAlbumModel.index (LocalAlbumModel.tracksList {} untitledListing []) 1 0
      (LocalAlbumModel.index (LocalAlbumModel.tracksList {} untitledListing []) 0 0 {})).isValid
      = true ∧
    (LocalAlbumModel.parent (LocalAlbumModel.tracksList {} untitledListing [])
      (LocalAlbumModel.index (LocalAlbumModel.tracksList {} untitledListing []) 1 0
        (LocalAlbumModel.index (LocalAlbumModel.tracksList {} untitledListing []) 0 0 {}))).row
      = -1 ∧
    LocalAlbumModel.rowCount (LocalAlbumModel.tracksList {} sameAlbumListing []) {} = 2 ∧
    LocalAlbumModel.rowCount (LocalAlbumModel.tracksList {} sameAlbumListing [])
      (LocalAlbumModel.index (LocalAlbumModel.tracksList {} sameAlbumListing []) 1 0 {}) = 1 ∧
    (LocalAlbumModel.parent (LocalAlbumModel.tracksList {} sameAlbumListing [])
      (LocalAlbumModel.index (LocalAlbumModel.tracksList {} sameAlbumListing []) 0 0
        (LocalAlbumModel.index (LocalAlbumModel.tracksList {} sameAlbumListing []) 1 0 {}))).row
      = 0 := by
  decide

/-- C23, amended: on a model whose store holds no row and whose schema statements succeed,
after `tracksList` has processed a listing in which every track has a title and an album
name, no file is listed twice and no two groups derive the same `(Title, Artist)` pair (with
fewer than 2^31 groups and tracks), for every album position `p` in `[0, rowCount(root))`
and every track row `r` in `[0, rowCount(index(p, 0)))` the index `index(r, 0, index(p, 0))`
is valid and its parent is `index(p, 0)`, which has row `p`. -/
theorem tracksList_tree_consistent (m : LocalAlbumModel)
    (tracks : List (String × List LocalBalooTrack)) (covers : List (String × QString))
    (hA : m.mTracksDatabase.albums = []) (hT : m.mTracksDatabase.tracks = [])
    (hO : m.mTracksDatabase.outcomes = [])
    (hl : Listable covers (tracks.map (fun g => g.2)))
    (hn : tracks.length ≤ 2147483647)
    (ht : ((tracks.map (fun g => g.2)).map (fun g => g.length)).sum ≤ 2147483647)
    (p r : Int) (hp0 : 0 ≤ p)
    (hp : p < LocalAlbumModel.rowCount (LocalAlbumModel.tracksList m tracks covers) {})
    (hr0 : 0 ≤ r)
    (hr : r < LocalAlbumModel.rowCount (LocalAlbumModel.tracksList m tracks covers)
      (LocalAlbumModel.index (LocalAlbumModel.tracksList m tracks covers) p 0 {})) :
    (LocalAlbumModel.index (LocalAlbumModel.tracksList m tracks covers) r 0
      (LocalAlbumModel.index (LocalAlbumModel.tracksList m tracks covers) p 0 {})).isValid
      = true ∧
    LocalAlbumModel.parent (LocalAlbumModel.tracksList m tracks covers)
        (LocalAlbumModel.index (LocalAlbumModel.tracksList m tracks covers) r 0
          (LocalAlbumModel.index (LocalAlbumModel.tracksList m tracks covers) p 0 {}))
      = LocalAlbumModel.index (LocalAlbumModel.tracksList m tracks covers) p 0 {} ∧
    (LocalAlbumModel.parent (LocalAlbumModel.tracksList m tracks covers)
      (LocalAlbumModel.index (LocalAlbumModel.tracksList m tracks covers) r 0
        (LocalAlbumModel.index (LocalAlbumModel.tracksList m tracks covers) p 0 {}))).row
      = p := by
  obtain ⟨i1, i2, i3, i4⟩ := localInitDatabase_of_nil m.mTracksDatabase hO
  have hinv0 : TreeInv (0 + (tracks.map (fun g => g.2)).length)
      (0 + ((tracks.map (fun g => g.2)).map (fun g => g.length)).sum)
      { db := LocalAlbumModel.initDatabase m.mTracksDatabase, mAlbumsData := [],
        mTracksInAlbums := m.mTracksInAlbums, albumId := 0 } := by
    refine ⟨i1, i2, ?_, ?_, ?_, ?_, ?_⟩
    · simp only [i3, hA, List.map_nil, List.length_nil]
      rfl
    · simp only [i4, hT]
      intro x hx
      simp at hx
    · simp only [List.length_nil, List.length_map]
      push_cast
      omega
    · simp only [i4, hT, List.map_nil]
      have h1 : nextRowId [] = 1 := rfl
      have h2 : ((((tracks.map (fun g => g.2)).map (fun g => g.length)).sum : Nat) : Int)
          ≤ 2147483647 := by exact_mod_cast ht
      rw [h1, Nat.zero_add]
      omega
    · intro q a hq
      simp at hq
  have hfresh0 : FreshFor covers (LocalAlbumModel.initDatabase m.mTracksDatabase)
      (tracks.map (fun g => g.2)) := by
    refine ⟨?_, ?_⟩
    · rw [i4, hT]
      intro x hx
      simp at hx
    · rw [i3, hA]
      intro x hx
      simp at hx
  obtain ⟨_, _, _, f4, f5, _, f7⟩ := groupLoop_inv covers (tracks.map (fun g => g.2))
    { db := LocalAlbumModel.initDatabase m.mTracksDatabase, mAlbumsData := [],
      mTracksInAlbums := m.mTracksInAlbums, albumId := 0 } 0 0 hinv0 hfresh0 hl
  exact tree_of_recorded (LocalAlbumModel.tracksList m tracks covers) f4
    (by simpa using f5) f7 p r hp0 hp hr0 hr

/-- C23, amended, on a new model and the listing of the albums `Foo` and `Qux`: the track
shown in row 0 under the album at position 1 has a valid index whose parent has row 1. -/
theorem tracksList_tree_consistent_witness :
    (LocalAlbumModel.index (LocalAlbumModel.tracksList {} twoAlbumsListing []) 0 0
      (LocalAlbumModel.index (LocalAlbumModel.tracksList {} twoAlbumsListing []) 1 0 {})).isValid
      = true ∧
    (LocalAlbumModel.parent (LocalAlbumModel.tracksList {} twoAlbumsListing [])
      (LocalAlbumModel.index (LocalAlbumModel.tracksList {} twoAlbumsListing []) 0 0
        (LocalAlbumModel.index (LocalAlbumModel.tracksList {} twoAlbumsListing []) 1 0 {}))).row
      = 1 :=
  ⟨(tracksList_tree_consistent {} twoAlbumsListing [] rfl rfl rfl (by decide) (by decide)
      (by decide) 1 0 (by decide) (by decide) (by decide) (by decide)).1,
   (tracksList_tree_consistent {} twoAlbumsListing [] rfl rfl rfl (by decide) (by decide)
      (by decide) 1 0 (by decide) (by decide) (by decide) (by decide)).2.2⟩

/-- C24 fails on the code: the listing of album `Foo` with `T1` and `T2` is processed twice
by a new model.  After the first time the model shows one album with two tracks; after the
second time it shows one album with no track: `mAlbumsData` is cleared and rebuilt, and a
track that the store already holds is skipped by the `continue` that follows the lookup, so
it is not put back into the album. -/
theorem tracksList_refresh_drops_tracks :
    LocalAlbumModel.rowCount fooModelOnce {} = 1 ∧
    LocalAlbumModel.rowCount fooModelOnce (LocalAlbumModel.index fooModelOnce 0 0 {}) = 2 ∧
    LocalAlbumModel.rowCount fooModelTwice {} = 1 ∧
    LocalAlbumModel.rowCount fooModelTwice (LocalAlbumModel.index fooModelTwice 0 0 {}) = 0 ∧
    fooModelTwice.mTracksDatabase.tracks.length = 2 := by
  decide

end Elisa
